import Mathlib

/-!
Verification of the storage-engine subsystems of the repository: the LRU
frame replacer (`src/buffer/lru_replacer.cpp`), the buffer pool manager
instance (`src/buffer/buffer_pool_manager_instance.cpp`), the bit-packed
hash-table bucket page (`src/storage/page/hash_table_bucket_page.cpp`) and
the extendible hash table (`src/container/hash/extendible_hash_table.cpp`).

Each C++ component is shallowly embedded as executable Lean functions over
explicit state records.  Machine integers are modelled as `Nat`/`Int`
(`page_id_t` is `Int` with `INVALID_PAGE_ID = -1`; byte values are `Nat`
kept below 256 by the operations themselves); fallible paths (fatal
assertions, allocation failure, depth overflow) are modelled with `Option`.
The directory page implementation (`hash_table_directory_page.cpp`) is not
part of the sources, so its operations are modelled from the specification
(each such definition is marked `Modelled from the spec:`).

The file is laid out with all definitions first and all theorems afterwards.
-/

namespace BusTub

/-! ## LRU replacer (`src/buffer/lru_replacer.cpp`)

The replacer state is the `frames_` list: front is the least-recently
unpinned (victim) end, back is the most-recently unpinned end.  The
side-table `frames_table_` of the source only caches membership and node
positions, so it is represented by list membership. -/

namespace LRU

/-- `LRUReplacer::Victim`: if the list is empty fail, otherwise remove and
return the front (least-recently-unpinned) frame. -/
def victim (r : List Nat) : Option Nat × List Nat :=
  match r with
  | [] => (none, [])
  | f :: rest => (some f, rest)

/-- `LRUReplacer::Pin`: remove the frame if tracked, no-op otherwise. -/
def pin (r : List Nat) (f : Nat) : List Nat :=
  if f ∈ r then r.erase f else r

/-- `LRUReplacer::Unpin`: if the frame is already tracked do nothing,
otherwise append it at the back (most-recently-unpinned end). -/
def unpin (r : List Nat) (f : Nat) : List Nat :=
  if f ∈ r then r else r ++ [f]

/-- `LRUReplacer::Size`. -/
def size (r : List Nat) : Nat := r.length

end LRU

/-! ## Buffer pool manager instance (`src/buffer/buffer_pool_manager_instance.cpp`)

A `Page` frame carries the metadata of the C++ `Page` object plus an
abstract `data : Nat` standing for the `PAGE_SIZE` byte buffer (`0` is the
zeroed buffer).  The page table is an association list from page id to frame
index; the disk is the list of `WritePage` calls performed (most recent
first).  `pin_count_` in the source is a signed `int`, hence `Int` here. -/

def INVALID_PAGE_ID : Int := -1

structure Page where
  page_id : Int
  pin_count : Int
  is_dirty : Bool
  data : Nat
deriving Repr, DecidableEq

instance : Inhabited Page :=
  ⟨{ page_id := INVALID_PAGE_ID, pin_count := 0, is_dirty := false, data := 0 }⟩

namespace BPM

/-- Lookup in the `page_table_` map (`page_table_.find(pid)`). -/
def ptFind (pt : List (Int × Nat)) (pid : Int) : Option Nat :=
  (pt.find? (fun e => e.1 == pid)).map (·.2)

/-- Erasure from the `page_table_` map (`page_table_.erase(pid)`). -/
def ptErase (pt : List (Int × Nat)) (pid : Int) : List (Int × Nat) :=
  pt.filter (fun e => ! (e.1 == pid))

/-- Assignment `page_table_[pid] = frame_id` (insert or overwrite). -/
def ptInsert (pt : List (Int × Nat)) (pid : Int) (f : Nat) : List (Int × Nat) :=
  (pid, f) :: ptErase pt pid

/-- State of one `BufferPoolManagerInstance`. -/
structure State where
  num_instances : Nat
  instance_index : Nat
  next_page_id : Int
  pages : List Page
  page_table : List (Int × Nat)
  free_list : List Nat
  replacer : List Nat
  disk : List (Int × Nat)
deriving Repr, DecidableEq

/-- `AllocatePage`: hand out `next_page_id_` and advance it by
`num_instances_` (the stride scheme). -/
def allocatePage (s : State) : Int × State :=
  (s.next_page_id, { s with next_page_id := s.next_page_id + (s.num_instances : Int) })

/-- Victim-frame selection shared by `NewPgImp` and `FetchPgImp`: always the
free list first, then `replacer_->Victim`.  Returns the frame id and the
updated free list and replacer.  The last branch is unreachable whenever the
caller has checked `replacer_->Size() == 0 && free_list_.empty()` first. -/
def pickVictim (s : State) : Nat × List Nat × List Nat :=
  match s.free_list with
  | f :: rest => (f, rest, s.replacer)
  | [] =>
    match LRU.victim s.replacer with
    | (some f, r) => (f, [], r)
    | (none, _) => (0, [], [])

/-- `NewPgImp`: fail if all frames are pinned; otherwise pick a victim
frame, flush it if dirty, evict its mapping, allocate a fresh page id,
zero the buffer, set `pin_count = 1` and `is_dirty = false`, and install
the new mapping.  `(none, s)` models the `nullptr` return. -/
def newPage (s : State) : Option Int × State :=
  if s.replacer.length = 0 ∧ s.free_list.isEmpty then (none, s)
  else
    let v := pickVictim s
    let page := s.pages.getD v.1 default
    let disk1 := if page.is_dirty then (page.page_id, page.data) :: s.disk else s.disk
    let pt1 := ptErase s.page_table page.page_id
    let a := allocatePage { s with disk := disk1, page_table := pt1,
                                   free_list := v.2.1, replacer := v.2.2 }
    let page1 : Page := { page_id := a.1, pin_count := 1, is_dirty := false, data := 0 }
    (some a.1, { a.2 with pages := s.pages.set v.1 page1,
                          page_table := ptInsert pt1 a.1 v.1 })

/-- `DeletePgImp`: unmapped page ids succeed trivially; a pinned page fails;
otherwise flush if dirty, reset the frame metadata, return the frame to the
free list, `Pin` it out of the replacer and erase the mapping. -/
def deletePage (s : State) (pid : Int) : Bool × State :=
  match ptFind s.page_table pid with
  | none => (true, s)
  | some f =>
    let page := s.pages.getD f default
    if page.pin_count ≠ 0 then (false, s)
    else
      let disk1 := if page.is_dirty then (page.page_id, page.data) :: s.disk else s.disk
      let page1 : Page := { page_id := INVALID_PAGE_ID, pin_count := page.pin_count,
                            is_dirty := false, data := 0 }
      (true, { s with pages := s.pages.set f page1, disk := disk1,
                      free_list := s.free_list ++ [f],
                      replacer := LRU.pin s.replacer f,
                      page_table := ptErase s.page_table pid })

/-- `UnpinPgImp`: fail on an unmapped page id; otherwise or the dirty flag
in, decrement `pin_count_` (the source performs no under-flow check), and
hand the frame to the replacer when the count reaches zero. -/
def unpinPage (s : State) (pid : Int) (is_dirty : Bool) : Bool × State :=
  match ptFind s.page_table pid with
  | none => (false, s)
  | some f =>
    let page := s.pages.getD f default
    let page1 : Page := { page with is_dirty := is_dirty || page.is_dirty,
                                    pin_count := page.pin_count - 1 }
    let rep1 := if page1.pin_count = 0 then LRU.unpin s.replacer f else s.replacer
    (true, { s with pages := s.pages.set f page1, replacer := rep1 })

/-- A buffer pool state with one frame mapped to page id 5 whose pin count
is already zero, used to exercise `UnpinPgImp` under-flow. -/
def underflowState : State :=
  { num_instances := 1, instance_index := 0, next_page_id := 6,
    pages := [{ page_id := 5, pin_count := 0, is_dirty := false, data := 7 }],
    page_table := [(5, 0)], free_list := [], replacer := [0], disk := [] }

end BPM

/-! ## Hash table bucket page (`src/storage/page/hash_table_bucket_page.cpp`)

The page holds two bitmaps (`occupied_`, `readable_`) stored as byte lists
with MSB-first bit addressing, and the slot array `array_` of key/value
pairs.  The capacity `BUCKET_ARRAY_SIZE` is a parameter `n` of every
operation; the `<int, int, IntComparator>` instantiation is embedded, so
keys and values are `Nat` and the comparator is equality. -/

structure HashTableBucketPage where
  occupied_ : List Nat
  readable_ : List Nat
  array_ : List (Nat × Nat)
deriving Repr, DecidableEq

namespace HashTableBucketPage

/-- `KeyAt`: `array_[bucket_idx].first`. -/
def KeyAt (b : HashTableBucketPage) (i : Nat) : Nat := (b.array_.getD i (0, 0)).1

/-- `ValueAt`: `array_[bucket_idx].second`. -/
def ValueAt (b : HashTableBucketPage) (i : Nat) : Nat := (b.array_.getD i (0, 0)).2

/-- `IsOccupied`: bit `7 - (i % 8)` of byte `i / 8` of `occupied_`. -/
def IsOccupied (b : HashTableBucketPage) (i : Nat) : Bool :=
  (b.occupied_.getD (i / 8) 0).testBit (7 - i % 8)

/-- `IsReadable`: bit `7 - (i % 8)` of byte `i / 8` of `readable_`. -/
def IsReadable (b : HashTableBucketPage) (i : Nat) : Bool :=
  (b.readable_.getD (i / 8) 0).testBit (7 - i % 8)

/-- `SetOccupied`: or the MSB-first bit for slot `i` into its byte. -/
def SetOccupied (b : HashTableBucketPage) (i : Nat) : HashTableBucketPage :=
  { b with occupied_ :=
      b.occupied_.set (i / 8) ((b.occupied_.getD (i / 8) 0) ||| (1 <<< (7 - i % 8))) }

/-- `SetReadable`: or the MSB-first bit for slot `i` into its byte. -/
def SetReadable (b : HashTableBucketPage) (i : Nat) : HashTableBucketPage :=
  { b with readable_ :=
      b.readable_.set (i / 8) ((b.readable_.getD (i / 8) 0) ||| (1 <<< (7 - i % 8))) }

/-- `RemoveAt`: clear the readable bit of slot `i`
(`change &= ~(0x1 << (7 - i % 8))` on an 8-bit byte). -/
def RemoveAt (b : HashTableBucketPage) (i : Nat) : HashTableBucketPage :=
  { b with readable_ :=
      b.readable_.set (i / 8) ((b.readable_.getD (i / 8) 0) &&& (255 ^^^ (1 <<< (7 - i % 8)))) }

/-- The scanning loop of `Insert` (lines 38-47): walk the indices tracking
the first non-readable slot in `idx` (sentinel `n`), returning early with
`true` when a readable slot holds the same key and value. -/
def InsertLoop (n : Nat) (b : HashTableBucketPage) (k v : Nat) :
    List Nat → Nat → Bool × Nat
  | [], idx => (false, idx)
  | i :: rest, idx =>
    let idx1 := if idx == n && ! IsReadable b i then i else idx
    if IsReadable b i && (KeyAt b i == k) && (ValueAt b i == v) then (true, idx1)
    else InsertLoop n b k v rest idx1

/-- `Insert`: refuse a duplicate pair, refuse a full page, otherwise write
`(k, v)` into the first non-readable slot and set its bits. -/
def Insert (n : Nat) (b : HashTableBucketPage) (k v : Nat) :
    Bool × HashTableBucketPage :=
  let r := InsertLoop n b k v (List.range n) n
  if r.1 then (false, b)
  else if r.2 == n then (false, b)
  else
    let b1 := { b with array_ := b.array_.set r.2 (k, v) }
    (true, SetReadable (SetOccupied b1 r.2) r.2)

/-- `GetValue`: collect the values of every readable slot whose key matches,
in slot order; the flag records whether any matched. -/
def GetValue (n : Nat) (b : HashTableBucketPage) (k : Nat) : Bool × List Nat :=
  (List.range n).foldl
    (fun acc i =>
      if IsReadable b i && (KeyAt b i == k) then (true, acc.2 ++ [ValueAt b i]) else acc)
    (false, [])

/-- `Remove`: clear the readable bit of every slot whose key and value both
match; the flag records whether any was cleared. -/
def Remove (n : Nat) (b : HashTableBucketPage) (k v : Nat) :
    Bool × HashTableBucketPage :=
  (List.range n).foldl
    (fun acc i =>
      if IsReadable acc.2 i && (KeyAt acc.2 i == k) && (ValueAt acc.2 i == v)
      then (true, RemoveAt acc.2 i) else acc)
    (false, b)

/-- `IsFull` as written in the source (lines 118-127): it returns `true`
exactly when every byte of `readable_` satisfies `(byte & 0xff) == 0`. -/
def IsFull (n : Nat) (b : HashTableBucketPage) : Bool :=
  (List.range ((n - 1) / 8 + 1)).all (fun i => (b.readable_.getD i 0) &&& 255 == 0)

/-- `IsEmpty`: no readable slot among the `n` valid ones. -/
def IsEmpty (n : Nat) (b : HashTableBucketPage) : Bool :=
  (List.range n).all (fun i => ! IsReadable b i)

/-- `NumReadable`: popcount of the readable bitmap over valid slots. -/
def NumReadable (n : Nat) (b : HashTableBucketPage) : Nat :=
  (List.range n).countP (fun i => IsReadable b i)

/-- A zeroed bucket page, as produced by `NewPage` (the buffer pool zeroes
the frame memory). -/
def empty (n : Nat) : HashTableBucketPage :=
  { occupied_ := List.replicate ((n - 1) / 8 + 1) 0,
    readable_ := List.replicate ((n - 1) / 8 + 1) 0,
    array_ := List.replicate n (0, 0) }

end HashTableBucketPage

/-- `BUCKET_ARRAY_SIZE` of the `<int, int, IntComparator>` instantiation:
`4 * PAGE_SIZE / (4 * sizeof(MappingType) + 1) = 4 * 4096 / 33 = 496`. -/
def BUCKET_ARRAY_SIZE : Nat := 4 * 4096 / (4 * 8 + 1)

/-- A bucket page of capacity 496 with every readable and occupied bit set
and pairwise distinct entries `(0, i)`. -/
def fullBucket496 : HashTableBucketPage :=
  { occupied_ := List.replicate 62 255,
    readable_ := List.replicate 62 255,
    array_ := (List.range 496).map (fun i => (0, i)) }

/-! ## Hash table directory page

`hash_table_directory_page.cpp` is not among the sources, so the directory
page is modelled from the specification (sections 3, 4.4 and the glossary):
a `global_depth` with two arrays of length `2^MAX_DEPTH` of which the first
`2^global_depth` entries are live.  The arrays are represented as functions
from the slot index. -/

structure HashTableDirectoryPage where
  global_depth_ : Nat
  bucket_page_ids_ : Nat → Int
  local_depths_ : Nat → Nat

namespace HashTableDirectoryPage

/-- Modelled from the spec: the current global depth. -/
def GetGlobalDepth (d : HashTableDirectoryPage) : Nat := d.global_depth_

/-- Modelled from the spec (D-5): `(1 << global_depth) - 1`. -/
def GetGlobalDepthMask (d : HashTableDirectoryPage) : Nat :=
  (1 <<< d.global_depth_) - 1

/-- Modelled from the spec: the local depth of a directory slot. -/
def GetLocalDepth (d : HashTableDirectoryPage) (i : Nat) : Nat := d.local_depths_ i

/-- Modelled from the spec: `(1 << local_depth[i]) - 1`. -/
def GetLocalDepthMask (d : HashTableDirectoryPage) (i : Nat) : Nat :=
  (1 <<< d.local_depths_ i) - 1

/-- Modelled from the spec: the bucket page id of a directory slot. -/
def GetBucketPageId (d : HashTableDirectoryPage) (i : Nat) : Int :=
  d.bucket_page_ids_ i

/-- Modelled from the spec: pointwise update of `bucket_page_ids_`. -/
def SetBucketPageId (d : HashTableDirectoryPage) (i : Nat) (p : Int) :
    HashTableDirectoryPage :=
  { d with bucket_page_ids_ := fun j => if j = i then p else d.bucket_page_ids_ j }

/-- Modelled from the spec: pointwise update of `local_depths_`. -/
def SetLocalDepth (d : HashTableDirectoryPage) (i : Nat) (l : Nat) :
    HashTableDirectoryPage :=
  { d with local_depths_ := fun j => if j = i then l else d.local_depths_ j }

/-- Modelled from the spec: increment one local depth. -/
def IncrLocalDepth (d : HashTableDirectoryPage) (i : Nat) : HashTableDirectoryPage :=
  d.SetLocalDepth i (d.GetLocalDepth i + 1)

/-- Modelled from the spec: decrement one local depth. -/
def DecrLocalDepth (d : HashTableDirectoryPage) (i : Nat) : HashTableDirectoryPage :=
  d.SetLocalDepth i (d.GetLocalDepth i - 1)

/-- Modelled from the spec: increment the global depth (the `DepthOverflow`
fatality of section 7 is enforced at the call site in `SplitInsert`). -/
def IncrGlobalDepth (d : HashTableDirectoryPage) : HashTableDirectoryPage :=
  { d with global_depth_ := d.global_depth_ + 1 }

/-- Modelled from the spec: decrement the global depth. -/
def DecrGlobalDepth (d : HashTableDirectoryPage) : HashTableDirectoryPage :=
  { d with global_depth_ := d.global_depth_ - 1 }

/-- Modelled from the spec: the number of live directory slots,
`2^global_depth`. -/
def Size (d : HashTableDirectoryPage) : Nat := 1 <<< d.global_depth_

/-- Modelled from the spec (glossary): the split image differs from the slot
exactly in bit position `local_depth - 1`. -/
def GetSplitImageIndex (d : HashTableDirectoryPage) (i : Nat) : Nat :=
  i ^^^ (1 <<< (d.local_depths_ i - 1))

/-- Modelled from the spec (D-4): the directory can shrink iff every live
slot's local depth is below the global depth. -/
def CanShrink (d : HashTableDirectoryPage) : Bool :=
  (List.range d.Size).all (fun i => d.local_depths_ i < d.global_depth_)

end HashTableDirectoryPage

/-! ## Extendible hash table (`src/container/hash/extendible_hash_table.cpp`)

The logical state is the directory page content, the store of allocated
bucket pages (page id to page) and the allocation counter of the buffer
pool.  The constructor allocates page id 0 for the directory and page id 1
for the first bucket (a fresh pool with `instance_index = 0`, stride 1).
Buffer-pool traffic is recorded as a list of `Ev` events so that the
pin/unpin discipline is part of the model; fetches are assumed to hit
(the pool is large enough that the three pages an operation pins never
exhaust it), and `reinterpret_cast` of a frame is the store lookup. -/

inductive Ev where
  | fetch (pid : Int)
  | newp (pid : Int)
  | unpin (pid : Int) (dirty : Bool)
  | del (pid : Int)
deriving Repr, DecidableEq

abbrev Store := List (Int × HashTableBucketPage)

/-- Lookup of an allocated page. -/
def storeGet (st : Store) (p : Int) : Option HashTableBucketPage :=
  (st.find? (fun e => e.1 == p)).map (·.2)

/-- In-place mutation of the page with id `p` (the frame bytes are
overwritten, so any previous binding of `p` is dropped). -/
def storeSet (st : Store) (p : Int) (b : HashTableBucketPage) : Store :=
  (p, b) :: st.filter (fun e => ! (e.1 == p))

/-- `DeletePage` on the buffer pool: the page id disappears. -/
def storeDel (st : Store) (p : Int) : Store :=
  st.filter (fun e => ! (e.1 == p))

/-- Template/compile-time parameters of one hash-table instantiation:
`BUCKET_ARRAY_SIZE`, `MAX_DEPTH` (9 for the 512-entry directory) and the
hash collaborator (`GetHash` composed with the `uint32_t` downcast; an
arbitrary pure function). -/
structure Cfg where
  n : Nat
  maxDepth : Nat
  hash : Nat → Nat

/-- Logical state of the extendible hash table. -/
structure HT where
  dir : HashTableDirectoryPage
  store : Store
  next_pid : Int

/-- `directory_page_id_`: the first page the constructor allocates. -/
def directory_page_id : Int := 0

/-- State after the constructor: directory page zeroed by `NewPage` (global
depth 0, all slots 0), first bucket page id 1 installed at slot 0 with local
depth 0. -/
def initHT (cfg : Cfg) : HT :=
  { dir := { global_depth_ := 0,
             bucket_page_ids_ := fun i => if i = 0 then 1 else 0,
             local_depths_ := fun _ => 0 },
    store := [(1, HashTableBucketPage.empty cfg.n)],
    next_pid := 2 }

namespace EHT

/-- `Hash`: the hash collaborator as a pure function. -/
def Hash (cfg : Cfg) (k : Nat) : Nat := cfg.hash k

/-- `KeyToDirectoryIndex`: `Hash(key) & GetGlobalDepthMask()`. -/
def KeyToDirectoryIndex (cfg : Cfg) (k : Nat) (d : HashTableDirectoryPage) : Nat :=
  Hash cfg k &&& d.GetGlobalDepthMask

/-- `KeyToPageId`: the bucket page id of the routed slot. -/
def KeyToPageId (cfg : Cfg) (k : Nat) (d : HashTableDirectoryPage) : Int :=
  d.GetBucketPageId (KeyToDirectoryIndex cfg k d)

/-- `FetchBucketPage` followed by the `reinterpret_cast`: the bucket page
stored under `p` (the default is never reached for a mapped page id). -/
def bucketAt (cfg : Cfg) (st : Store) (p : Int) : HashTableBucketPage :=
  (storeGet st p).getD (HashTableBucketPage.empty cfg.n)

/-- The duplicate/free scan at the head of `SplitInsert` (lines 184-195):
track the first slot with `!IsOccupied || !IsReadable` in `fp` (sentinel
`n`), breaking with `true` at the first readable slot holding the pair. -/
def SplitScanLoop (n : Nat) (b : HashTableBucketPage) (k v : Nat) :
    List Nat → Nat → Bool × Nat
  | [], fp => (false, fp)
  | i :: rest, fp =>
    let fp1 := if fp == n && (! b.IsOccupied i || ! b.IsReadable i) then i else fp
    if b.IsReadable i && (b.KeyAt i == k) && (b.ValueAt i == v) then (true, fp1)
    else SplitScanLoop n b k v rest fp1

/-- The full duplicate/free scan over all `n` slots. -/
def SplitScan (n : Nat) (b : HashTableBucketPage) (k v : Nat) : Bool × Nat :=
  SplitScanLoop n b k v (List.range n) n

/-- The directory-doubling loop of `SplitInsert` (lines 218-222): replicate
the live half into the upper half. -/
def GrowLoop (d : HashTableDirectoryPage) : HashTableDirectoryPage :=
  (List.range d.Size).foldl
    (fun d2 idx =>
      let mask := 1 <<< d2.GetGlobalDepth
      (d2.SetBucketPageId (idx ||| mask) (d2.GetBucketPageId idx)).SetLocalDepth
        (idx ||| mask) (d2.GetLocalDepth idx))
    d

/-- The redistribution loop shared by both split cases (lines 230-239 and
274-283): every slot whose key satisfies `cond` is inserted into the new
bucket and removed from the old one; `fr` becomes true if anything moved.
The per-slot readability assertion is checked before this loop runs. -/
def Redistribute (n : Nat) (cond : Nat → Bool) :
    HashTableBucketPage → HashTableBucketPage → Bool → List Nat →
    HashTableBucketPage × HashTableBucketPage × Bool
  | old, nw, fr, [] => (old, nw, fr)
  | old, nw, fr, i :: rest =>
    if cond (old.KeyAt i) then
      Redistribute n cond (old.RemoveAt i)
        (HashTableBucketPage.Insert n nw (old.KeyAt i) (old.ValueAt i)).2 true rest
    else Redistribute n cond old nw fr rest

/-- The pointer fan-out loop of split case B (lines 287-294): every live
slot still pointing at the old bucket gets local depth `local_depth + 1` and
is pointed at the old or the new bucket according to its low bits. -/
def FanLoop (d : HashTableDirectoryPage) (old_pid new_pid : Int)
    (index mask local_depth size : Nat) : HashTableDirectoryPage :=
  (List.range size).foldl
    (fun d2 i =>
      if d2.GetBucketPageId i == old_pid then
        (d2.SetLocalDepth i (local_depth + 1)).SetBucketPageId i
          (if (i &&& mask) == (index &&& mask) then old_pid else new_pid)
      else d2)
    d

/-- Split case A of `SplitInsert` (lines 214-256): the local depth equals
the global depth, so the directory doubles first.  `none` models the
abnormal exits: a failed `assert`, or a split that would need
`global_depth > MAX_DEPTH` (Modelled from the spec: `DepthOverflow` is
fatal).  The in-loop readability assertion is hoisted to a check over the
bucket it reads, which prior loop iterations never modify.  The result is
either a finished `SplitInsert` result (`inl`) or, when the entry still did
not fit, the state and events with which the tail-recursive retry proceeds
(`inr`). -/
def SplitCaseA (cfg : Cfg) (s : HT) (k v : Nat) (index : Nat) (old_pid : Int)
    (old : HashTableBucketPage) :
    Option ((Bool × HT × List Ev) ⊕ (HT × List Ev)) :=
  if s.dir.global_depth_ = cfg.maxDepth then none
  else
    let d := s.dir
    let new_index := index ||| (1 <<< d.GetGlobalDepth)
    let d2 := (GrowLoop d).IncrGlobalDepth
    if d2.GetBucketPageId index = d2.GetBucketPageId new_index then
      let new_pid := s.next_pid
      if ∀ i < cfg.n, old.IsReadable i = true then
        let red := Redistribute cfg.n
            (fun ck => KeyToDirectoryIndex cfg ck d2 == new_index)
            old (HashTableBucketPage.empty cfg.n) false (List.range cfg.n)
        let d3 := d2.SetBucketPageId new_index new_pid
        let d4 := (d3.SetLocalDepth new_index d3.GetGlobalDepth).SetLocalDepth
            index d3.GetGlobalDepth
        let key_index := KeyToDirectoryIndex cfg k d4
        let step : Option (Bool × HashTableBucketPage × HashTableBucketPage) :=
          if key_index = index ∧ red.2.2 = true then
            let t := HashTableBucketPage.Insert cfg.n red.1 k v
            if t.1 then some (true, t.2, red.2.1) else none
          else if key_index = new_index then
            let t := HashTableBucketPage.Insert cfg.n red.2.1 k v
            if t.1 then some (true, red.1, t.2) else none
          else some (false, red.1, red.2.1)
        match step with
        | none => none
        | some (ret, old2, new2) =>
          let s2 : HT := { dir := d4,
                           store := storeSet (storeSet s.store old_pid old2) new_pid new2,
                           next_pid := s.next_pid + 1 }
          let ev : List Ev := [.fetch directory_page_id, .fetch old_pid, .newp new_pid,
                               .unpin old_pid red.2.2,
                               .unpin new_pid (red.2.2 || key_index == new_index),
                               .unpin directory_page_id true]
          if ret then some (.inl (true, s2, ev)) else some (.inr (s2, ev))
      else none
    else none

/-- Split case B of `SplitInsert` (lines 257-302): the local depth is below
the global depth, so the directory keeps its size and the aliasing slots of
the old bucket are fanned out over the two buckets. -/
def SplitCaseB (cfg : Cfg) (s : HT) (k v : Nat) (index : Nat) (old_pid : Int)
    (old : HashTableBucketPage) :
    Option ((Bool × HT × List Ev) ⊕ (HT × List Ev)) :=
  let d := s.dir
  let local_depth := d.GetLocalDepth index
  let new_index := (1 <<< local_depth) ^^^ index
  if local_depth < d.GetGlobalDepth then
    let new_pid := s.next_pid
    if d.GetLocalDepth new_index = local_depth then
      let d1 := d.SetBucketPageId new_index new_pid
      let d2 := (d1.IncrLocalDepth index).IncrLocalDepth new_index
      let mask := d2.GetLocalDepthMask index
      if ∀ i < cfg.n, old.IsReadable i = true then
        let red := Redistribute cfg.n
            (fun ck => (mask &&& Hash cfg ck) == (new_index &&& mask))
            old (HashTableBucketPage.empty cfg.n) false (List.range cfg.n)
        let size := d2.Size
        if ∀ i < size, d2.GetBucketPageId i = old_pid →
            i = index ∨ i = new_index ∨ d2.GetLocalDepth i = local_depth then
          let d3 := FanLoop d2 old_pid new_pid index mask local_depth size
          let step : Option (Bool × HashTableBucketPage) :=
            if red.2.2 = true then
              let t := HashTableBucketPage.Insert cfg.n red.1 k v
              if t.1 then some (true, t.2) else none
            else some (false, red.1)
          match step with
          | none => none
          | some (ret, old2) =>
            let s2 : HT := { dir := d3,
                             store := storeSet (storeSet s.store old_pid old2) new_pid red.2.1,
                             next_pid := s.next_pid + 1 }
            let ev : List Ev := [.fetch directory_page_id, .fetch old_pid, .newp new_pid,
                                 .unpin old_pid red.2.2, .unpin new_pid red.2.2,
                                 .unpin directory_page_id true]
            if ret then some (.inl (true, s2, ev)) else some (.inr (s2, ev))
        else none
      else none
    else none
  else none

/-- One pass of `SplitInsert` (lines 161-309 up to the tail recursion):
re-route, re-scan for a duplicate or a freed slot, otherwise split. -/
def SplitStep (cfg : Cfg) (s : HT) (k v : Nat) :
    Option ((Bool × HT × List Ev) ⊕ (HT × List Ev)) :=
  let d := s.dir
  let index := KeyToDirectoryIndex cfg k d
  let old_pid := d.GetBucketPageId index
  let old := bucketAt cfg s.store old_pid
  let scan := SplitScan cfg.n old k v
  if scan.1 then
    some (.inl (false, s, [.fetch directory_page_id, .fetch old_pid,
                           .unpin directory_page_id false, .unpin old_pid false]))
  else if scan.2 ≠ cfg.n then
    let r := HashTableBucketPage.Insert cfg.n old k v
    some (.inl (true, { s with store := storeSet s.store old_pid r.2 },
          [.fetch directory_page_id, .fetch old_pid,
           .unpin directory_page_id false, .unpin old_pid true]))
  else if d.GetLocalDepth index = d.GetGlobalDepth then
    SplitCaseA cfg s k v index old_pid old
  else SplitCaseB cfg s k v index old_pid old

/-- Prefix the events of a nested `SplitInsert` result. -/
def withTail (head : List Ev) (res : Option (Bool × HT × List Ev)) :
    Option (Bool × HT × List Ev) :=
  match res with
  | some (r2, s2, ev2) => some (r2, s2, head ++ ev2)
  | none => none

/-- Prefix the events of a nested `Merge` result (the enclosing `Remove`
returns true in that case). -/
def withTailMerge (head : List Ev) (res : Option (HT × List Ev)) :
    Option (Bool × HT × List Ev) :=
  match res with
  | some (s2, ev2) => some (true, s2, head ++ ev2)
  | none => none

/-- `SplitInsert` with explicit recursion fuel: run one pass, then retry on
the updated table when the entry still did not fit (the source tail-recurses
at line 306). -/
def SplitInsert (cfg : Cfg) : Nat → HT → Nat → Nat → Option (Bool × HT × List Ev)
  | 0, _, _, _ => none
  | fuel + 1, s, k, v =>
    match SplitStep cfg s k v with
    | none => none
    | some (.inl res) => some res
    | some (.inr (s2, ev)) => withTail ev (SplitInsert cfg fuel s2 k v)

/-- `GetValue` (lines 108-129). -/
def GetValue (cfg : Cfg) (s : HT) (k : Nat) : (Bool × List Nat) × HT × List Ev :=
  let d := s.dir
  let bucket_page_id := KeyToPageId cfg k d
  let b := bucketAt cfg s.store bucket_page_id
  let r := HashTableBucketPage.GetValue cfg.n b k
  (r, s, [.fetch directory_page_id, .fetch bucket_page_id,
          .unpin directory_page_id false, .unpin bucket_page_id false])

/-- `Insert` (lines 134-159): try the routed bucket under the read latch,
falling back to `SplitInsert` when the bucket insert failed. -/
def Insert (cfg : Cfg) (fuel : Nat) (s : HT) (k v : Nat) :
    Option (Bool × HT × List Ev) :=
  let d := s.dir
  let pid := KeyToPageId cfg k d
  let b := bucketAt cfg s.store pid
  let r := HashTableBucketPage.Insert cfg.n b k v
  let s1 := if r.1 then { s with store := storeSet s.store pid r.2 } else s
  let ev : List Ev := [.fetch directory_page_id, .fetch pid,
                       .unpin directory_page_id false, .unpin pid r.1]
  if r.1 then some (true, s1, ev)
  else withTail ev (SplitInsert cfg fuel s1 k v)

/-- The directory rewrite loop of `Merge` (lines 375-381). -/
def MergeFan (d : HashTableDirectoryPage) (bucket_page_id merge_page_id : Int) :
    HashTableDirectoryPage :=
  (List.range d.Size).foldl
    (fun d2 i =>
      let curr := d2.GetBucketPageId i
      if curr == bucket_page_id || curr == merge_page_id then
        (d2.SetBucketPageId i merge_page_id).DecrLocalDepth i
      else d2)
    d

/-- One iteration of the `while (true)` loop of `Merge` (lines 359-400):
fetch the routed bucket; if it is empty with positive local depth and its
split image has the same local depth, rewrite the directory, delete the
emptied page and continue at the image slot (shrinking the directory if
`CanShrink`); otherwise stop.  `inl` carries the bucket-page events of a
stopping iteration, `inr` the updated directory, store, next slot and
events of a merging iteration. -/
def MergeStep (cfg : Cfg) (d : HashTableDirectoryPage) (st : Store)
    (bucket_index : Nat) :
    (List Ev) ⊕ (HashTableDirectoryPage × Store × Nat × List Ev) :=
  let bucket_page_id := d.GetBucketPageId bucket_index
  let bucket_local_depth := d.GetLocalDepth bucket_index
  let b := bucketAt cfg st bucket_page_id
  if 0 < bucket_local_depth ∧ HashTableBucketPage.IsEmpty cfg.n b = true then
    let merge_index := d.GetSplitImageIndex bucket_index
    let merge_page_id := d.GetBucketPageId merge_index
    let merge_local_depth := d.GetLocalDepth merge_index
    if bucket_local_depth = merge_local_depth then
      let d1 := MergeFan d bucket_page_id merge_page_id
      let st1 := storeDel st bucket_page_id
      let d2 := if d1.CanShrink then d1.DecrGlobalDepth else d1
      let next_index := if d1.CanShrink then merge_index &&& d2.GetGlobalDepthMask
                        else merge_index
      .inr (d2, st1, next_index,
            [Ev.fetch bucket_page_id, Ev.unpin bucket_page_id false,
             Ev.del bucket_page_id])
    else .inl [Ev.fetch bucket_page_id, Ev.unpin bucket_page_id false]
  else .inl [Ev.fetch bucket_page_id, Ev.unpin bucket_page_id false]

/-- The `while (true)` loop of `Merge` with fuel: iterate `MergeStep`; the
dirty flag becomes true as soon as one merge happened. -/
def MergeLoop (cfg : Cfg) : Nat → HashTableDirectoryPage → Store → Nat → Bool →
    Option (HashTableDirectoryPage × Store × List Ev × Bool)
  | 0, _, _, _, _ => none
  | fuel + 1, d, st, bucket_index, is_dirty =>
    match MergeStep cfg d st bucket_index with
    | .inl ev => some (d, st, ev, is_dirty)
    | .inr (d2, st1, next_index, ev) =>
      match MergeLoop cfg fuel d2 st1 next_index true with
      | some (dF, stF, evF, dirtyF) => some (dF, stF, ev ++ evF, dirtyF)
      | none => none

/-- `Merge` (lines 339-404): fetch the directory, loop over cascaded merges,
unpin the directory with the accumulated dirty flag. -/
def Merge (cfg : Cfg) (s : HT) (k _v : Nat) : Option (HT × List Ev) :=
  let d := s.dir
  let bucket_index := KeyToDirectoryIndex cfg k d
  match MergeLoop cfg (cfg.maxDepth + 1) d s.store bucket_index false with
  | some (dF, stF, ev, is_dirty) =>
    some ({ dir := dF, store := stF, next_pid := s.next_pid },
          [Ev.fetch directory_page_id] ++ ev ++ [Ev.unpin directory_page_id is_dirty])
  | none => none

/-- `Remove` (lines 315-334): remove in the routed bucket, then `Merge`
when something was removed. -/
def Remove (cfg : Cfg) (s : HT) (k v : Nat) : Option (Bool × HT × List Ev) :=
  let d := s.dir
  let pid := KeyToPageId cfg k d
  let b := bucketAt cfg s.store pid
  let r := HashTableBucketPage.Remove cfg.n b k v
  let s1 := if r.1 then { s with store := storeSet s.store pid r.2 } else s
  let ev : List Ev := [.fetch directory_page_id, .fetch pid,
                       .unpin directory_page_id false, .unpin pid r.1]
  if r.1 then withTailMerge ev (Merge cfg s1 k v)
  else some (false, s1, ev)

/-- `GetGlobalDepth` (lines 408-416). -/
def GetGlobalDepthOp (s : HT) : Nat × List Ev :=
  (s.dir.GetGlobalDepth, [.fetch directory_page_id, .unpin directory_page_id false])

/-- `VerifyIntegrity` (lines 421-428); the directory-page body is Modelled
from the spec: read-only introspection. -/
def VerifyIntegrityOp (_s : HT) : List Ev :=
  [.fetch directory_page_id, .unpin directory_page_id false]

/-- Count of `FetchPage`/`NewPage` events for one page id. -/
def acquires (tr : List Ev) (pid : Int) : Nat :=
  tr.countP (fun e => match e with
    | .fetch q => q == pid
    | .newp q => q == pid
    | _ => false)

/-- Count of `UnpinPage` events for one page id. -/
def unpins (tr : List Ev) (pid : Int) : Nat :=
  tr.countP (fun e => match e with
    | .unpin q _ => q == pid
    | _ => false)

end EHT

/-! ## Invariants of the hash table model -/

namespace HashTableBucketPage

/-- The pair stored in slot `i`. -/
def Entry (b : HashTableBucketPage) (i : Nat) : Nat × Nat := (b.KeyAt i, b.ValueAt i)

end HashTableBucketPage

/-- Well-formedness of a bucket page of capacity `n`: the bitmaps have the
layout the page carries on disk (one byte per 8 slots, bytes below 256) and
`BK-1` (readable implies occupied) holds. -/
def WfBucket (n : Nat) (b : HashTableBucketPage) : Prop :=
  b.occupied_.length = (n - 1) / 8 + 1 ∧
  b.readable_.length = (n - 1) / 8 + 1 ∧
  b.array_.length = n ∧
  (∀ x ∈ b.occupied_, x < 256) ∧
  (∀ x ∈ b.readable_, x < 256) ∧
  (∀ i < n, b.IsReadable i = true → b.IsOccupied i = true)

/-- No two readable slots hold the same key/value pair. -/
def NoDupPairs (n : Nat) (b : HashTableBucketPage) : Prop :=
  ∀ i < n, ∀ j < n, i ≠ j → b.IsReadable i = true → b.IsReadable j = true →
    b.Entry i ≠ b.Entry j

namespace EHT

/-- Structural invariant of the live directory slots: depths are bounded,
and slots carry the same bucket page id exactly when they are congruent
modulo `2^local_depth` (so aliasing groups are aligned intervals of equal
depth, distinct groups have distinct pages). -/
def DirInv (cfg : Cfg) (d : HashTableDirectoryPage) : Prop :=
  d.global_depth_ ≤ cfg.maxDepth ∧
  (∀ i < d.Size, d.local_depths_ i ≤ d.global_depth_) ∧
  (∀ i < d.Size, ∀ j < d.Size, i % 2 ^ d.local_depths_ i = j % 2 ^ d.local_depths_ i →
     d.local_depths_ j = d.local_depths_ i ∧ d.bucket_page_ids_ j = d.bucket_page_ids_ i) ∧
  (∀ i < d.Size, ∀ j < d.Size, d.bucket_page_ids_ i = d.bucket_page_ids_ j →
     d.local_depths_ i = d.local_depths_ j ∧ i % 2 ^ d.local_depths_ i = j % 2 ^ d.local_depths_ i)

/-- Per-slot content invariant: the routed bucket page is allocated,
well-formed, duplicate-free, and every entry in it agrees with the slot on
the low `local_depth` bits of its hash. -/
def BucketOK (cfg : Cfg) (d : HashTableDirectoryPage) (st : Store) (i : Nat) : Prop :=
  (storeGet st (d.GetBucketPageId i)).isSome = true ∧
  WfBucket cfg.n (bucketAt cfg st (d.GetBucketPageId i)) ∧
  NoDupPairs cfg.n (bucketAt cfg st (d.GetBucketPageId i)) ∧
  (∀ t < cfg.n, (bucketAt cfg st (d.GetBucketPageId i)).IsReadable t = true →
     Hash cfg ((bucketAt cfg st (d.GetBucketPageId i)).KeyAt t) % 2 ^ d.GetLocalDepth i
       = i % 2 ^ d.GetLocalDepth i)

/-- Global invariant of the hash table model. -/
def INV (cfg : Cfg) (s : HT) : Prop :=
  0 < cfg.n ∧
  DirInv cfg s.dir ∧
  (∀ i < s.dir.Size, BucketOK cfg s.dir s.store i) ∧
  (∀ i < s.dir.Size, 0 < s.dir.GetBucketPageId i) ∧
  (∀ e ∈ s.store, 0 < e.1 ∧ e.1 < s.next_pid)

/-- A pair `(k, v)` is readable in the bucket page `p`. -/
def containsPair (cfg : Cfg) (st : Store) (p : Int) (k v : Nat) : Prop :=
  ∃ t < cfg.n, (bucketAt cfg st p).IsReadable t = true ∧
    (bucketAt cfg st p).Entry t = (k, v)

/-- States reachable from the constructor by completed `Insert` and `Remove`
operations (any recursion fuel). -/
inductive Reachable (cfg : Cfg) : HT → Prop where
  | init : Reachable cfg (initHT cfg)
  | insert (s s2 : HT) (k v : Nat) (fuel : Nat) (r : Bool) (ev : List Ev) :
      Reachable cfg s → Insert cfg fuel s k v = some (r, s2, ev) → Reachable cfg s2
  | remove (s s2 : HT) (k v : Nat) (r : Bool) (ev : List Ev) :
      Reachable cfg s → Remove cfg s k v = some (r, s2, ev) → Reachable cfg s2

/-- The claim-facing directory invariants D-1 (depth bounds), D-2 (congruent
equal-depth slots share the page) and D-3 (slots aliasing a page share the
depth). -/
def DirectoryInvariants (cfg : Cfg) (d : HashTableDirectoryPage) : Prop :=
  (∀ i < d.Size, d.GetLocalDepth i ≤ d.GetGlobalDepth ∧ d.GetGlobalDepth ≤ cfg.maxDepth) ∧
  (∀ i < d.Size, ∀ j < d.Size, i % 2 ^ d.GetLocalDepth i = j % 2 ^ d.GetLocalDepth i →
     d.GetLocalDepth i = d.GetLocalDepth j → d.GetBucketPageId i = d.GetBucketPageId j) ∧
  (∀ i < d.Size, ∀ j < d.Size, d.GetBucketPageId i = d.GetBucketPageId j →
     d.GetLocalDepth i = d.GetLocalDepth j)

end EHT

/-- The `<int, int, IntComparator>` instantiation with every key hashing to
0 (`HashFunction` is a collaborator, any pure function is admissible). -/
def brinkCfg : Cfg := { n := 496, maxDepth := 9, hash := fun _ => 0 }

/-- A table whose directory is already at `MAX_DEPTH = 9` everywhere and
whose slot-0 bucket is full of entries `(0, i)`: the next colliding insert
must grow the directory past `MAX_DEPTH`. -/
def brinkHT : HT :=
  { dir := { global_depth_ := 9,
             bucket_page_ids_ := fun i => (i : Int) + 1,
             local_depths_ := fun _ => 9 },
    store := [(1, fullBucket496)],
    next_pid := 600 }

/-- A small instantiation used as a concrete witness configuration. -/
def smallCfg : Cfg := { n := 4, maxDepth := 2, hash := fun k => k }

/-- A full one-slot bucket (slot 0 uses bit 7 of the single bitmap byte). -/
def tinyFullBucket : HashTableBucketPage :=
  { occupied_ := [128], readable_ := [128], array_ := [(0, 0)] }

namespace EHT

/-- The body of the directory-doubling loop of `SplitInsert` (lines 218-222),
named so the fold can be reasoned about pointwise. -/
def GrowStep (d2 : HashTableDirectoryPage) (idx : Nat) : HashTableDirectoryPage :=
  let mask := 1 <<< d2.GetGlobalDepth
  (d2.SetBucketPageId (idx ||| mask) (d2.GetBucketPageId idx)).SetLocalDepth
    (idx ||| mask) (d2.GetLocalDepth idx)

/-- The body of the pointer fan-out loop of split case B (lines 287-294). -/
def FanStep (old_pid new_pid : Int) (index mask local_depth : Nat)
    (d2 : HashTableDirectoryPage) (i : Nat) : HashTableDirectoryPage :=
  if d2.GetBucketPageId i == old_pid then
    (d2.SetLocalDepth i (local_depth + 1)).SetBucketPageId i
      (if (i &&& mask) == (index &&& mask) then old_pid else new_pid)
  else d2

/-- The body of the directory rewrite loop of `Merge` (lines 375-381). -/
def MergeFanStep (bucket_page_id merge_page_id : Int)
    (d2 : HashTableDirectoryPage) (i : Nat) : HashTableDirectoryPage :=
  let curr := d2.GetBucketPageId i
  if curr == bucket_page_id || curr == merge_page_id then
    (d2.SetBucketPageId i merge_page_id).DecrLocalDepth i
  else d2

/-- The directory/store part of `INV`, phrased over the components that the
`Merge` loop threads (`INV cfg s` is definitionally
`0 < cfg.n ∧ INVD cfg s.dir s.store s.next_pid`). -/
def INVD (cfg : Cfg) (d : HashTableDirectoryPage) (st : Store) (np : Int) : Prop :=
  DirInv cfg d ∧
  (∀ i < d.Size, BucketOK cfg d st i) ∧
  (∀ i < d.Size, 0 < d.GetBucketPageId i) ∧
  (∀ e ∈ st, 0 < e.1 ∧ e.1 < np)

/-- The pair `(k, v)` is readable in no bucket reachable from a live
directory slot. -/
def AbsentD (cfg : Cfg) (d : HashTableDirectoryPage) (st : Store) (k v : Nat) : Prop :=
  ∀ i < d.Size, ¬ containsPair cfg st (d.GetBucketPageId i) k v

end EHT

/-- The table after one successful `SplitInsert` of `(0, 0)` into the fresh
small table (the free-slot path fills slot 0 of bucket page 1). -/
def splitWitnessHT : HT :=
  { initHT smallCfg with
    store := storeSet (initHT smallCfg).store 1
      (HashTableBucketPage.Insert 4 (HashTableBucketPage.empty 4) 0 0).2 }

end BusTub

/-! ## Theorems -/

namespace BusTub

namespace LRU

theorem victim_none_iff (r : List Nat) : (victim r).1 = none ↔ r = [] := by
  cases r <;> simp [victim]

theorem victim_eq_head_tail (r : List Nat) : victim r = (r.head?, r.tail) := by
  cases r <;> rfl

theorem unpin_mem (r : List Nat) (f : Nat) (h : f ∈ r) : unpin r f = r := by
  simp [unpin, h]

theorem unpin_not_mem (r : List Nat) (f : Nat) (h : f ∉ r) :
    unpin r f = r ++ [f] := by
  simp [unpin, h]

theorem pin_not_mem (r : List Nat) (f : Nat) (h : f ∉ r) : pin r f = r := by
  simp [pin, h]

theorem pin_removes (r : List Nat) (f : Nat) (hnd : r.Nodup) :
    f ∉ pin r f := by
  unfold pin
  by_cases h : f ∈ r
  · simp only [h, if_true]
    exact (List.Nodup.mem_erase_iff hnd).not.mpr (by simp)
  · simp [h]

theorem pin_mem_other (r : List Nat) (f g : Nat) (hfg : g ≠ f) :
    g ∈ pin r f ↔ g ∈ r := by
  unfold pin
  by_cases h : f ∈ r
  · simp [h, List.mem_erase_of_ne hfg]
  · simp [h]

end LRU

end BusTub

/-- C9: for the LRU replacer, `Victim` removes and returns the
least-recently-unpinned frame (the front of the list) and fails exactly when
no frame is tracked; `Unpin` appends at the most-recently-unpinned end only
when the frame is untracked, so a repeated `Unpin` leaves the position and
candidate set unchanged; `Pin` removes a tracked frame and is a no-op on an
untracked one. -/
theorem C9_lru_replacer (r : List Nat) (f : Nat) (hnd : r.Nodup) :
    ((BusTub.LRU.victim r).1 = none ↔ r = []) ∧
    BusTub.LRU.victim r = (r.head?, r.tail) ∧
    (f ∈ r → BusTub.LRU.unpin r f = r) ∧
    (f ∉ r → BusTub.LRU.unpin r f = r ++ [f]) ∧
    (f ∈ r → BusTub.LRU.unpin (BusTub.LRU.unpin r f) f = BusTub.LRU.unpin r f) ∧
    f ∉ BusTub.LRU.pin r f ∧
    (∀ g, g ≠ f → (g ∈ BusTub.LRU.pin r f ↔ g ∈ r)) ∧
    (f ∉ r → BusTub.LRU.pin r f = r) := by
  refine ⟨BusTub.LRU.victim_none_iff r, BusTub.LRU.victim_eq_head_tail r,
    fun h => BusTub.LRU.unpin_mem r f h,
    fun h => BusTub.LRU.unpin_not_mem r f h,
    fun h => ?_,
    BusTub.LRU.pin_removes r f hnd,
    fun g hg => BusTub.LRU.pin_mem_other r f g hg,
    fun h => BusTub.LRU.pin_not_mem r f h⟩
  rw [BusTub.LRU.unpin_mem r f h, BusTub.LRU.unpin_mem r f h]

/-- Witness for C9 at a concrete replacer state. -/
theorem C9_lru_replacer_witness :
    ([3, 1, 2] : List Nat).Nodup ∧
    (((BusTub.LRU.victim [3, 1, 2]).1 = none ↔ ([3, 1, 2] : List Nat) = []) ∧
     BusTub.LRU.victim [3, 1, 2] = (([3, 1, 2] : List Nat).head?, ([3, 1, 2] : List Nat).tail) ∧
     ((1 : Nat) ∈ ([3, 1, 2] : List Nat) → BusTub.LRU.unpin [3, 1, 2] 1 = [3, 1, 2]) ∧
     ((1 : Nat) ∉ ([3, 1, 2] : List Nat) → BusTub.LRU.unpin [3, 1, 2] 1 = [3, 1, 2] ++ [1]) ∧
     ((1 : Nat) ∈ ([3, 1, 2] : List Nat) →
       BusTub.LRU.unpin (BusTub.LRU.unpin [3, 1, 2] 1) 1 = BusTub.LRU.unpin [3, 1, 2] 1) ∧
     (1 : Nat) ∉ BusTub.LRU.pin [3, 1, 2] 1 ∧
     (∀ g, g ≠ 1 → (g ∈ BusTub.LRU.pin [3, 1, 2] 1 ↔ g ∈ ([3, 1, 2] : List Nat))) ∧
     ((1 : Nat) ∉ ([3, 1, 2] : List Nat) → BusTub.LRU.pin [3, 1, 2] 1 = [3, 1, 2])) :=
  ⟨by decide, C9_lru_replacer [3, 1, 2] 1 (by decide)⟩





namespace BusTub

namespace BPM

theorem ptFind_ptInsert_self (pt : List (Int × Nat)) (pid : Int) (f : Nat) :
    ptFind (ptInsert pt pid f) pid = some f := by
  simp [ptFind, ptInsert, List.find?]

theorem ptFind_ptErase_self (pt : List (Int × Nat)) (pid : Int) :
    ptFind (ptErase pt pid) pid = none := by
  have h : (ptErase pt pid).find? (fun e => e.1 == pid) = none := by
    apply List.find?_eq_none.mpr
    intro x hx
    have hx2 := (List.mem_filter.mp hx).2
    simpa using hx2
  simp [ptFind, h]

theorem ptFind_cons (e : Int × Nat) (rest : List (Int × Nat)) (q : Int) :
    ptFind (e :: rest) q = if e.1 = q then some e.2 else ptFind rest q := by
  unfold ptFind
  by_cases he : e.1 = q
  · rw [List.find?_cons_of_pos _ (by simp [he])]
    simp [he]
  · rw [List.find?_cons_of_neg _ (by simp [he]), if_neg he]

theorem ptErase_cons (e : Int × Nat) (rest : List (Int × Nat)) (pid : Int) :
    ptErase (e :: rest) pid =
      if e.1 = pid then ptErase rest pid else e :: ptErase rest pid := by
  unfold ptErase
  rw [List.filter_cons]
  by_cases he : e.1 = pid <;> simp [he]

theorem ptFind_ptErase_ne (pt : List (Int × Nat)) (pid q : Int) (h : q ≠ pid) :
    ptFind (ptErase pt pid) q = ptFind pt q := by
  induction pt with
  | nil => rfl
  | cons e rest ih =>
    by_cases he : e.1 = pid
    · rw [ptErase_cons, if_pos he, ih, ptFind_cons,
        if_neg (fun hh : e.1 = q => h (hh ▸ he))]
    · rw [ptErase_cons, if_neg he, ptFind_cons, ptFind_cons, ih]

/-- Closed form of `NewPgImp` on the success path. -/
theorem newPage_some_spec (s : State)
    (hg : ¬ (s.replacer.length = 0 ∧ s.free_list.isEmpty = true)) :
    newPage s = (some s.next_page_id,
      { num_instances := s.num_instances, instance_index := s.instance_index,
        next_page_id := s.next_page_id + (s.num_instances : Int),
        pages := s.pages.set (pickVictim s).1
          { page_id := s.next_page_id, pin_count := 1, is_dirty := false, data := 0 },
        page_table := ptInsert
          (ptErase s.page_table (s.pages.getD (pickVictim s).1 default).page_id)
          s.next_page_id (pickVictim s).1,
        free_list := (pickVictim s).2.1,
        replacer := (pickVictim s).2.2,
        disk := if (s.pages.getD (pickVictim s).1 default).is_dirty
                then ((s.pages.getD (pickVictim s).1 default).page_id,
                      (s.pages.getD (pickVictim s).1 default).data) :: s.disk
                else s.disk }) := by
  unfold newPage allocatePage
  rw [if_neg hg]

/-- The victim frame is in range whenever the pool is not exhausted and the
free list and replacer only track valid frames. -/
theorem pickVictim_lt (s : State)
    (hg : ¬ (s.replacer.length = 0 ∧ s.free_list.isEmpty = true))
    (hfree : ∀ x ∈ s.free_list, x < s.pages.length)
    (hrep : ∀ x ∈ s.replacer, x < s.pages.length) :
    (pickVictim s).1 < s.pages.length := by
  unfold pickVictim
  cases hf : s.free_list with
  | cons g rest => exact hfree g (by rw [hf]; exact List.mem_cons_self g rest)
  | nil =>
    cases hr : s.replacer with
    | nil => exact absurd ⟨by rw [hr]; rfl, by rw [hf]; rfl⟩ hg
    | cons g rest =>
      simp only [LRU.victim]
      exact hrep g (by rw [hr]; exact List.mem_cons_self g rest)

end BPM

end BusTub

/-- C6: `NewPage` returns null exactly when the free list and the replacer
are both empty, leaving the pool unchanged; otherwise it takes a frame from
the free list if non-empty and only otherwise from the replacer, flushes a
dirty victim, erases the victim's mapping, allocates a fresh page id with
`pid mod num_instances = instance_index` and `next_pid` advancing by
`num_instances`, zeroes the buffer, sets `pin_count = 1`, `is_dirty = false`
and installs the new mapping. -/
theorem C6_new_page (s : BusTub.BPM.State)
    (hfree : ∀ x ∈ s.free_list, x < s.pages.length)
    (hrep : ∀ x ∈ s.replacer, x < s.pages.length)
    (hmod : s.next_page_id % (s.num_instances : Int) = (s.instance_index : Int)) :
    ((BusTub.BPM.newPage s).1 = none ↔ s.free_list = [] ∧ s.replacer = []) ∧
    ((BusTub.BPM.newPage s).1 = none → (BusTub.BPM.newPage s).2 = s) ∧
    (∀ pid, (BusTub.BPM.newPage s).1 = some pid →
      pid = s.next_page_id ∧
      (BusTub.BPM.newPage s).2.next_page_id = s.next_page_id + (s.num_instances : Int) ∧
      pid % (s.num_instances : Int) = (s.instance_index : Int) ∧
      (BusTub.BPM.newPage s).2.next_page_id % (s.num_instances : Int) = (s.instance_index : Int) ∧
      (∀ g rest, s.free_list = g :: rest →
        (BusTub.BPM.pickVictim s).1 = g ∧
        (BusTub.BPM.newPage s).2.free_list = rest ∧
        (BusTub.BPM.newPage s).2.replacer = s.replacer) ∧
      (∀ g rest, s.free_list = [] → s.replacer = g :: rest →
        (BusTub.BPM.pickVictim s).1 = g ∧
        (BusTub.BPM.newPage s).2.replacer = rest ∧
        (BusTub.BPM.newPage s).2.free_list = []) ∧
      ((s.pages.getD (BusTub.BPM.pickVictim s).1 default).is_dirty = true →
        (BusTub.BPM.newPage s).2.disk =
          ((s.pages.getD (BusTub.BPM.pickVictim s).1 default).page_id,
           (s.pages.getD (BusTub.BPM.pickVictim s).1 default).data) :: s.disk) ∧
      ((s.pages.getD (BusTub.BPM.pickVictim s).1 default).is_dirty = false →
        (BusTub.BPM.newPage s).2.disk = s.disk) ∧
      ((s.pages.getD (BusTub.BPM.pickVictim s).1 default).page_id ≠ pid →
        BusTub.BPM.ptFind (BusTub.BPM.newPage s).2.page_table
          (s.pages.getD (BusTub.BPM.pickVictim s).1 default).page_id = none) ∧
      (BusTub.BPM.newPage s).2.pages.getD (BusTub.BPM.pickVictim s).1 default =
        { page_id := pid, pin_count := 1, is_dirty := false, data := 0 } ∧
      BusTub.BPM.ptFind (BusTub.BPM.newPage s).2.page_table pid =
        some (BusTub.BPM.pickVictim s).1) := by
  by_cases hg : s.replacer.length = 0 ∧ s.free_list.isEmpty = true
  · have hnone : BusTub.BPM.newPage s = (none, s) := by
      unfold BusTub.BPM.newPage
      rw [if_pos hg]
    refine ⟨?_, ?_, ?_⟩
    · rw [hnone]
      constructor
      · intro _
        exact ⟨List.isEmpty_iff.mp hg.2, List.length_eq_zero.mp hg.1⟩
      · intro _; rfl
    · intro _; rw [hnone]
    · intro pid hpid
      rw [hnone] at hpid
      exact absurd hpid (by simp)
  · have hspec := BusTub.BPM.newPage_some_spec s hg
    have hvlt := BusTub.BPM.pickVictim_lt s hg hfree hrep
    refine ⟨?_, ?_, ?_⟩
    · rw [hspec]
      constructor
      · intro h; exact absurd h (by simp)
      · intro ⟨hf, hr⟩
        exact absurd ⟨by rw [hr]; rfl, by rw [hf]; rfl⟩ hg
    · intro h
      rw [hspec] at h
      exact absurd h (by simp)
    · intro pid hpid
      rw [hspec] at hpid
      have hpid2 : pid = s.next_page_id := by
        simpa using hpid.symm
      subst hpid2
      refine ⟨rfl, by rw [hspec], hmod, ?_, ?_, ?_, ?_, ?_, ?_, ?_, ?_⟩
      · rw [hspec]
        show (s.next_page_id + (s.num_instances : Int)) % (s.num_instances : Int)
            = (s.instance_index : Int)
        rw [← hmod]
        have h1 : s.next_page_id + (s.num_instances : Int)
            = s.next_page_id + (s.num_instances : Int) * 1 := by ring
        rw [h1, Int.add_mul_emod_self_left]
      · intro g rest hf
        refine ⟨?_, ?_, ?_⟩
        · unfold BusTub.BPM.pickVictim
          rw [hf]
        · rw [hspec]
          show (BusTub.BPM.pickVictim s).2.1 = rest
          unfold BusTub.BPM.pickVictim
          rw [hf]
        · rw [hspec]
          show (BusTub.BPM.pickVictim s).2.2 = s.replacer
          unfold BusTub.BPM.pickVictim
          rw [hf]
      · intro g rest hf hr
        refine ⟨?_, ?_, ?_⟩
        · unfold BusTub.BPM.pickVictim
          rw [hf, hr]
          rfl
        · rw [hspec]
          show (BusTub.BPM.pickVictim s).2.2 = rest
          unfold BusTub.BPM.pickVictim
          rw [hf, hr]
          rfl
        · rw [hspec]
          show (BusTub.BPM.pickVictim s).2.1 = []
          unfold BusTub.BPM.pickVictim
          rw [hf, hr]
          rfl
      · intro hd
        rw [hspec]
        show (if (s.pages.getD (BusTub.BPM.pickVictim s).1 default).is_dirty
              then _ else _) = _
        rw [hd]
        rfl
      · intro hd
        rw [hspec]
        show (if (s.pages.getD (BusTub.BPM.pickVictim s).1 default).is_dirty
              then _ else _) = _
        rw [hd]
        rfl
      · intro hne
        rw [hspec]
        show BusTub.BPM.ptFind (BusTub.BPM.ptInsert _ _ _) _ = none
        rw [BusTub.BPM.ptInsert, BusTub.BPM.ptFind_cons,
          if_neg (fun hh : s.next_page_id = _ => hne hh.symm),
          BusTub.BPM.ptFind_ptErase_ne _ _ _ hne,
          BusTub.BPM.ptFind_ptErase_self]
      · rw [hspec]
        show (s.pages.set (BusTub.BPM.pickVictim s).1 _).getD (BusTub.BPM.pickVictim s).1 default = _
        simp [List.getD_eq_getElem?_getD, List.getElem?_set_self hvlt]
      · rw [hspec]
        exact BusTub.BPM.ptFind_ptInsert_self _ _ _

/-- Witness for C6 at a concrete pool state: one dirty frame in the
replacer, empty free list. -/
theorem C6_new_page_witness :
    (∀ x ∈ BusTub.BPM.underflowState.free_list, x < BusTub.BPM.underflowState.pages.length) ∧
    (∀ x ∈ BusTub.BPM.underflowState.replacer, x < BusTub.BPM.underflowState.pages.length) ∧
    BusTub.BPM.underflowState.next_page_id % (BusTub.BPM.underflowState.num_instances : Int)
      = (BusTub.BPM.underflowState.instance_index : Int) ∧
    (∀ pid, (BusTub.BPM.newPage BusTub.BPM.underflowState).1 = some pid →
      pid = BusTub.BPM.underflowState.next_page_id) := by
  refine ⟨by decide, by decide, by decide, ?_⟩
  intro pid hpid
  exact ((C6_new_page BusTub.BPM.underflowState (by decide) (by decide) (by decide)).2.2
    pid hpid).1

/-- C7: `DeletePage` succeeds trivially on an unmapped page id, fails with
the state unchanged when the page is pinned, and otherwise flushes a dirty
frame, resets its metadata to the invalid page id and not-dirty, zeroes the
memory, appends the frame to the free list, removes it from the replacer,
erases the mapping and returns true. -/
theorem C7_delete_page (s : BusTub.BPM.State) (pid : Int)
    (hf : ∀ f, BusTub.BPM.ptFind s.page_table pid = some f → f < s.pages.length)
    (hnd : s.replacer.Nodup) :
    (BusTub.BPM.ptFind s.page_table pid = none →
      BusTub.BPM.deletePage s pid = (true, s)) ∧
    (∀ f, BusTub.BPM.ptFind s.page_table pid = some f →
      0 < (s.pages.getD f default).pin_count →
      BusTub.BPM.deletePage s pid = (false, s)) ∧
    (∀ f, BusTub.BPM.ptFind s.page_table pid = some f →
      (s.pages.getD f default).pin_count = 0 →
      (BusTub.BPM.deletePage s pid).1 = true ∧
      ((s.pages.getD f default).is_dirty = true →
        (BusTub.BPM.deletePage s pid).2.disk =
          ((s.pages.getD f default).page_id, (s.pages.getD f default).data) :: s.disk) ∧
      ((s.pages.getD f default).is_dirty = false →
        (BusTub.BPM.deletePage s pid).2.disk = s.disk) ∧
      (BusTub.BPM.deletePage s pid).2.pages.getD f default =
        { page_id := BusTub.INVALID_PAGE_ID, pin_count := 0, is_dirty := false, data := 0 } ∧
      (BusTub.BPM.deletePage s pid).2.free_list = s.free_list ++ [f] ∧
      f ∉ (BusTub.BPM.deletePage s pid).2.replacer ∧
      BusTub.BPM.ptFind (BusTub.BPM.deletePage s pid).2.page_table pid = none) := by
  refine ⟨?_, ?_, ?_⟩
  · intro hm
    unfold BusTub.BPM.deletePage
    rw [hm]
  · intro f hm hpos
    unfold BusTub.BPM.deletePage
    rw [hm]
    simp only []
    rw [if_pos (by omega)]
  · intro f hm hz
    have hflt := hf f hm
    have hstep : BusTub.BPM.deletePage s pid =
        (true, { s with
          pages := s.pages.set f
            { page_id := BusTub.INVALID_PAGE_ID,
              pin_count := (s.pages.getD f default).pin_count,
              is_dirty := false, data := 0 },
          disk := if (s.pages.getD f default).is_dirty
                  then ((s.pages.getD f default).page_id,
                        (s.pages.getD f default).data) :: s.disk
                  else s.disk,
          free_list := s.free_list ++ [f],
          replacer := BusTub.LRU.pin s.replacer f,
          page_table := BusTub.BPM.ptErase s.page_table pid }) := by
      unfold BusTub.BPM.deletePage
      rw [hm]
      simp only []
      rw [if_neg (by omega)]
    rw [hstep]
    refine ⟨rfl, ?_, ?_, ?_, rfl, ?_, ?_⟩
    · intro hd; simp only [hd, if_true]
    · intro hd; simp only [hd, if_false, Bool.false_eq_true]
    · show (s.pages.set f _).getD f default = _
      rw [hz]
      simp [List.getD_eq_getElem?_getD, List.getElem?_set_self hflt]
    · exact BusTub.LRU.pin_removes s.replacer f hnd
    · exact BusTub.BPM.ptFind_ptErase_self s.page_table pid

/-- Witness for C7 at a concrete pool state with a mapped unpinned frame. -/
theorem C7_delete_page_witness :
    (∀ f, BusTub.BPM.ptFind BusTub.BPM.underflowState.page_table 5 = some f →
      f < BusTub.BPM.underflowState.pages.length) ∧
    BusTub.BPM.underflowState.replacer.Nodup ∧
    (∀ f, BusTub.BPM.ptFind BusTub.BPM.underflowState.page_table 5 = some f →
      (BusTub.BPM.underflowState.pages.getD f default).pin_count = 0 →
      (BusTub.BPM.deletePage BusTub.BPM.underflowState 5).1 = true) := by
  refine ⟨by decide, by decide, ?_⟩
  intro f hm hz
  exact (((C7_delete_page BusTub.BPM.underflowState 5 (by decide) (by decide)).2.2)
    f hm hz).1

/-- C8 (amended): `UnpinPage` fails on an unmapped page id; on a mapped one
it ors the dirty flag into `is_dirty`, decrements `pin_count`
unconditionally (no under-flow assertion exists in the source, so a second
unpin after the count reached zero drives it to -1), and hands the frame to
the replacer exactly when the decremented count is zero. -/
theorem C8_unpin_page_amended (s : BusTub.BPM.State) (pid : Int) (dirty : Bool)
    (hf : ∀ f, BusTub.BPM.ptFind s.page_table pid = some f → f < s.pages.length) :
    (BusTub.BPM.ptFind s.page_table pid = none →
      BusTub.BPM.unpinPage s pid dirty = (false, s)) ∧
    (∀ f, BusTub.BPM.ptFind s.page_table pid = some f →
      (BusTub.BPM.unpinPage s pid dirty).1 = true ∧
      ((BusTub.BPM.unpinPage s pid dirty).2.pages.getD f default).is_dirty
        = (dirty || (s.pages.getD f default).is_dirty) ∧
      ((BusTub.BPM.unpinPage s pid dirty).2.pages.getD f default).pin_count
        = (s.pages.getD f default).pin_count - 1 ∧
      ((s.pages.getD f default).pin_count = 1 →
        (BusTub.BPM.unpinPage s pid dirty).2.replacer = BusTub.LRU.unpin s.replacer f) ∧
      ((s.pages.getD f default).pin_count ≠ 1 →
        (BusTub.BPM.unpinPage s pid dirty).2.replacer = s.replacer) ∧
      ((s.pages.getD f default).pin_count = 0 →
        ((BusTub.BPM.unpinPage s pid dirty).2.pages.getD f default).pin_count = -1)) := by
  constructor
  · intro hm
    unfold BusTub.BPM.unpinPage
    rw [hm]
  · intro f hm
    have hflt := hf f hm
    have hstep : BusTub.BPM.unpinPage s pid dirty =
        (true, { s with
          pages := s.pages.set f
            { s.pages.getD f default with
              is_dirty := dirty || (s.pages.getD f default).is_dirty,
              pin_count := (s.pages.getD f default).pin_count - 1 },
          replacer := if (s.pages.getD f default).pin_count - 1 = 0
                      then BusTub.LRU.unpin s.replacer f else s.replacer }) := by
      unfold BusTub.BPM.unpinPage
      rw [hm]
    rw [hstep]
    have hgd : (s.pages.set f
        { s.pages.getD f default with
          is_dirty := dirty || (s.pages.getD f default).is_dirty,
          pin_count := (s.pages.getD f default).pin_count - 1 }).getD f default =
        { s.pages.getD f default with
          is_dirty := dirty || (s.pages.getD f default).is_dirty,
          pin_count := (s.pages.getD f default).pin_count - 1 } := by
      simp [List.getD_eq_getElem?_getD, List.getElem?_set_self hflt]
    refine ⟨rfl, ?_, ?_, ?_, ?_, ?_⟩
    · show ((s.pages.set f _).getD f default).is_dirty = _
      rw [hgd]
    · show ((s.pages.set f _).getD f default).pin_count = _
      rw [hgd]
    · intro h1
      show (if (s.pages.getD f default).pin_count - 1 = 0 then _ else _) = _
      rw [if_pos (by omega)]
    · intro h1
      show (if (s.pages.getD f default).pin_count - 1 = 0 then _ else _) = _
      rw [if_neg (by omega)]
    · intro h0
      show ((s.pages.set f _).getD f default).pin_count = _
      rw [hgd]
      show (s.pages.getD f default).pin_count - 1 = -1
      omega

/-- Counterexample for C8 as stated: at a mapped page id whose pin count is
already zero, `UnpinPage` completes normally (returns true) and drives the
pin count to -1 — there is no fatal assertion preventing the under-flow. -/
theorem C8_unpin_page_counterexample :
    BusTub.BPM.ptFind BusTub.BPM.underflowState.page_table 5 = some 0 ∧
    (BusTub.BPM.underflowState.pages.getD 0 default).pin_count = 0 ∧
    (BusTub.BPM.unpinPage BusTub.BPM.underflowState 5 false).1 = true ∧
    ((BusTub.BPM.unpinPage BusTub.BPM.underflowState 5 false).2.pages.getD 0
        default).pin_count = -1 := by
  decide

/-- Witness for the amended C8 at a concrete pool state. -/
theorem C8_unpin_page_witness :
    (∀ f, BusTub.BPM.ptFind BusTub.BPM.underflowState.page_table 5 = some f →
      f < BusTub.BPM.underflowState.pages.length) ∧
    (∀ f, BusTub.BPM.ptFind BusTub.BPM.underflowState.page_table 5 = some f →
      (BusTub.BPM.unpinPage BusTub.BPM.underflowState 5 false).1 = true) := by
  refine ⟨by decide, ?_⟩
  intro f hm
  exact ((C8_unpin_page_amended BusTub.BPM.underflowState 5 false (by decide)).2 f hm).1

namespace BusTub

theorem getD_replicate_of_lt (m j : Nat) (a d : Nat) (h : j < m) :
    (List.replicate m a).getD j d = a := by
  induction m generalizing j with
  | zero => omega
  | succ m ih =>
    cases j with
    | zero => rfl
    | succ j => exact ih j (by omega)

theorem getD_replicate_zero (m j : Nat) :
    (List.replicate m (0 : Nat)).getD j 0 = 0 := by
  by_cases h : j < m
  · exact getD_replicate_of_lt m j 0 0 h
  · rw [List.getD_eq_getElem?_getD, List.getElem?_eq_none (by simpa using Nat.le_of_not_lt h)]
    rfl

theorem fullBucket496_readable (i : Nat) (h : i < 496) :
    fullBucket496.IsReadable i = true := by
  unfold HashTableBucketPage.IsReadable fullBucket496
  simp only []
  rw [getD_replicate_of_lt 62 (i / 8) 255 0 (by omega)]
  have h8 : 7 - i % 8 < 8 := by omega
  have h255 : (255 : Nat) = 2 ^ 8 - 1 := by norm_num
  rw [h255, Nat.testBit_two_pow_sub_one]
  simpa using h8

theorem empty_not_readable (n i : Nat) :
    (HashTableBucketPage.empty n).IsReadable i = false := by
  unfold HashTableBucketPage.IsReadable HashTableBucketPage.empty
  simp only []
  rw [getD_replicate_zero]
  exact Nat.zero_testBit _

end BusTub

/-- C2 (code bug): `IsFull` in the source returns `true` exactly when every
`readable_` byte is zero, the reverse of the intended meaning.  On a bucket
with all `BUCKET_ARRAY_SIZE = 496` readable bits set it answers `false`,
and on a completely empty bucket it answers `true`. -/
theorem C2_isfull_code_bug :
    BusTub.BUCKET_ARRAY_SIZE = 496 ∧
    BusTub.HashTableBucketPage.IsFull BusTub.BUCKET_ARRAY_SIZE BusTub.fullBucket496 = false ∧
    (∀ i < BusTub.BUCKET_ARRAY_SIZE,
      BusTub.fullBucket496.IsReadable i = true) ∧
    BusTub.HashTableBucketPage.IsFull BusTub.BUCKET_ARRAY_SIZE
      (BusTub.HashTableBucketPage.empty BusTub.BUCKET_ARRAY_SIZE) = true ∧
    (∀ i < BusTub.BUCKET_ARRAY_SIZE,
      (BusTub.HashTableBucketPage.empty BusTub.BUCKET_ARRAY_SIZE).IsReadable i = false) := by
  refine ⟨rfl, by decide, ?_, by decide, ?_⟩
  · intro i hi
    exact BusTub.fullBucket496_readable i hi
  · intro i _
    exact BusTub.empty_not_readable _ i

namespace BusTub

namespace EHT

theorem splitScanLoop_snd_stable (n : Nat) (b : HashTableBucketPage) (k v : Nat) :
    ∀ (l : List Nat) (fp : Nat), fp ≠ n →
      (SplitScanLoop n b k v l fp).2 = fp := by
  intro l
  induction l with
  | nil => intro fp _; rfl
  | cons i rest ih =>
    intro fp hfp
    unfold SplitScanLoop
    have hcond : (fp == n && (! b.IsOccupied i || ! b.IsReadable i)) = false := by
      simp [hfp]
    rw [hcond]
    simp only [if_false, Bool.false_eq_true]
    split
    · rfl
    · exact ih fp hfp

theorem splitScanLoop_full (n : Nat) (b : HashTableBucketPage) (k v : Nat) :
    ∀ (l : List Nat), (∀ i ∈ l, i < n) →
      SplitScanLoop n b k v l n = (false, n) →
      ∀ i ∈ l, b.IsOccupied i = true ∧ b.IsReadable i = true := by
  intro l
  induction l with
  | nil => intro _ _ i hi; exact absurd hi (List.not_mem_nil i)
  | cons j rest ih =>
    intro hl h i hi
    unfold SplitScanLoop at h
    by_cases hfree : (! b.IsOccupied j || ! b.IsReadable j) = true
    · exfalso
      have hcond : (n == n && (! b.IsOccupied j || ! b.IsReadable j)) = true := by
        simp [hfree]
      rw [hcond] at h
      simp only [if_true] at h
      have hj : j ≠ n := Nat.ne_of_lt (hl j (List.mem_cons_self j rest))
      split at h
      · exact absurd h (by simp)
      · have hst := splitScanLoop_snd_stable n b k v rest j hj
        exact hj (by rw [← hst, h])
    · have hcond : (n == n && (! b.IsOccupied j || ! b.IsReadable j)) = false := by
        simp only [Bool.and_eq_false_iff]
        right
        exact (Bool.not_eq_true _).mp hfree
      rw [hcond] at h
      simp only [if_false, Bool.false_eq_true] at h
      have hocc : b.IsOccupied j = true ∧ b.IsReadable j = true := by
        rcases Bool.or_eq_false_iff.mp ((Bool.not_eq_true _).mp hfree) with ⟨h1, h2⟩
        exact ⟨by simpa using h1, by simpa using h2⟩
      split at h
      · exact absurd h (by simp)
      · rcases List.mem_cons.mp hi with rfl | hmem
        · exact hocc
        · exact ih (fun x hx => hl x (List.mem_cons_of_mem j hx)) h i hmem

theorem splitScan_full (n : Nat) (b : HashTableBucketPage) (k v : Nat)
    (h : SplitScan n b k v = (false, n)) :
    ∀ i < n, b.IsOccupied i = true ∧ b.IsReadable i = true := by
  intro i hi
  exact splitScanLoop_full n b k v (List.range n)
    (fun x hx => List.mem_range.mp hx) h i (List.mem_range.mpr hi)

end EHT

end BusTub

/-- C10: whenever the `SplitInsert` scan finds neither a duplicate pair nor
a slot with a clear occupied/readable bit (`free_pos` stays at
`BUCKET_ARRAY_SIZE`), every slot of the old bucket is readable, so the
per-slot `assert(old_bucket_page->IsReadable(i))` of the redistribution
loops (which only ever clears bits at indices already passed) can never
fail. -/
theorem C10_redistribution_assert (n : Nat) (b : BusTub.HashTableBucketPage)
    (k v : Nat) (h : BusTub.EHT.SplitScan n b k v = (false, n)) :
    ∀ i < n, b.IsReadable i = true := by
  intro i hi
  exact (BusTub.EHT.splitScan_full n b k v h i hi).2

/-- Witness for C10 on a full one-slot bucket. -/
theorem C10_redistribution_assert_witness :
    BusTub.EHT.SplitScan 1 BusTub.tinyFullBucket 0 1 = (false, 1) ∧
    (∀ i < 1, BusTub.tinyFullBucket.IsReadable i = true) :=
  ⟨by decide, C10_redistribution_assert 1 BusTub.tinyFullBucket 0 1 (by decide)⟩

namespace BusTub

namespace EHT

theorem acquires_append (a b : List Ev) (pid : Int) :
    acquires (a ++ b) pid = acquires a pid + acquires b pid := by
  simp [acquires, List.countP_append]

theorem unpins_append (a b : List Ev) (pid : Int) :
    unpins (a ++ b) pid = unpins a pid + unpins b pid := by
  simp [unpins, List.countP_append]

theorem withTail_some (head : List Ev) (res : Option (Bool × HT × List Ev))
    (r : Bool) (s2 : HT) (ev : List Ev)
    (h : withTail head res = some (r, s2, ev)) :
    ∃ ev2, res = some (r, s2, ev2) ∧ ev = head ++ ev2 := by
  cases res with
  | none => exact Option.noConfusion h
  | some y =>
    obtain ⟨r2, s9, ev2⟩ := y
    simp only [withTail] at h
    injection h with h
    have hr : r2 = r := by
      have h2 := congrArg (fun z : Bool × HT × List Ev => z.1) h
      simpa using h2
    have hs : s9 = s2 := by
      have h2 := congrArg (fun z : Bool × HT × List Ev => z.2.1) h
      simpa using h2
    have he : head ++ ev2 = ev := by
      have h2 := congrArg (fun z : Bool × HT × List Ev => z.2.2) h
      simpa using h2
    exact ⟨ev2, by rw [hr, hs], he.symm⟩

theorem withTailMerge_some (head : List Ev) (res : Option (HT × List Ev))
    (r : Bool) (s2 : HT) (ev : List Ev)
    (h : withTailMerge head res = some (r, s2, ev)) :
    ∃ s9 ev2, res = some (s9, ev2) ∧ r = true ∧ s2 = s9 ∧ ev = head ++ ev2 := by
  cases res with
  | none => exact Option.noConfusion h
  | some y =>
    obtain ⟨s9, ev2⟩ := y
    simp only [withTailMerge] at h
    injection h with h
    have hr : (true : Bool) = r := by
      have h2 := congrArg (fun z : Bool × HT × List Ev => z.1) h
      simpa using h2
    have hs : s9 = s2 := by
      have h2 := congrArg (fun z : Bool × HT × List Ev => z.2.1) h
      simpa using h2
    have he : head ++ ev2 = ev := by
      have h2 := congrArg (fun z : Bool × HT × List Ev => z.2.2) h
      simpa using h2
    exact ⟨s9, ev2, rfl, hr.symm, hs.symm, he.symm⟩

theorem balanced_pair (p : Int) (d1 d2 : Bool) (pid : Int) :
    acquires [Ev.fetch directory_page_id, Ev.fetch p,
              Ev.unpin directory_page_id d1, Ev.unpin p d2] pid =
    unpins [Ev.fetch directory_page_id, Ev.fetch p,
            Ev.unpin directory_page_id d1, Ev.unpin p d2] pid := by
  by_cases h0 : (directory_page_id == pid) = true <;>
    by_cases hp : (p == pid) = true <;>
    simp [acquires, unpins, List.countP_cons, List.countP_nil, h0, hp]

theorem balanced_split (p q : Int) (b1 b2 b3 : Bool) (pid : Int) :
    acquires [Ev.fetch directory_page_id, Ev.fetch p, Ev.newp q,
              Ev.unpin p b1, Ev.unpin q b2, Ev.unpin directory_page_id b3] pid =
    unpins [Ev.fetch directory_page_id, Ev.fetch p, Ev.newp q,
            Ev.unpin p b1, Ev.unpin q b2, Ev.unpin directory_page_id b3] pid := by
  by_cases h0 : (directory_page_id == pid) = true <;>
    by_cases hp : (p == pid) = true <;>
    by_cases hq : (q == pid) = true <;>
    simp [acquires, unpins, List.countP_cons, List.countP_nil, h0, hp, hq]

theorem balanced_fetch_unpin (p : Int) (pid : Int) :
    acquires [Ev.fetch p, Ev.unpin p false] pid =
    unpins [Ev.fetch p, Ev.unpin p false] pid := by
  by_cases hp : (p == pid) = true <;>
    simp [acquires, unpins, List.countP_cons, List.countP_nil, hp]

theorem balanced_fetch_unpin_del (p : Int) (pid : Int) :
    acquires [Ev.fetch p, Ev.unpin p false, Ev.del p] pid =
    unpins [Ev.fetch p, Ev.unpin p false, Ev.del p] pid := by
  by_cases hp : (p == pid) = true <;>
    simp [acquires, unpins, List.countP_cons, List.countP_nil, hp]

theorem splitCaseA_balanced (cfg : Cfg) (s : HT) (k v : Nat) (index : Nat)
    (old_pid : Int) (old : HashTableBucketPage)
    (x : (Bool × HT × List Ev) ⊕ (HT × List Ev))
    (h : SplitCaseA cfg s k v index old_pid old = some x) (pid : Int) :
    (∀ r s2 tr, x = .inl (r, s2, tr) → acquires tr pid = unpins tr pid) ∧
    (∀ s2 tr, x = .inr (s2, tr) → acquires tr pid = unpins tr pid) := by
  unfold SplitCaseA at h
  simp only [] at h
  repeat' split at h
  all_goals try exact Option.noConfusion h
  all_goals injection h with h
  all_goals subst h
  all_goals constructor <;> intros <;> rename_i hx <;>
    (cases hx; try exact balanced_split _ _ _ _ _ _)

theorem splitCaseB_balanced (cfg : Cfg) (s : HT) (k v : Nat) (index : Nat)
    (old_pid : Int) (old : HashTableBucketPage)
    (x : (Bool × HT × List Ev) ⊕ (HT × List Ev))
    (h : SplitCaseB cfg s k v index old_pid old = some x) (pid : Int) :
    (∀ r s2 tr, x = .inl (r, s2, tr) → acquires tr pid = unpins tr pid) ∧
    (∀ s2 tr, x = .inr (s2, tr) → acquires tr pid = unpins tr pid) := by
  unfold SplitCaseB at h
  simp only [] at h
  repeat' split at h
  all_goals try exact Option.noConfusion h
  all_goals injection h with h
  all_goals subst h
  all_goals constructor <;> intros <;> rename_i hx <;>
    (cases hx; try exact balanced_split _ _ _ _ _ _)

theorem splitStep_balanced (cfg : Cfg) (s : HT) (k v : Nat)
    (x : (Bool × HT × List Ev) ⊕ (HT × List Ev))
    (h : SplitStep cfg s k v = some x) (pid : Int) :
    (∀ r s2 tr, x = .inl (r, s2, tr) → acquires tr pid = unpins tr pid) ∧
    (∀ s2 tr, x = .inr (s2, tr) → acquires tr pid = unpins tr pid) := by
  unfold SplitStep at h
  simp only [] at h
  repeat' split at h
  all_goals first
    | exact splitCaseA_balanced cfg s k v _ _ _ x h pid
    | exact splitCaseB_balanced cfg s k v _ _ _ x h pid
    | (injection h with h; subst h;
       constructor <;> intros <;> rename_i hx <;>
         (cases hx; try exact balanced_pair _ _ _ _))

theorem splitInsert_balanced (cfg : Cfg) : ∀ (fuel : Nat) (s : HT) (k v : Nat)
    (r : Bool) (s2 : HT) (tr : List Ev),
    SplitInsert cfg fuel s k v = some (r, s2, tr) →
    ∀ pid, acquires tr pid = unpins tr pid := by
  intro fuel
  induction fuel with
  | zero =>
    intro s k v r s2 tr h pid
    rw [SplitInsert] at h
    exact Option.noConfusion h
  | succ fuel ih =>
    intro s k v r s2 tr h pid
    rw [SplitInsert] at h
    cases hs : SplitStep cfg s k v with
    | none => rw [hs] at h; exact Option.noConfusion h
    | some x =>
      rw [hs] at h
      cases x with
      | inl res =>
        obtain ⟨r0, s0, tr0⟩ := res
        simp only [] at h
        injection h with h
        have htr : tr0 = tr := by
          have h2 := congrArg (fun z : Bool × HT × List Ev => z.2.2) h
          simpa using h2
        rw [← htr]
        exact (splitStep_balanced cfg s k v _ hs pid).1 r0 s0 tr0 rfl
      | inr pr =>
        obtain ⟨s9, ev⟩ := pr
        simp only [] at h
        obtain ⟨ev2, hrec, rfl⟩ := withTail_some ev _ r s2 tr h
        rw [acquires_append, unpins_append,
          (splitStep_balanced cfg s k v _ hs pid).2 s9 ev rfl]
        congr 1
        exact ih s9 k v r s2 ev2 hrec pid

end EHT

end BusTub

namespace BusTub

namespace EHT

theorem mergeStep_ev_shape (cfg : Cfg) (d : HashTableDirectoryPage)
    (st : Store) (bi : Nat) :
    (∃ p, MergeStep cfg d st bi = .inl [Ev.fetch p, Ev.unpin p false]) ∨
    (∃ p d2 st1 ni, MergeStep cfg d st bi
      = .inr (d2, st1, ni, [Ev.fetch p, Ev.unpin p false, Ev.del p])) := by
  unfold MergeStep
  simp only []
  split
  · split
    · right; exact ⟨_, _, _, _, rfl⟩
    · left; exact ⟨_, rfl⟩
  · left; exact ⟨_, rfl⟩

theorem mergeLoop_balanced (cfg : Cfg) : ∀ (fuel : Nat)
    (d : HashTableDirectoryPage) (st : Store) (bi : Nat) (dirty : Bool)
    (dF : HashTableDirectoryPage) (stF : Store) (ev : List Ev) (dirtyF : Bool),
    MergeLoop cfg fuel d st bi dirty = some (dF, stF, ev, dirtyF) →
    ∀ pid, acquires ev pid = unpins ev pid := by
  intro fuel
  induction fuel with
  | zero =>
    intro d st bi dirty dF stF ev dirtyF h pid
    rw [MergeLoop] at h
    exact Option.noConfusion h
  | succ fuel ih =>
    intro d st bi dirty dF stF ev dirtyF h pid
    rw [MergeLoop] at h
    cases hms : MergeStep cfg d st bi with
    | inl ev0 =>
      have hev0 : ∃ p, ev0 = [Ev.fetch p, Ev.unpin p false] := by
        rcases mergeStep_ev_shape cfg d st bi with ⟨p, hp⟩ | ⟨p, d2, st1, ni, hp⟩
        · rw [hms] at hp
          injection hp with hp
          exact ⟨p, hp⟩
        · rw [hms] at hp
          exact Sum.noConfusion hp
      rw [hms] at h
      simp only [] at h
      injection h with h
      have htr : ev0 = ev := by
        have h2 := congrArg
          (fun z : HashTableDirectoryPage × Store × List Ev × Bool => z.2.2.1) h
        simpa using h2
      obtain ⟨p, rfl⟩ := hev0
      rw [← htr]
      exact balanced_fetch_unpin _ pid
    | inr pr =>
      obtain ⟨d2, st1, ni, ev0⟩ := pr
      have hev0 : ∃ p, ev0 = [Ev.fetch p, Ev.unpin p false, Ev.del p] := by
        rcases mergeStep_ev_shape cfg d st bi with ⟨p, hp⟩ | ⟨p, d9, st9, ni9, hp⟩
        · rw [hms] at hp
          exact Sum.noConfusion hp
        · rw [hms] at hp
          injection hp with hp
          have h2 := congrArg
            (fun z : HashTableDirectoryPage × Store × Nat × List Ev => z.2.2.2) hp
          simp only [] at h2
          exact ⟨p, h2⟩
      rw [hms] at h
      simp only [] at h
      cases hrec : MergeLoop cfg fuel d2 st1 ni true with
      | none => rw [hrec] at h; exact Option.noConfusion h
      | some y =>
        obtain ⟨d9, st9, ev9, dirty9⟩ := y
        rw [hrec] at h
        simp only [] at h
        injection h with h
        have htr : ev0 ++ ev9 = ev := by
          have h2 := congrArg
            (fun z : HashTableDirectoryPage × Store × List Ev × Bool => z.2.2.1) h
          simpa using h2
        obtain ⟨p, rfl⟩ := hev0
        rw [← htr, acquires_append, unpins_append, balanced_fetch_unpin_del _ pid]
        congr 1
        exact ih d2 st1 ni true d9 st9 ev9 dirty9 hrec pid

end EHT

end BusTub

namespace BusTub

namespace EHT

theorem merge_balanced (cfg : Cfg) (s : HT) (k v : Nat) (s2 : HT) (ev : List Ev)
    (h : Merge cfg s k v = some (s2, ev)) (pid : Int) :
    acquires ev pid = unpins ev pid := by
  unfold Merge at h
  simp only [] at h
  cases hml : MergeLoop cfg (cfg.maxDepth + 1) s.dir s.store
      (KeyToDirectoryIndex cfg k s.dir) false with
  | none => rw [hml] at h; exact Option.noConfusion h
  | some y =>
    obtain ⟨dF, stF, evL, dirty⟩ := y
    rw [hml] at h
    simp only [] at h
    injection h with h
    have htr : [Ev.fetch directory_page_id] ++ evL
        ++ [Ev.unpin directory_page_id dirty] = ev := by
      have h2 := congrArg (fun z : HT × List Ev => z.2) h
      simpa using h2
    have hbal := mergeLoop_balanced cfg _ _ _ _ _ _ _ _ _ hml pid
    rw [← htr, acquires_append, unpins_append, acquires_append, unpins_append]
    by_cases h0 : (directory_page_id == pid) = true <;>
      simp only [acquires, unpins, List.countP_cons, List.countP_nil, h0,
        if_true, if_false] <;>
      simp only [acquires, unpins] at hbal <;> omega

theorem remove_balanced (cfg : Cfg) (s : HT) (k v : Nat) (r : Bool) (s2 : HT)
    (ev : List Ev) (h : Remove cfg s k v = some (r, s2, ev)) (pid : Int) :
    acquires ev pid = unpins ev pid := by
  unfold Remove at h
  simp only [] at h
  split at h
  · -- removal succeeded: Merge follows
    obtain ⟨s9, ev2, hmg, _, _, rfl⟩ := withTailMerge_some _ _ r s2 ev h
    rw [acquires_append, unpins_append, balanced_pair _ _ _ pid]
    congr 1
    exact merge_balanced cfg _ k v s9 ev2 hmg pid
  · injection h with h
    have htr : [Ev.fetch directory_page_id,
        Ev.fetch (KeyToPageId cfg k s.dir),
        Ev.unpin directory_page_id false,
        Ev.unpin (KeyToPageId cfg k s.dir)
          (HashTableBucketPage.Remove cfg.n
            (bucketAt cfg s.store (KeyToPageId cfg k s.dir)) k v).1] = ev := by
      have h2 := congrArg (fun z : Bool × HT × List Ev => z.2.2) h
      simpa using h2
    rw [← htr]
    exact balanced_pair _ _ _ pid

theorem insert_balanced (cfg : Cfg) (fuel : Nat) (s : HT) (k v : Nat) (r : Bool)
    (s2 : HT) (ev : List Ev) (h : Insert cfg fuel s k v = some (r, s2, ev))
    (pid : Int) : acquires ev pid = unpins ev pid := by
  unfold Insert at h
  simp only [] at h
  split at h
  · injection h with h
    have htr : [Ev.fetch directory_page_id,
        Ev.fetch (KeyToPageId cfg k s.dir),
        Ev.unpin directory_page_id false,
        Ev.unpin (KeyToPageId cfg k s.dir)
          (HashTableBucketPage.Insert cfg.n
            (bucketAt cfg s.store (KeyToPageId cfg k s.dir)) k v).1] = ev := by
      have h2 := congrArg (fun z : Bool × HT × List Ev => z.2.2) h
      simpa using h2
    rw [← htr]
    exact balanced_pair _ _ _ pid
  · obtain ⟨ev2, hsp, rfl⟩ := withTail_some _ _ r s2 ev h
    rw [acquires_append, unpins_append, balanced_pair _ _ _ pid]
    congr 1
    exact splitInsert_balanced cfg fuel _ k v r s2 ev2 hsp pid

end EHT

end BusTub

/-- C4: every complete index operation issues exactly one `UnpinPage` for
every `FetchPage`/`NewPage` it performs — for every page id the number of
fetch/new events equals the number of unpin events in the operation's
buffer-pool trace, on every control path (duplicate-found, direct-insert,
split and merge-loop paths included), so each page's pin count returns to
its prior value. -/
theorem C4_pin_discipline (cfg : BusTub.Cfg) (s : BusTub.HT) (k v : Nat)
    (fuel : Nat) (pid : Int) :
    (∀ pr s2 tr, BusTub.EHT.GetValue cfg s k = (pr, s2, tr) →
      BusTub.EHT.acquires tr pid = BusTub.EHT.unpins tr pid) ∧
    (∀ r s2 tr, BusTub.EHT.Insert cfg fuel s k v = some (r, s2, tr) →
      BusTub.EHT.acquires tr pid = BusTub.EHT.unpins tr pid) ∧
    (∀ r s2 tr, BusTub.EHT.Remove cfg s k v = some (r, s2, tr) →
      BusTub.EHT.acquires tr pid = BusTub.EHT.unpins tr pid) ∧
    (∀ g tr, BusTub.EHT.GetGlobalDepthOp s = (g, tr) →
      BusTub.EHT.acquires tr pid = BusTub.EHT.unpins tr pid) ∧
    (∀ tr, BusTub.EHT.VerifyIntegrityOp s = tr →
      BusTub.EHT.acquires tr pid = BusTub.EHT.unpins tr pid) := by
  refine ⟨?_, ?_, ?_, ?_, ?_⟩
  · intro pr s2 tr h
    have htr : [BusTub.Ev.fetch BusTub.directory_page_id,
        BusTub.Ev.fetch (BusTub.EHT.KeyToPageId cfg k s.dir),
        BusTub.Ev.unpin BusTub.directory_page_id false,
        BusTub.Ev.unpin (BusTub.EHT.KeyToPageId cfg k s.dir) false] = tr := by
      have h2 := congrArg (fun z : (Bool × List Nat) × BusTub.HT × List BusTub.Ev => z.2.2) h
      simpa [BusTub.EHT.GetValue] using h2
    rw [← htr]
    exact BusTub.EHT.balanced_pair _ _ _ pid
  · intro r s2 tr h
    exact BusTub.EHT.insert_balanced cfg fuel s k v r s2 tr h pid
  · intro r s2 tr h
    exact BusTub.EHT.remove_balanced cfg s k v r s2 tr h pid
  · intro g tr h
    have htr : [BusTub.Ev.fetch BusTub.directory_page_id,
        BusTub.Ev.unpin BusTub.directory_page_id false] = tr := by
      have h2 := congrArg (fun z : Nat × List BusTub.Ev => z.2) h
      simpa [BusTub.EHT.GetGlobalDepthOp] using h2
    rw [← htr]
    exact BusTub.EHT.balanced_fetch_unpin _ pid
  · intro tr h
    rw [← h]
    exact BusTub.EHT.balanced_fetch_unpin _ pid

/-- Witness for C4: the trace of a concrete `GetValue` on the fresh table. -/
theorem C4_pin_discipline_witness :
    BusTub.EHT.GetValue BusTub.smallCfg (BusTub.initHT BusTub.smallCfg) 1
      = ((false, []), BusTub.initHT BusTub.smallCfg,
         [BusTub.Ev.fetch 0, BusTub.Ev.fetch 1,
          BusTub.Ev.unpin 0 false, BusTub.Ev.unpin 1 false]) ∧
    BusTub.EHT.acquires
      [BusTub.Ev.fetch 0, BusTub.Ev.fetch 1,
       BusTub.Ev.unpin 0 false, BusTub.Ev.unpin 1 false] 1 =
    BusTub.EHT.unpins
      [BusTub.Ev.fetch 0, BusTub.Ev.fetch 1,
       BusTub.Ev.unpin 0 false, BusTub.Ev.unpin 1 false] 1 :=
  ⟨rfl, (C4_pin_discipline BusTub.smallCfg (BusTub.initHT BusTub.smallCfg) 1 0 5 1).1
    (false, []) (BusTub.initHT BusTub.smallCfg)
    [BusTub.Ev.fetch 0, BusTub.Ev.fetch 1,
     BusTub.Ev.unpin 0 false, BusTub.Ev.unpin 1 false] rfl⟩

namespace BusTub

namespace HashTableBucketPage

theorem shiftLeft_one (p : Nat) : (1 <<< p) = 2 ^ p := by
  rw [Nat.shiftLeft_eq, one_mul]

theorem bitpos_inj {i j : Nat} (hbyte : i / 8 = j / 8) (hbit : 7 - i % 8 = 7 - j % 8) :
    i = j := by
  omega

theorem isReadable_setReadable (n : Nat) (b : HashTableBucketPage) (i j : Nat)
    (hlen : b.readable_.length = (n - 1) / 8 + 1) (hi : i < n) (_hj : j < n) :
    (b.SetReadable i).IsReadable j = if j = i then true else b.IsReadable j := by
  unfold SetReadable IsReadable
  simp only []
  by_cases hb : j / 8 = i / 8
  · have hilt : i / 8 < b.readable_.length := by rw [hlen]; omega
    rw [hb, List.getD_eq_getElem?_getD, List.getElem?_set_self hilt]
    simp only [Option.getD_some]
    rw [shiftLeft_one, Nat.testBit_or, Nat.testBit_two_pow]
    by_cases hij : j = i
    · subst hij
      simp
    · have : ¬ (7 - i % 8 = 7 - j % 8) := by
        intro hc
        exact hij (bitpos_inj hb.symm hc).symm
      simp [hij, this, List.getD_eq_getElem?_getD]
  · rw [List.getD_eq_getElem?_getD, List.getElem?_set_ne (fun hc => hb hc.symm)]
    have hij : ¬ (j = i) := fun hc => hb (by rw [hc])
    simp [hij, List.getD_eq_getElem?_getD]

theorem isReadable_removeAt (n : Nat) (b : HashTableBucketPage) (i j : Nat)
    (hlen : b.readable_.length = (n - 1) / 8 + 1) (hi : i < n) (_hj : j < n) :
    (b.RemoveAt i).IsReadable j = if j = i then false else b.IsReadable j := by
  unfold RemoveAt IsReadable
  simp only []
  by_cases hb : j / 8 = i / 8
  · have hilt : i / 8 < b.readable_.length := by rw [hlen]; omega
    rw [hb, List.getD_eq_getElem?_getD, List.getElem?_set_self hilt]
    simp only [Option.getD_some]
    rw [shiftLeft_one, Nat.testBit_and, Nat.testBit_xor, Nat.testBit_two_pow]
    have h255 : (255 : Nat) = 2 ^ 8 - 1 := by norm_num
    have hq : (255 : Nat).testBit (7 - j % 8) = true := by
      rw [h255, Nat.testBit_two_pow_sub_one]
      have : 7 - j % 8 < 8 := by omega
      simpa using this
    rw [hq]
    by_cases hij : j = i
    · subst hij
      simp
    · have : ¬ (7 - i % 8 = 7 - j % 8) := by
        intro hc
        exact hij (bitpos_inj hb.symm hc).symm
      simp [hij, this, List.getD_eq_getElem?_getD]
  · rw [List.getD_eq_getElem?_getD, List.getElem?_set_ne (fun hc => hb hc.symm)]
    have hij : ¬ (j = i) := fun hc => hb (by rw [hc])
    simp [hij, List.getD_eq_getElem?_getD]

theorem isOccupied_setOccupied (n : Nat) (b : HashTableBucketPage) (i j : Nat)
    (hlen : b.occupied_.length = (n - 1) / 8 + 1) (hi : i < n) (_hj : j < n) :
    (b.SetOccupied i).IsOccupied j = if j = i then true else b.IsOccupied j := by
  unfold SetOccupied IsOccupied
  simp only []
  by_cases hb : j / 8 = i / 8
  · have hilt : i / 8 < b.occupied_.length := by rw [hlen]; omega
    rw [hb, List.getD_eq_getElem?_getD, List.getElem?_set_self hilt]
    simp only [Option.getD_some]
    rw [shiftLeft_one, Nat.testBit_or, Nat.testBit_two_pow]
    by_cases hij : j = i
    · subst hij
      simp
    · have : ¬ (7 - i % 8 = 7 - j % 8) := by
        intro hc
        exact hij (bitpos_inj hb.symm hc).symm
      simp [hij, this, List.getD_eq_getElem?_getD]
  · rw [List.getD_eq_getElem?_getD, List.getElem?_set_ne (fun hc => hb hc.symm)]
    have hij : ¬ (j = i) := fun hc => hb (by rw [hc])
    simp [hij, List.getD_eq_getElem?_getD]

theorem isReadable_setOccupied (b : HashTableBucketPage) (i j : Nat) :
    (b.SetOccupied i).IsReadable j = b.IsReadable j := rfl

theorem isOccupied_setReadable (b : HashTableBucketPage) (i j : Nat) :
    (b.SetReadable i).IsOccupied j = b.IsOccupied j := rfl

theorem isOccupied_removeAt (b : HashTableBucketPage) (i j : Nat) :
    (b.RemoveAt i).IsOccupied j = b.IsOccupied j := rfl

theorem entry_removeAt (b : HashTableBucketPage) (i j : Nat) :
    (b.RemoveAt i).Entry j = b.Entry j := rfl

theorem entry_setReadable (b : HashTableBucketPage) (i j : Nat) :
    (b.SetReadable i).Entry j = b.Entry j := rfl

theorem entry_setOccupied (b : HashTableBucketPage) (i j : Nat) :
    (b.SetOccupied i).Entry j = b.Entry j := rfl

theorem keyAt_removeAt (b : HashTableBucketPage) (i j : Nat) :
    (b.RemoveAt i).KeyAt j = b.KeyAt j := rfl

theorem valueAt_removeAt (b : HashTableBucketPage) (i j : Nat) :
    (b.RemoveAt i).ValueAt j = b.ValueAt j := rfl

end HashTableBucketPage

end BusTub

namespace BusTub

namespace HashTableBucketPage

theorem entry_arraySet (b : HashTableBucketPage) (m j : Nat) (k v : Nat)
    (hm : m < b.array_.length) :
    ({ b with array_ := b.array_.set m (k, v) } : HashTableBucketPage).Entry j
      = if j = m then (k, v) else b.Entry j := by
  unfold Entry KeyAt ValueAt
  simp only []
  by_cases hj : j = m
  · subst hj
    rw [List.getD_eq_getElem?_getD, List.getElem?_set_self hm]
    simp
  · rw [List.getD_eq_getElem?_getD, List.getElem?_set_ne (fun hc => hj hc.symm)]
    simp [List.getD_eq_getElem?_getD, hj]

theorem isReadable_arraySet (b : HashTableBucketPage) (m j : Nat) (k v : Nat) :
    ({ b with array_ := b.array_.set m (k, v) } : HashTableBucketPage).IsReadable j
      = b.IsReadable j := rfl

theorem isOccupied_arraySet (b : HashTableBucketPage) (m j : Nat) (k v : Nat) :
    ({ b with array_ := b.array_.set m (k, v) } : HashTableBucketPage).IsOccupied j
      = b.IsOccupied j := rfl

theorem getD_mem_of_lt (l : List Nat) (i : Nat) (d : Nat) (h : i < l.length) :
    l.getD i d ∈ l := by
  rw [List.getD_eq_getElem?_getD, List.getElem?_eq_getElem h]
  simp only [Option.getD_some]
  exact List.getElem_mem h

theorem wf_setReadable (n : Nat) (b : HashTableBucketPage) (i : Nat)
    (hwf : WfBucket n b) (hi : i < n)
    (hocc : (b.SetReadable i).IsOccupied i = true) :
    WfBucket n (b.SetReadable i) := by
  obtain ⟨h1, h2, h3, h4, h5, h6⟩ := hwf
  refine ⟨h1, ?_, h3, h4, ?_, ?_⟩
  · show (b.readable_.set _ _).length = _
    rw [List.length_set]; exact h2
  · intro x hx
    rcases List.mem_or_eq_of_mem_set hx with hx2 | hx2
    · exact h5 x hx2
    · subst hx2
      have hbyte : b.readable_.getD (i / 8) 0 < 256 := by
        by_cases hlt : i / 8 < b.readable_.length
        · exact h5 _ (getD_mem_of_lt _ _ _ hlt)
        · rw [List.getD_eq_getElem?_getD, List.getElem?_eq_none (by omega)]
          norm_num
      have hbit : (1 <<< (7 - i % 8)) < 256 := by
        rw [shiftLeft_one]
        have : 7 - i % 8 < 8 := by omega
        calc (2 : Nat) ^ (7 - i % 8) < 2 ^ 8 := by
              exact Nat.pow_lt_pow_right (by omega) this
          _ = 256 := by norm_num
      have := Nat.or_lt_two_pow (n := 8) (by simpa using hbyte) (by simpa using hbit)
      simpa using this
  · intro j hj hr
    rw [isReadable_setReadable n b i j h2 hi hj] at hr
    rw [isOccupied_setReadable]
    by_cases hji : j = i
    · subst hji
      exact hocc
    · rw [if_neg hji] at hr
      exact h6 j hj hr

theorem wf_removeAt (n : Nat) (b : HashTableBucketPage) (i : Nat)
    (hwf : WfBucket n b) (hi : i < n) :
    WfBucket n (b.RemoveAt i) := by
  obtain ⟨h1, h2, h3, h4, h5, h6⟩ := hwf
  refine ⟨h1, ?_, h3, h4, ?_, ?_⟩
  · show (b.readable_.set _ _).length = _
    rw [List.length_set]; exact h2
  · intro x hx
    rcases List.mem_or_eq_of_mem_set hx with hx2 | hx2
    · exact h5 x hx2
    · subst hx2
      have h7 : (1 <<< (7 - i % 8)) < 256 := by
        rw [shiftLeft_one]
        have h8 : 7 - i % 8 < 8 := by omega
        calc (2 : Nat) ^ (7 - i % 8) < 2 ^ 8 := Nat.pow_lt_pow_right (by omega) h8
          _ = 256 := by norm_num
      have h9 : (255 ^^^ (1 <<< (7 - i % 8))) < 256 := by
        have h8 := Nat.xor_lt_two_pow (n := 8)
          (show (255 : Nat) < 2 ^ 8 by norm_num)
          (show (1 <<< (7 - i % 8)) < 2 ^ 8 by simpa using h7)
        simpa using h8
      exact Nat.lt_of_le_of_lt Nat.and_le_right h9
  · intro j hj hr
    rw [isReadable_removeAt n b i j h2 hi hj] at hr
    rw [isOccupied_removeAt]
    by_cases hji : j = i
    · rw [if_pos hji] at hr
      exact absurd hr (by simp)
    · rw [if_neg hji] at hr
      exact h6 j hj hr

theorem wf_arraySet (n : Nat) (b : HashTableBucketPage) (m : Nat) (k v : Nat)
    (hwf : WfBucket n b) :
    WfBucket n ({ b with array_ := b.array_.set m (k, v) }) := by
  obtain ⟨h1, h2, h3, h4, h5, h6⟩ := hwf
  exact ⟨h1, h2, by simpa [List.length_set] using h3, h4, h5, h6⟩

theorem wf_setOccupied (n : Nat) (b : HashTableBucketPage) (i : Nat)
    (hwf : WfBucket n b) (hi : i < n) :
    WfBucket n (b.SetOccupied i) := by
  obtain ⟨h1, h2, h3, h4, h5, h6⟩ := hwf
  refine ⟨?_, h2, h3, ?_, h5, ?_⟩
  · show (b.occupied_.set _ _).length = _
    rw [List.length_set]; exact h1
  · intro x hx
    rcases List.mem_or_eq_of_mem_set hx with hx2 | hx2
    · exact h4 x hx2
    · subst hx2
      have hbyte : b.occupied_.getD (i / 8) 0 < 256 := by
        by_cases hlt : i / 8 < b.occupied_.length
        · exact h4 _ (getD_mem_of_lt _ _ _ hlt)
        · rw [List.getD_eq_getElem?_getD, List.getElem?_eq_none (by omega)]
          norm_num
      have hbit : (1 <<< (7 - i % 8)) < 256 := by
        rw [shiftLeft_one]
        have : 7 - i % 8 < 8 := by omega
        calc (2 : Nat) ^ (7 - i % 8) < 2 ^ 8 := by
              exact Nat.pow_lt_pow_right (by omega) this
          _ = 256 := by norm_num
      have := Nat.or_lt_two_pow (n := 8) (by simpa using hbyte) (by simpa using hbit)
      simpa using this
  · intro j hj hr
    rw [show (b.SetOccupied i).IsReadable j = b.IsReadable j from rfl] at hr
    rw [isOccupied_setOccupied n b i j h1 hi hj]
    by_cases hji : j = i
    · simp [hji]
    · rw [if_neg hji]
      exact h6 j hj hr

end HashTableBucketPage

end BusTub

namespace BusTub

namespace HashTableBucketPage

theorem insertLoop_fst_iff (n : Nat) (b : HashTableBucketPage) (k v : Nat) :
    ∀ (l : List Nat) (idx : Nat),
      (InsertLoop n b k v l idx).1 = true ↔
        ∃ i ∈ l, b.IsReadable i = true ∧ b.KeyAt i = k ∧ b.ValueAt i = v := by
  intro l
  induction l with
  | nil =>
    intro idx
    simp [InsertLoop]
  | cons i rest ih =>
    intro idx
    unfold InsertLoop
    simp only []
    split
    · rename_i hc
      simp only [Bool.and_eq_true, beq_iff_eq] at hc
      constructor
      · intro _
        exact ⟨i, List.mem_cons_self i rest, hc.1.1, hc.1.2, hc.2⟩
      · intro _; rfl
    · rename_i hc
      rw [ih]
      constructor
      · intro ⟨j, hj, hr⟩
        exact ⟨j, List.mem_cons_of_mem i hj, hr⟩
      · intro ⟨j, hj, hr⟩
        rcases List.mem_cons.mp hj with rfl | hj2
        · exfalso
          apply hc
          simp [hr.1, hr.2.1, hr.2.2]
        · exact ⟨j, hj2, hr⟩

theorem insertLoop_idx_prop (n : Nat) (b : HashTableBucketPage) (k v : Nat) :
    ∀ (l : List Nat) (idx : Nat), (∀ i ∈ l, i < n) →
      (idx = n ∨ (idx < n ∧ b.IsReadable idx = false)) →
      ((InsertLoop n b k v l idx).2 = n ∨
        ((InsertLoop n b k v l idx).2 < n ∧
          b.IsReadable (InsertLoop n b k v l idx).2 = false)) := by
  intro l
  induction l with
  | nil =>
    intro idx _ hidx
    exact hidx
  | cons i rest ih =>
    intro idx hl hidx
    unfold InsertLoop
    simp only []
    have hidx1 : (if (idx == n && ! b.IsReadable i) = true then i else idx) = n ∨
        ((if (idx == n && ! b.IsReadable i) = true then i else idx) < n ∧
          b.IsReadable (if (idx == n && ! b.IsReadable i) = true then i else idx) = false) := by
      split
      · rename_i hc
        simp only [Bool.and_eq_true, beq_iff_eq, Bool.not_eq_true'] at hc
        exact Or.inr ⟨hl i (List.mem_cons_self i rest), hc.2⟩
      · exact hidx
    split
    · exact hidx1
    · exact ih _ (fun j hj => hl j (List.mem_cons_of_mem i hj)) hidx1

theorem insertLoop_snd_stable (n : Nat) (b : HashTableBucketPage) (k v : Nat) :
    ∀ (l : List Nat) (idx : Nat), idx ≠ n →
      (InsertLoop n b k v l idx).2 = idx := by
  intro l
  induction l with
  | nil => intro idx _; rfl
  | cons i rest ih =>
    intro idx hidx
    unfold InsertLoop
    have hc : (idx == n && ! b.IsReadable i) = false := by
      simp [hidx]
    rw [hc]
    simp only [if_false, Bool.false_eq_true]
    split
    · rfl
    · exact ih idx hidx

theorem insertLoop_full (n : Nat) (b : HashTableBucketPage) (k v : Nat) :
    ∀ (l : List Nat), (∀ i ∈ l, i < n) →
      (InsertLoop n b k v l n).1 = false →
      (InsertLoop n b k v l n).2 = n →
      ∀ i ∈ l, b.IsReadable i = true := by
  intro l
  induction l with
  | nil => intro _ _ _ i hi; exact absurd hi (List.not_mem_nil i)
  | cons j rest ih =>
    intro hl h1 h2 i hi
    unfold InsertLoop at h1 h2
    simp only [] at h1 h2
    by_cases hread : b.IsReadable j = true
    · have hc : (n == n && ! b.IsReadable j) = false := by simp [hread]
      rw [hc] at h1 h2
      simp only [if_false, Bool.false_eq_true] at h1 h2
      split at h1
      · exact absurd h1 (by simp)
      · rcases List.mem_cons.mp hi with rfl | hi2
        · exact hread
        · split at h2
          · exact absurd h2 (by simp_all)
          · exact ih (fun x hx => hl x (List.mem_cons_of_mem j hx)) h1 h2 i hi2
    · exfalso
      have hj : j ≠ n := Nat.ne_of_lt (hl j (List.mem_cons_self j rest))
      have hc : (n == n && ! b.IsReadable j) = true := by
        simp [Bool.not_eq_true' .. ▸ hread]
        exact (Bool.not_eq_true _).mp hread
      rw [hc] at h2
      simp only [if_true] at h2
      split at h2
      · exact hj h2
      · rw [insertLoop_snd_stable n b k v rest j hj] at h2
        exact hj h2

end HashTableBucketPage

end BusTub

namespace BusTub

namespace HashTableBucketPage

theorem insert_false_of_present (n : Nat) (b : HashTableBucketPage) (k v : Nat)
    (h : ∃ i, i < n ∧ b.IsReadable i = true ∧ b.Entry i = (k, v)) :
    Insert n b k v = (false, b) := by
  obtain ⟨i, hi, hr, he⟩ := h
  have hk : b.KeyAt i = k := congrArg Prod.fst he
  have hv : b.ValueAt i = v := congrArg Prod.snd he
  have hdup : (InsertLoop n b k v (List.range n) n).1 = true :=
    (insertLoop_fst_iff n b k v (List.range n) n).mpr
      ⟨i, List.mem_range.mpr hi, hr, hk, hv⟩
  unfold Insert
  simp only []
  rw [hdup]
  simp

theorem insert_not_present (n : Nat) (b : HashTableBucketPage) (k v : Nat)
    (h : ¬ ∃ i, i < n ∧ b.IsReadable i = true ∧ b.Entry i = (k, v)) :
    (InsertLoop n b k v (List.range n) n).1 = false := by
  rw [Bool.eq_false_iff]
  intro hc
  obtain ⟨i, hi, hr, hk, hv⟩ := (insertLoop_fst_iff n b k v (List.range n) n).mp hc
  exact h ⟨i, List.mem_range.mp hi, hr, by rw [Entry, hk, hv]⟩

theorem insert_true_of_free (n : Nat) (b : HashTableBucketPage) (k v : Nat)
    (hnd : ¬ ∃ i, i < n ∧ b.IsReadable i = true ∧ b.Entry i = (k, v))
    (hfree : ∃ i, i < n ∧ b.IsReadable i = false) :
    (Insert n b k v).1 = true := by
  have hdup := insert_not_present n b k v hnd
  have hidx : (InsertLoop n b k v (List.range n) n).2 ≠ n := by
    intro hc
    obtain ⟨i, hi, hr⟩ := hfree
    have := insertLoop_full n b k v (List.range n)
      (fun x hx => List.mem_range.mp hx) hdup hc i (List.mem_range.mpr hi)
    rw [this] at hr
    exact Bool.noConfusion hr
  unfold Insert
  simp only []
  rw [hdup]
  simp only [if_false, Bool.false_eq_true]
  rw [if_neg (by simpa using hidx)]

theorem insert_effects (n : Nat) (b : HashTableBucketPage) (k v : Nat)
    (hwf : WfBucket n b) (h : (Insert n b k v).1 = true) :
    ∃ m, m < n ∧ b.IsReadable m = false ∧
      (∀ j < n, (Insert n b k v).2.IsReadable j = if j = m then true else b.IsReadable j) ∧
      (∀ j < n, (Insert n b k v).2.IsOccupied j
        = if j = m then true else b.IsOccupied j) ∧
      (∀ j < n, (Insert n b k v).2.Entry j = if j = m then (k, v) else b.Entry j) ∧
      WfBucket n (Insert n b k v).2 := by
  obtain ⟨h1, h2, h3, h4, h5, h6⟩ := hwf
  unfold Insert at h ⊢
  simp only [] at h ⊢
  set m := (InsertLoop n b k v (List.range n) n).2 with hm
  split at h
  · exact absurd h (by simp)
  split at h
  · exact absurd h (by simp)
  · rename_i hdup hfree
    have hprop := insertLoop_idx_prop n b k v (List.range n) n
      (fun x hx => List.mem_range.mp hx) (Or.inl rfl)
    rw [← hm] at hprop
    have hmn : m ≠ n := by simpa using hfree
    have hmlt : m < n := by
      rcases hprop with hc | hc
      · exact absurd hc hmn
      · exact hc.1
    have hmread : b.IsReadable m = false := by
      rcases hprop with hc | hc
      · exact absurd hc hmn
      · exact hc.2
    rw [if_neg (by simpa using hdup), if_neg (by simpa using hmn)]
    refine ⟨m, hmlt, hmread, ?_, ?_, ?_, ?_⟩
    · intro j hj
      simp only []
      rw [isReadable_setReadable n _ m j (by simpa using h2) hmlt hj]
      rfl
    · intro j hj
      simp only []
      rw [show (SetReadable (SetOccupied { b with array_ := b.array_.set m (k, v) } m) m).IsOccupied j
          = (SetOccupied { b with array_ := b.array_.set m (k, v) } m).IsOccupied j from rfl]
      rw [isOccupied_setOccupied n _ m j (by simpa using h1) hmlt hj]
      rfl
    · intro j hj
      simp only []
      rw [show (SetReadable (SetOccupied { b with array_ := b.array_.set m (k, v) } m) m).Entry j
          = ({ b with array_ := b.array_.set m (k, v) } : HashTableBucketPage).Entry j from rfl]
      rw [entry_arraySet b m j k v (by omega)]
    · apply wf_setReadable n _ m ?_ hmlt
      · rw [show (SetReadable (SetOccupied { b with array_ := b.array_.set m (k, v) } m) m).IsOccupied m
            = (SetOccupied { b with array_ := b.array_.set m (k, v) } m).IsOccupied m from rfl]
        rw [isOccupied_setOccupied n _ m m (by simpa using h1) hmlt hmlt]
        simp
      · exact wf_setOccupied n _ m (wf_arraySet n b m k v ⟨h1, h2, h3, h4, h5, h6⟩) hmlt

theorem insert_false_unchanged (n : Nat) (b : HashTableBucketPage) (k v : Nat)
    (h : (Insert n b k v).1 = false) : (Insert n b k v).2 = b := by
  unfold Insert at h ⊢
  simp only [] at h ⊢
  split at h
  case isTrue hc =>
    rw [if_pos hc]
  case isFalse hc =>
    rw [if_neg hc]
    split at h
    case isTrue hc2 =>
      rw [if_pos hc2]
    case isFalse hc2 =>
      rw [if_neg hc2]
      exact absurd h (by simp)

end HashTableBucketPage

end BusTub

namespace BusTub

namespace EHT

theorem splitScanLoop_fst_iff (n : Nat) (b : HashTableBucketPage) (k v : Nat) :
    ∀ (l : List Nat) (fp : Nat),
      (SplitScanLoop n b k v l fp).1 = true ↔
        ∃ i ∈ l, b.IsReadable i = true ∧ b.KeyAt i = k ∧ b.ValueAt i = v := by
  intro l
  induction l with
  | nil =>
    intro fp
    simp [SplitScanLoop]
  | cons i rest ih =>
    intro fp
    unfold SplitScanLoop
    simp only []
    split
    · rename_i hc
      simp only [Bool.and_eq_true, beq_iff_eq] at hc
      constructor
      · intro _
        exact ⟨i, List.mem_cons_self i rest, hc.1.1, hc.1.2, hc.2⟩
      · intro _; rfl
    · rename_i hc
      rw [ih]
      constructor
      · intro ⟨j, hj, hr⟩
        exact ⟨j, List.mem_cons_of_mem i hj, hr⟩
      · intro ⟨j, hj, hr⟩
        rcases List.mem_cons.mp hj with rfl | hj2
        · exfalso
          apply hc
          simp [hr.1, hr.2.1, hr.2.2]
        · exact ⟨j, hj2, hr⟩

theorem splitScan_fst_iff (n : Nat) (b : HashTableBucketPage) (k v : Nat) :
    (SplitScan n b k v).1 = true ↔
      ∃ i, i < n ∧ b.IsReadable i = true ∧ b.Entry i = (k, v) := by
  rw [SplitScan, splitScanLoop_fst_iff]
  constructor
  · intro ⟨i, hi, h1, h2, h3⟩
    exact ⟨i, List.mem_range.mp hi, h1, by rw [HashTableBucketPage.Entry, h2, h3]⟩
  · intro ⟨i, hi, h1, h2⟩
    exact ⟨i, List.mem_range.mpr hi, h1, congrArg Prod.fst h2, congrArg Prod.snd h2⟩

theorem isEmpty_iff (n : Nat) (b : HashTableBucketPage) :
    HashTableBucketPage.IsEmpty n b = true ↔ ∀ i < n, b.IsReadable i = false := by
  rw [HashTableBucketPage.IsEmpty, List.all_eq_true]
  constructor
  · intro h i hi
    have := h i (List.mem_range.mpr hi)
    simpa using this
  · intro h i hi
    have := h i (List.mem_range.mp hi)
    simpa using this

theorem getValue_fold_count (b : HashTableBucketPage) (k v : Nat) :
    ∀ (l : List Nat) (acc : Bool × List Nat),
      ((l.foldl (fun acc i =>
          if b.IsReadable i && (b.KeyAt i == k) then (true, acc.2 ++ [b.ValueAt i]) else acc)
        acc).2).count v
      = acc.2.count v
        + l.countP (fun t => b.IsReadable t && (b.KeyAt t == k) && (b.ValueAt t == v)) := by
  intro l
  induction l with
  | nil =>
    intro acc
    simp
  | cons i rest ih =>
    intro acc
    rw [List.foldl_cons, List.countP_cons, ih]
    by_cases hc : (b.IsReadable i && (b.KeyAt i == k)) = true
    · rw [if_pos hc]
      by_cases hv : b.ValueAt i = v
      · have hpred : (b.IsReadable i && (b.KeyAt i == k) && (b.ValueAt i == v)) = true := by
          rw [Bool.and_eq_true]
          exact ⟨hc, by simp [hv]⟩
        rw [hpred]
        simp only [List.count_append, if_true]
        have hone : List.count v [b.ValueAt i] = 1 := by simp [hv]
        rw [hone]
        omega
      · have hpred : (b.IsReadable i && (b.KeyAt i == k) && (b.ValueAt i == v)) = false := by
          rw [Bool.and_eq_false_iff]
          right
          simpa using hv
        rw [hpred]
        simp only [List.count_append, Bool.false_eq_true, if_false]
        have hzero : List.count v [b.ValueAt i] = 0 := by simp [Ne.symm hv]
        rw [hzero]
        omega
    · rw [if_neg hc]
      have hpred : (b.IsReadable i && (b.KeyAt i == k) && (b.ValueAt i == v)) = false := by
        rw [Bool.and_eq_false_iff]
        left
        exact (Bool.not_eq_true _).mp hc
      rw [hpred]
      simp only [Bool.false_eq_true, if_false]
      omega

theorem getValue_count (cfg : Cfg) (st : Store) (p : Int) (k v : Nat) (s : HT)
    (hroute : KeyToPageId cfg k s.dir = p) (hst : s.store = st) :
    ((GetValue cfg s k).1.2).count v
      = (List.range cfg.n).countP (fun t =>
          (bucketAt cfg st p).IsReadable t
          && ((bucketAt cfg st p).KeyAt t == k)
          && ((bucketAt cfg st p).ValueAt t == v)) := by
  unfold GetValue
  simp only []
  rw [← hroute, ← hst]
  rw [HashTableBucketPage.GetValue]
  rw [getValue_fold_count]
  simp

theorem getValue_fold_mem (b : HashTableBucketPage) (k v : Nat) :
    ∀ (l : List Nat) (acc : Bool × List Nat),
      (v ∈ (l.foldl (fun acc i =>
          if b.IsReadable i && (b.KeyAt i == k) then (true, acc.2 ++ [b.ValueAt i]) else acc)
        acc).2
      ↔ v ∈ acc.2 ∨ ∃ i ∈ l, b.IsReadable i = true ∧ b.KeyAt i = k ∧ b.ValueAt i = v) := by
  intro l
  induction l with
  | nil =>
    intro acc
    simp
  | cons i rest ih =>
    intro acc
    rw [List.foldl_cons]
    by_cases hc : (b.IsReadable i && (b.KeyAt i == k)) = true
    · rw [if_pos hc]
      rw [ih]
      simp only [Bool.and_eq_true, beq_iff_eq] at hc
      constructor
      · intro h
        rcases h with h | h
        · rcases List.mem_append.mp h with h2 | h2
          · exact Or.inl h2
          · rcases List.mem_singleton.mp h2 with rfl
            exact Or.inr ⟨i, List.mem_cons_self i rest, hc.1, hc.2, rfl⟩
        · obtain ⟨j, hj, hr⟩ := h
          exact Or.inr ⟨j, List.mem_cons_of_mem i hj, hr⟩
      · intro h
        rcases h with h | h
        · exact Or.inl (List.mem_append.mpr (Or.inl h))
        · obtain ⟨j, hj, hr⟩ := h
          rcases List.mem_cons.mp hj with rfl | hj2
          · exact Or.inl (List.mem_append.mpr (Or.inr (by simp [hr.2.2])))
          · exact Or.inr ⟨j, hj2, hr⟩
    · rw [if_neg hc]
      rw [ih]
      constructor
      · intro h
        rcases h with h | h
        · exact Or.inl h
        · obtain ⟨j, hj, hr⟩ := h
          exact Or.inr ⟨j, List.mem_cons_of_mem i hj, hr⟩
      · intro h
        rcases h with h | h
        · exact Or.inl h
        · obtain ⟨j, hj, hr⟩ := h
          rcases List.mem_cons.mp hj with rfl | hj2
          · exfalso
            apply hc
            simp [hr.1, hr.2.1]
          · exact Or.inr ⟨j, hj2, hr⟩

theorem getValue_mem_iff (cfg : Cfg) (s : HT) (k v : Nat) :
    v ∈ (GetValue cfg s k).1.2 ↔
      ∃ i, i < cfg.n ∧
        (bucketAt cfg s.store (KeyToPageId cfg k s.dir)).IsReadable i = true ∧
        (bucketAt cfg s.store (KeyToPageId cfg k s.dir)).Entry i = (k, v) := by
  unfold GetValue
  simp only []
  rw [HashTableBucketPage.GetValue, getValue_fold_mem]
  simp only [List.not_mem_nil, false_or]
  constructor
  · intro ⟨i, hi, h1, h2, h3⟩
    exact ⟨i, List.mem_range.mp hi, h1, by rw [HashTableBucketPage.Entry, h2, h3]⟩
  · intro ⟨i, hi, h1, h2⟩
    exact ⟨i, List.mem_range.mpr hi, h1, congrArg Prod.fst h2, congrArg Prod.snd h2⟩

end EHT

end BusTub

namespace BusTub

namespace HashTableBucketPage

theorem remove_fold_spec (n k v : Nat) :
    ∀ (l : List Nat), l.Nodup → (∀ i ∈ l, i < n) →
    ∀ (fl : Bool) (bc : HashTableBucketPage), WfBucket n bc →
    (l.foldl (fun acc i =>
        if acc.2.IsReadable i && (acc.2.KeyAt i == k) && (acc.2.ValueAt i == v)
        then (true, acc.2.RemoveAt i) else acc) (fl, bc)).2.array_ = bc.array_ ∧
    (l.foldl (fun acc i =>
        if acc.2.IsReadable i && (acc.2.KeyAt i == k) && (acc.2.ValueAt i == v)
        then (true, acc.2.RemoveAt i) else acc) (fl, bc)).2.occupied_ = bc.occupied_ ∧
    WfBucket n (l.foldl (fun acc i =>
        if acc.2.IsReadable i && (acc.2.KeyAt i == k) && (acc.2.ValueAt i == v)
        then (true, acc.2.RemoveAt i) else acc) (fl, bc)).2 ∧
    (∀ j < n, (l.foldl (fun acc i =>
        if acc.2.IsReadable i && (acc.2.KeyAt i == k) && (acc.2.ValueAt i == v)
        then (true, acc.2.RemoveAt i) else acc) (fl, bc)).2.IsReadable j
      = if j ∈ l ∧ bc.Entry j = (k, v) then false else bc.IsReadable j) ∧
    ((l.foldl (fun acc i =>
        if acc.2.IsReadable i && (acc.2.KeyAt i == k) && (acc.2.ValueAt i == v)
        then (true, acc.2.RemoveAt i) else acc) (fl, bc)).1 = true
      ↔ fl = true ∨ ∃ i ∈ l, bc.IsReadable i = true ∧ bc.Entry i = (k, v)) := by
  intro l
  induction l with
  | nil =>
    intro _ _ fl bc hwf
    refine ⟨rfl, rfl, hwf, ?_, ?_⟩
    · intro j _
      simp
    · simp
  | cons i rest ih =>
    intro hnd hl fl bc hwf
    have hilt : i < n := hl i (List.mem_cons_self i rest)
    have hndr : rest.Nodup := (List.nodup_cons.mp hnd).2
    have hinr : i ∉ rest := (List.nodup_cons.mp hnd).1
    have hlr : ∀ x ∈ rest, x < n := fun x hx => hl x (List.mem_cons_of_mem i hx)
    rw [List.foldl_cons]
    by_cases hc : (bc.IsReadable i && (bc.KeyAt i == k) && (bc.ValueAt i == v)) = true
    · rw [if_pos hc]
      have hcm : bc.IsReadable i = true ∧ bc.Entry i = (k, v) := by
        simp only [Bool.and_eq_true, beq_iff_eq] at hc
        exact ⟨hc.1.1, by rw [Entry, hc.1.2, hc.2]⟩
      have hwf2 : WfBucket n (bc.RemoveAt i) := wf_removeAt n bc i hwf hilt
      obtain ⟨ha, ho, hw, hr, hf⟩ := ih hndr hlr true (bc.RemoveAt i) hwf2
      refine ⟨ha, ho, hw, ?_, ?_⟩
      · intro j hj
        rw [hr j hj]
        simp only [entry_removeAt]
        rw [isReadable_removeAt n bc i j hwf.2.1 hilt hj]
        by_cases hji : j = i
        · subst hji
          rw [show (if j ∈ j :: rest ∧ bc.Entry j = (k, v) then false else bc.IsReadable j)
              = false from if_pos ⟨List.mem_cons_self j rest, hcm.2⟩]
          split
          · rfl
          · rw [if_pos rfl]
        · rw [if_neg hji]
          by_cases hcond : j ∈ rest ∧ bc.Entry j = (k, v)
          · rw [if_pos hcond, if_pos ⟨List.mem_cons_of_mem i hcond.1, hcond.2⟩]
          · rw [if_neg hcond, if_neg (fun hx : j ∈ i :: rest ∧ bc.Entry j = (k, v) =>
              hcond ⟨(List.mem_cons.mp hx.1).resolve_left hji, hx.2⟩)]
      · constructor
        · intro _
          exact Or.inr ⟨i, List.mem_cons_self i rest, hcm.1, hcm.2⟩
        · intro _
          exact hf.mpr (Or.inl rfl)
    · rw [if_neg hc]
      obtain ⟨ha, ho, hw, hr, hf⟩ := ih hndr hlr fl bc hwf
      have hnomatch : ¬ (bc.IsReadable i = true ∧ bc.Entry i = (k, v)) := by
        intro ⟨h1, h2⟩
        apply hc
        have hk : bc.KeyAt i = k := congrArg Prod.fst h2
        have hv : bc.ValueAt i = v := congrArg Prod.snd h2
        simp [h1, hk, hv]
      refine ⟨ha, ho, hw, ?_, ?_⟩
      · intro j hj
        rw [hr j hj]
        by_cases hji : j = i
        · subst hji
          by_cases hent : bc.Entry j = (k, v)
          · have hread : bc.IsReadable j = false := by
              rcases Bool.eq_false_or_eq_true (bc.IsReadable j) with h1 | h1
              · exact absurd ⟨h1, hent⟩ hnomatch
              · exact h1
            rw [if_neg (fun hx : j ∈ rest ∧ bc.Entry j = (k, v) => hinr hx.1),
              if_pos ⟨List.mem_cons_self j rest, hent⟩, hread]
          · rw [if_neg (fun hx : j ∈ rest ∧ bc.Entry j = (k, v) => hent hx.2),
              if_neg (fun hx : j ∈ j :: rest ∧ bc.Entry j = (k, v) => hent hx.2)]
        · by_cases hcond : j ∈ rest ∧ bc.Entry j = (k, v)
          · rw [if_pos hcond, if_pos ⟨List.mem_cons_of_mem i hcond.1, hcond.2⟩]
          · rw [if_neg hcond, if_neg (fun hx : j ∈ i :: rest ∧ bc.Entry j = (k, v) =>
              hcond ⟨(List.mem_cons.mp hx.1).resolve_left hji, hx.2⟩)]
      · rw [hf]
        constructor
        · intro h
          rcases h with h | ⟨j, hjm, hjp⟩
          · exact Or.inl h
          · exact Or.inr ⟨j, List.mem_cons_of_mem i hjm, hjp⟩
        · intro h
          rcases h with h | ⟨j, hjm, hjp⟩
          · exact Or.inl h
          · rcases List.mem_cons.mp hjm with rfl | hjm2
            · exact absurd ⟨hjp.1, hjp.2⟩ hnomatch
            · exact Or.inr ⟨j, hjm2, hjp⟩

theorem remove_spec (n : Nat) (b : HashTableBucketPage) (k v : Nat)
    (hwf : WfBucket n b) :
    (Remove n b k v).2.array_ = b.array_ ∧
    (Remove n b k v).2.occupied_ = b.occupied_ ∧
    WfBucket n (Remove n b k v).2 ∧
    (∀ j < n, (Remove n b k v).2.IsReadable j
      = if b.Entry j = (k, v) then false else b.IsReadable j) ∧
    ((Remove n b k v).1 = true ↔
      ∃ i, i < n ∧ b.IsReadable i = true ∧ b.Entry i = (k, v)) := by
  obtain ⟨ha, ho, hw, hr, hf⟩ := remove_fold_spec n k v (List.range n)
    (List.nodup_range n) (fun x hx => List.mem_range.mp hx) false b hwf
  rw [Remove]
  refine ⟨ha, ho, hw, ?_, ?_⟩
  · intro j hj
    rw [hr j hj]
    by_cases hent : b.Entry j = (k, v)
    · rw [if_pos ⟨List.mem_range.mpr hj, hent⟩, if_pos hent]
    · rw [if_neg (fun hx : j ∈ List.range n ∧ b.Entry j = (k, v) => hent hx.2),
        if_neg hent]
  · rw [hf]
    simp only [Bool.false_eq_true, false_or]
    constructor
    · intro ⟨i, him, hip⟩
      exact ⟨i, List.mem_range.mp him, hip⟩
    · intro ⟨i, hilt, hip⟩
      exact ⟨i, List.mem_range.mpr hilt, hip⟩

theorem nodup_of_restrict (n : Nat) (b b2 : HashTableBucketPage)
    (hnd : NoDupPairs n b)
    (hent : ∀ j < n, b2.Entry j = b.Entry j)
    (hread : ∀ j < n, b2.IsReadable j = true → b.IsReadable j = true) :
    NoDupPairs n b2 := by
  intro i hi j hj hij hri hrj
  rw [hent i hi, hent j hj]
  exact hnd i hi j hj hij (hread i hi hri) (hread j hj hrj)

end HashTableBucketPage



end BusTub

namespace BusTub

namespace HashTableBucketPage

theorem insert_nodup (n : Nat) (b : HashTableBucketPage) (k v : Nat)
    (hwf : WfBucket n b) (hnd : NoDupPairs n b) :
    NoDupPairs n (Insert n b k v).2 := by
  cases hflag : (Insert n b k v).1 with
  | false =>
    rw [insert_false_unchanged n b k v hflag]
    exact hnd
  | true =>
    have habs : ¬ ∃ i, i < n ∧ b.IsReadable i = true ∧ b.Entry i = (k, v) := by
      intro hpres
      rw [insert_false_of_present n b k v hpres] at hflag
      exact Bool.noConfusion hflag
    obtain ⟨m, hm, hmr, hread, hocc, hent, hwf2⟩ := insert_effects n b k v hwf hflag
    intro i hi j hj hij hri hrj
    rw [hent i hi, hent j hj]
    rw [hread i hi] at hri
    rw [hread j hj] at hrj
    by_cases hi0 : i = m
    · subst hi0
      rw [if_pos rfl]
      rw [if_neg (fun hc : j = i => hij hc.symm)] at hrj ⊢
      intro hc
      exact habs ⟨j, hj, hrj, hc.symm⟩
    · rw [if_neg hi0] at hri ⊢
      by_cases hj0 : j = m
      · subst hj0
        rw [if_pos rfl]
        intro hc
        exact habs ⟨i, hi, hri, hc⟩
      · rw [if_neg hj0] at hrj ⊢
        exact hnd i hi j hj hij hri hrj

theorem insert_contains (n : Nat) (b : HashTableBucketPage) (k v : Nat)
    (hwf : WfBucket n b) (h : (Insert n b k v).1 = true) :
    ∃ m, m < n ∧ (Insert n b k v).2.IsReadable m = true ∧
      (Insert n b k v).2.Entry m = (k, v) := by
  obtain ⟨m, hm, hmr, hread, hocc, hent, hwf2⟩ := insert_effects n b k v hwf h
  refine ⟨m, hm, ?_, ?_⟩
  · rw [hread m hm, if_pos rfl]
  · rw [hent m hm, if_pos rfl]

theorem insert_source (n : Nat) (b : HashTableBucketPage) (k v : Nat)
    (hwf : WfBucket n b) (t : Nat) (ht : t < n)
    (hr : (Insert n b k v).2.IsReadable t = true) :
    (Insert n b k v).2.Entry t = (k, v) ∨
      (b.IsReadable t = true ∧ (Insert n b k v).2.Entry t = b.Entry t) := by
  cases hflag : (Insert n b k v).1 with
  | false =>
    rw [insert_false_unchanged n b k v hflag] at hr ⊢
    exact Or.inr ⟨hr, rfl⟩
  | true =>
    obtain ⟨m, hm, hmr, hread, hocc, hent, hwf2⟩ := insert_effects n b k v hwf hflag
    by_cases htm : t = m
    · subst htm
      exact Or.inl (by rw [hent t ht, if_pos rfl])
    · rw [hread t ht, if_neg htm] at hr
      exact Or.inr ⟨hr, by rw [hent t ht, if_neg htm]⟩

theorem redistribute_spec (n : Nat) (cond : Nat → Bool) :
    ∀ (l : List Nat), l.Nodup → (∀ i ∈ l, i < n) →
    ∀ (old nw : HashTableBucketPage) (fr : Bool),
      WfBucket n old → WfBucket n nw → NoDupPairs n nw →
    (BusTub.EHT.Redistribute n cond old nw fr l).1.array_ = old.array_ ∧
    (BusTub.EHT.Redistribute n cond old nw fr l).1.occupied_ = old.occupied_ ∧
    WfBucket n (BusTub.EHT.Redistribute n cond old nw fr l).1 ∧
    (∀ j < n, (BusTub.EHT.Redistribute n cond old nw fr l).1.IsReadable j
      = if j ∈ l ∧ cond (old.KeyAt j) = true then false else old.IsReadable j) ∧
    WfBucket n (BusTub.EHT.Redistribute n cond old nw fr l).2.1 ∧
    NoDupPairs n (BusTub.EHT.Redistribute n cond old nw fr l).2.1 ∧
    (∀ t < n, (BusTub.EHT.Redistribute n cond old nw fr l).2.1.IsReadable t = true →
      (∃ i ∈ l, cond (old.KeyAt i) = true ∧
        (BusTub.EHT.Redistribute n cond old nw fr l).2.1.Entry t = old.Entry i) ∨
      (nw.IsReadable t = true ∧
        (BusTub.EHT.Redistribute n cond old nw fr l).2.1.Entry t = nw.Entry t)) ∧
    ((BusTub.EHT.Redistribute n cond old nw fr l).2.2 = true ↔
      fr = true ∨ ∃ i ∈ l, cond (old.KeyAt i) = true) := by
  intro l
  induction l with
  | nil =>
    intro _ _ old nw fr hwo hwn hnd
    refine ⟨rfl, rfl, hwo, ?_, hwn, hnd, ?_, ?_⟩
    · intro j _; simp [BusTub.EHT.Redistribute]
    · intro t ht hr
      exact Or.inr ⟨hr, rfl⟩
    · simp [BusTub.EHT.Redistribute]
  | cons i rest ih =>
    intro hnd hl old nw fr hwo hwn hndn
    have hilt : i < n := hl i (List.mem_cons_self i rest)
    have hndr : rest.Nodup := (List.nodup_cons.mp hnd).2
    have hinr : i ∉ rest := (List.nodup_cons.mp hnd).1
    have hlr : ∀ x ∈ rest, x < n := fun x hx => hl x (List.mem_cons_of_mem i hx)
    unfold BusTub.EHT.Redistribute
    by_cases hc : cond (old.KeyAt i) = true
    · rw [if_pos hc]
      have hwo2 : WfBucket n (old.RemoveAt i) := wf_removeAt n old i hwo hilt
      have hwn2 : WfBucket n (Insert n nw (old.KeyAt i) (old.ValueAt i)).2 := by
        cases hflag : (Insert n nw (old.KeyAt i) (old.ValueAt i)).1 with
        | false => rw [insert_false_unchanged n nw _ _ hflag]; exact hwn
        | true =>
          obtain ⟨m, _, _, _, _, _, hwf2⟩ := insert_effects n nw _ _ hwn hflag
          exact hwf2
      have hndn2 := insert_nodup n nw (old.KeyAt i) (old.ValueAt i) hwn hndn
      obtain ⟨ha, ho, hw1, hr1, hw2, hnd2, hsrc, hfr⟩ :=
        ih hndr hlr (old.RemoveAt i) (Insert n nw (old.KeyAt i) (old.ValueAt i)).2
          true hwo2 hwn2 hndn2
      refine ⟨ha, ho, hw1, ?_, hw2, hnd2, ?_, ?_⟩
      · intro j hj
        rw [hr1 j hj]
        simp only [keyAt_removeAt]
        rw [isReadable_removeAt n old i j hwo.2.1 hilt hj]
        by_cases hji : j = i
        · subst hji
          rw [show (if j ∈ j :: rest ∧ cond (old.KeyAt j) = true then false
              else old.IsReadable j) = false from
              if_pos ⟨List.mem_cons_self j rest, hc⟩]
          split
          · rfl
          · rw [if_pos rfl]
        · rw [if_neg hji]
          by_cases hcond : j ∈ rest ∧ cond (old.KeyAt j) = true
          · rw [if_pos hcond, if_pos ⟨List.mem_cons_of_mem i hcond.1, hcond.2⟩]
          · rw [if_neg hcond, if_neg (fun hx : j ∈ i :: rest ∧ cond (old.KeyAt j) = true =>
              hcond ⟨(List.mem_cons.mp hx.1).resolve_left hji, hx.2⟩)]
      · intro t ht hr
        rcases hsrc t ht hr with ⟨j, hjm, hjc, hje⟩ | ⟨hnr, hne⟩
        · simp only [keyAt_removeAt] at hjc
          simp only [entry_removeAt] at hje
          exact Or.inl ⟨j, List.mem_cons_of_mem i hjm, hjc, hje⟩
        · rcases insert_source n nw (old.KeyAt i) (old.ValueAt i) hwn t ht hnr with
            hcase | ⟨hnr2, hne2⟩
          · refine Or.inl ⟨i, List.mem_cons_self i rest, hc, ?_⟩
            rw [hne, hcase]
            rfl
          · exact Or.inr ⟨hnr2, by rw [hne, hne2]⟩
      · rw [hfr]
        constructor
        · intro _
          exact Or.inr ⟨i, List.mem_cons_self i rest, hc⟩
        · intro _
          exact Or.inl rfl
    · rw [if_neg hc]
      obtain ⟨ha, ho, hw1, hr1, hw2, hnd2, hsrc, hfr⟩ :=
        ih hndr hlr old nw fr hwo hwn hndn
      refine ⟨ha, ho, hw1, ?_, hw2, hnd2, ?_, ?_⟩
      · intro j hj
        rw [hr1 j hj]
        by_cases hji : j = i
        · subst hji
          rw [if_neg (fun hx : j ∈ rest ∧ cond (old.KeyAt j) = true => hinr hx.1),
            if_neg (fun hx : j ∈ j :: rest ∧ cond (old.KeyAt j) = true => hc hx.2)]
        · by_cases hcond : j ∈ rest ∧ cond (old.KeyAt j) = true
          · rw [if_pos hcond, if_pos ⟨List.mem_cons_of_mem i hcond.1, hcond.2⟩]
          · rw [if_neg hcond, if_neg (fun hx : j ∈ i :: rest ∧ cond (old.KeyAt j) = true =>
              hcond ⟨(List.mem_cons.mp hx.1).resolve_left hji, hx.2⟩)]
      · intro t ht hr
        rcases hsrc t ht hr with ⟨j, hjm, hjc, hje⟩ | hcase
        · exact Or.inl ⟨j, List.mem_cons_of_mem i hjm, hjc, hje⟩
        · exact Or.inr hcase
      · rw [hfr]
        constructor
        · intro h
          rcases h with h | ⟨j, hjm, hjc⟩
          · exact Or.inl h
          · exact Or.inr ⟨j, List.mem_cons_of_mem i hjm, hjc⟩
        · intro h
          rcases h with h | ⟨j, hjm, hjc⟩
          · exact Or.inl h
          · rcases List.mem_cons.mp hjm with rfl | hjm2
            · exact absurd hjc hc
            · exact Or.inr ⟨j, hjm2, hjc⟩

end HashTableBucketPage

end BusTub

namespace BusTub

namespace EHT

theorem pow2_pos (m : Nat) : 0 < 2 ^ m := Nat.pow_pos (by norm_num)

theorem one_shl (m : Nat) : (1 <<< m) = 2 ^ m := by
  rw [Nat.shiftLeft_eq, one_mul]

theorem and_mask_mod (x m : Nat) : x &&& (1 <<< m - 1) = x % 2 ^ m := by
  rw [one_shl, Nat.and_pow_two_sub_one_eq_mod]

theorem mod_tower {L g : Nat} (h : L ≤ g) (x : Nat) :
    x % 2 ^ g % 2 ^ L = x % 2 ^ L :=
  Nat.mod_mod_of_dvd x (pow_dvd_pow 2 h)

theorem or_two_pow_add {a g : Nat} (h : a < 2 ^ g) : a ||| 2 ^ g = 2 ^ g + a := by
  have h2 := Nat.mul_add_lt_is_or h 1
  rw [Nat.mul_one] at h2
  rw [Nat.lor_comm]
  exact h2.symm

theorem or_two_pow_mod {a g : Nat} (h : a < 2 ^ g) : (a ||| 2 ^ g) % 2 ^ g = a := by
  rw [or_two_pow_add h, Nat.add_mod_left, Nat.mod_eq_of_lt h]

theorem or_two_pow_lt {a g : Nat} (h : a < 2 ^ g) : a ||| 2 ^ g < 2 ^ (g + 1) := by
  have hp : 2 ^ (g + 1) = 2 ^ g * 2 := by rw [Nat.pow_succ]
  rw [or_two_pow_add h]
  omega

theorem or_two_pow_ne {a g : Nat} (h : a < 2 ^ g) : a ||| 2 ^ g ≠ a := by
  have hp := pow2_pos g
  rw [or_two_pow_add h]
  omega

theorem mod_two_pow_eq_iff (x y n : Nat) :
    x % 2 ^ n = y % 2 ^ n ↔ ∀ i < n, Nat.testBit x i = Nat.testBit y i := by
  constructor
  · intro h i hi
    have hx : Nat.testBit x i = Nat.testBit (x % 2 ^ n) i := by
      rw [Nat.testBit_mod_two_pow]
      simp [hi]
    have hy : Nat.testBit y i = Nat.testBit (y % 2 ^ n) i := by
      rw [Nat.testBit_mod_two_pow]
      simp [hi]
    rw [hx, hy, h]
  · intro h
    apply Nat.eq_of_testBit_eq
    intro i
    rw [Nat.testBit_mod_two_pow, Nat.testBit_mod_two_pow]
    by_cases hi : i < n
    · simp [hi, h i hi]
    · simp [hi]

theorem pair_of_mod {j index g : Nat} (hj : j < 2 ^ (g + 1)) (hidx : index < 2 ^ g)
    (h : j % 2 ^ g = index) : j = index ∨ j = index ||| 2 ^ g := by
  have hp : 2 ^ (g + 1) = 2 ^ g * 2 := by rw [Nat.pow_succ]
  by_cases hlt : j < 2 ^ g
  · left
    rw [← h, Nat.mod_eq_of_lt hlt]
  · right
    have hge : 2 ^ g ≤ j := Nat.le_of_not_lt hlt
    have hmod : j % 2 ^ g = j - 2 ^ g := by
      rw [Nat.mod_eq_sub_mod hge, Nat.mod_eq_of_lt (by omega)]
    rw [or_two_pow_add hidx, ← h, hmod]
    omega

theorem mod_double_resolve {H index g : Nat} (hidx : index < 2 ^ g)
    (h : H % 2 ^ g = index) :
    H % 2 ^ (g + 1) = index ∨ H % 2 ^ (g + 1) = index ||| 2 ^ g := by
  have hR : H % 2 ^ (g + 1) % 2 ^ g = index := by
    rw [mod_tower (Nat.le_succ g)]
    exact h
  exact pair_of_mod (Nat.mod_lt _ (pow2_pos (g + 1))) hidx hR

theorem xor_two_pow_ne {index L : Nat} : 2 ^ L ^^^ index ≠ index := by
  intro hc
  have h2 : (2 ^ L ^^^ index) ^^^ index = index ^^^ index := by rw [hc]
  rw [Nat.xor_assoc, Nat.xor_self, Nat.xor_zero] at h2
  exact absurd h2 (Nat.pos_iff_ne_zero.mp (pow2_pos L))

theorem xor_two_pow_mod {index L : Nat} : (2 ^ L ^^^ index) % 2 ^ L = index % 2 ^ L := by
  rw [mod_two_pow_eq_iff]
  intro i hi
  rw [Nat.testBit_xor, Nat.testBit_two_pow_of_ne (by omega : L ≠ i)]
  simp

theorem xor_two_pow_mod_succ_ne {index L : Nat} :
    (2 ^ L ^^^ index) % 2 ^ (L + 1) ≠ index % 2 ^ (L + 1) := by
  intro hc
  have hb := (mod_two_pow_eq_iff _ _ _).mp hc L (Nat.lt_succ_self L)
  rw [Nat.testBit_xor, Nat.testBit_two_pow_self] at hb
  cases hx : Nat.testBit index L <;> rw [hx] at hb <;> simp_all

theorem mod_succ_resolve {H index L : Nat} (h : H % 2 ^ L = index % 2 ^ L) :
    H % 2 ^ (L + 1) = index % 2 ^ (L + 1) ∨
      H % 2 ^ (L + 1) = (2 ^ L ^^^ index) % 2 ^ (L + 1) := by
  by_cases hb : Nat.testBit H L = Nat.testBit index L
  · left
    rw [mod_two_pow_eq_iff]
    intro i hi
    by_cases hiL : i < L
    · exact (mod_two_pow_eq_iff H index L).mp h i hiL
    · have hieq : i = L := by omega
      subst hieq
      exact hb
  · right
    rw [mod_two_pow_eq_iff]
    intro i hi
    rw [Nat.testBit_xor]
    by_cases hiL : i < L
    · rw [Nat.testBit_two_pow_of_ne (by omega : L ≠ i)]
      simp [(mod_two_pow_eq_iff H index L).mp h i hiL]
    · have hieq : i = L := by omega
      subst hieq
      rw [Nat.testBit_two_pow_self]
      cases hHi : Nat.testBit H i <;> cases hIi : Nat.testBit index i <;> simp_all

theorem size_eq (d : HashTableDirectoryPage) : d.Size = 2 ^ d.global_depth_ := by
  rw [HashTableDirectoryPage.Size, one_shl]

theorem keyToDirectoryIndex_eq (cfg : Cfg) (k : Nat) (d : HashTableDirectoryPage) :
    KeyToDirectoryIndex cfg k d = Hash cfg k % 2 ^ d.global_depth_ := by
  rw [KeyToDirectoryIndex, HashTableDirectoryPage.GetGlobalDepthMask]
  exact and_mask_mod _ _

theorem keyToDirectoryIndex_lt (cfg : Cfg) (k : Nat) (d : HashTableDirectoryPage) :
    KeyToDirectoryIndex cfg k d < d.Size := by
  rw [keyToDirectoryIndex_eq, size_eq]
  exact Nat.mod_lt _ (pow2_pos _)

theorem canShrink_iff (d : HashTableDirectoryPage) :
    d.CanShrink = true ↔ ∀ i < d.Size, d.GetLocalDepth i < d.GetGlobalDepth := by
  rw [HashTableDirectoryPage.CanShrink, List.all_eq_true]
  constructor
  · intro h i hi
    have := h i (List.mem_range.mpr hi)
    simpa [HashTableDirectoryPage.GetLocalDepth, HashTableDirectoryPage.GetGlobalDepth]
      using this
  · intro h i hi
    have := h i (List.mem_range.mp hi)
    simpa [HashTableDirectoryPage.GetLocalDepth, HashTableDirectoryPage.GetGlobalDepth]
      using this

end EHT

end BusTub

namespace BusTub

namespace EHT

theorem find_filter_ne (st : Store) (p q : Int) (h : q ≠ p) :
    (st.filter (fun e => ! (e.1 == p))).find? (fun e => e.1 == q)
      = st.find? (fun e => e.1 == q) := by
  induction st with
  | nil => rfl
  | cons e rest ih =>
    by_cases hq : e.1 = q
    · have hp : (e.1 == p) = false := by simp [hq, h]
      rw [List.filter_cons_of_pos (by simp [hp])]
      rw [List.find?_cons_of_pos _ (by simp [hq]), List.find?_cons_of_pos _ (by simp [hq])]
    · by_cases hp : e.1 = p
      · rw [List.filter_cons_of_neg (by simp [hp])]
        rw [ih, List.find?_cons_of_neg _ (by simp [hq])]
      · rw [List.filter_cons_of_pos (by simp [hp])]
        rw [List.find?_cons_of_neg _ (by simp [hq])]
        rw [List.find?_cons_of_neg _ (by simp [hq])]
        exact ih

theorem storeGet_set_self (st : Store) (p : Int) (b : HashTableBucketPage) :
    storeGet (storeSet st p b) p = some b := by
  unfold storeGet storeSet
  rw [List.find?_cons_of_pos _ (by simp)]
  rfl

theorem storeGet_set_ne (st : Store) (p : Int) (b : HashTableBucketPage) (q : Int)
    (h : q ≠ p) : storeGet (storeSet st p b) q = storeGet st q := by
  unfold storeGet storeSet
  rw [List.find?_cons_of_neg _ (by simp [Ne.symm h]), find_filter_ne st p q h]

theorem storeGet_del_self (st : Store) (p : Int) : storeGet (storeDel st p) p = none := by
  unfold storeGet storeDel
  rw [List.find?_eq_none.mpr]
  · rfl
  · intro e he
    have := (List.mem_filter.mp he).2
    simpa using this

theorem storeGet_del_ne (st : Store) (p q : Int) (h : q ≠ p) :
    storeGet (storeDel st p) q = storeGet st q := by
  unfold storeGet storeDel
  rw [find_filter_ne st p q h]

theorem mem_storeSet (st : Store) (p : Int) (b : HashTableBucketPage)
    (e : Int × HashTableBucketPage) (h : e ∈ storeSet st p b) :
    e = (p, b) ∨ e ∈ st := by
  rcases List.mem_cons.mp h with h2 | h2
  · exact Or.inl h2
  · exact Or.inr (List.mem_filter.mp h2).1

theorem mem_storeDel (st : Store) (p : Int) (e : Int × HashTableBucketPage)
    (h : e ∈ storeDel st p) : e ∈ st :=
  (List.mem_filter.mp h).1

theorem storeGet_some_mem (st : Store) (p : Int) (b : HashTableBucketPage)
    (h : storeGet st p = some b) : (p, b) ∈ st := by
  unfold storeGet at h
  cases hf : st.find? (fun e => e.1 == p) with
  | none =>
    rw [hf] at h
    exact Option.noConfusion h
  | some e =>
    rw [hf] at h
    have hm := List.mem_of_find?_eq_some hf
    have hp := List.find?_some hf
    have he1 : e.1 = p := by simpa using hp
    have hb : e.2 = b := by simpa using h
    have hep : e = (p, b) := by
      cases e
      simp_all
    rw [← hep]
    exact hm

theorem storeGet_isSome_mem (st : Store) (p : Int)
    (h : (storeGet st p).isSome = true) : ∃ b, (p, b) ∈ st := by
  cases hg : storeGet st p with
  | none =>
    rw [hg] at h
    exact Bool.noConfusion h
  | some b => exact ⟨b, storeGet_some_mem st p b hg⟩

theorem bucketAt_set_self (cfg : Cfg) (st : Store) (p : Int) (b : HashTableBucketPage) :
    bucketAt cfg (storeSet st p b) p = b := by
  rw [bucketAt, storeGet_set_self]
  rfl

theorem bucketAt_set_ne (cfg : Cfg) (st : Store) (p : Int) (b : HashTableBucketPage)
    (q : Int) (h : q ≠ p) : bucketAt cfg (storeSet st p b) q = bucketAt cfg st q := by
  rw [bucketAt, storeGet_set_ne st p b q h, bucketAt]

theorem bucketAt_del_ne (cfg : Cfg) (st : Store) (p q : Int) (h : q ≠ p) :
    bucketAt cfg (storeDel st p) q = bucketAt cfg st q := by
  rw [bucketAt, storeGet_del_ne st p q h, bucketAt]

theorem bucketAt_del_self (cfg : Cfg) (st : Store) (p : Int) :
    bucketAt cfg (storeDel st p) p = HashTableBucketPage.empty cfg.n := by
  rw [bucketAt, storeGet_del_self]
  rfl

end EHT

end BusTub

namespace BusTub

theorem wf_empty (n : Nat) : WfBucket n (HashTableBucketPage.empty n) := by
  refine ⟨by simp [HashTableBucketPage.empty], by simp [HashTableBucketPage.empty],
    by simp [HashTableBucketPage.empty], ?_, ?_, ?_⟩
  · intro x hx
    rw [List.eq_of_mem_replicate hx]
    norm_num
  · intro x hx
    rw [List.eq_of_mem_replicate hx]
    norm_num
  · intro i _ hr
    rw [empty_not_readable] at hr
    exact Bool.noConfusion hr

theorem noDup_empty (n : Nat) : NoDupPairs n (HashTableBucketPage.empty n) := by
  intro i _ j _ _ hri _
  rw [empty_not_readable] at hri
  exact absurd hri (by simp)

set_option maxRecDepth 4000 in
theorem fullBucket496_entry (t : Nat) (h : t < 496) :
    fullBucket496.Entry t = (0, t) := by
  have harr : fullBucket496.array_.getD t (0, 0) = (0, t) := by
    rw [show fullBucket496.array_ = (List.range 496).map (fun i => (0, i)) from rfl]
    rw [List.getD_eq_getElem?_getD, List.getElem?_map]
    simp [List.getElem?_range h]
  rw [HashTableBucketPage.Entry, HashTableBucketPage.KeyAt, HashTableBucketPage.ValueAt,
    harr]

theorem fullBucket496_occupied (i : Nat) (h : i < 496) :
    fullBucket496.IsOccupied i = true := by
  unfold HashTableBucketPage.IsOccupied fullBucket496
  simp only []
  rw [getD_replicate_of_lt 62 (i / 8) 255 0 (by omega)]
  have h8 : 7 - i % 8 < 8 := by omega
  have h255 : (255 : Nat) = 2 ^ 8 - 1 := by norm_num
  rw [h255, Nat.testBit_two_pow_sub_one]
  simpa using h8

end BusTub

namespace BusTub

namespace EHT

theorem splitScanLoop_snd_of_all (n : Nat) (b : HashTableBucketPage) (k v : Nat) :
    ∀ (l : List Nat) (fp : Nat),
      (∀ i ∈ l, b.IsOccupied i = true ∧ b.IsReadable i = true) →
      (SplitScanLoop n b k v l fp).2 = fp := by
  intro l
  induction l with
  | nil => intro fp _; rfl
  | cons i rest ih =>
    intro fp hall
    unfold SplitScanLoop
    have hcond : (fp == n && (! b.IsOccupied i || ! b.IsReadable i)) = false := by
      simp [(hall i (List.mem_cons_self i rest)).1, (hall i (List.mem_cons_self i rest)).2]
    rw [hcond]
    simp only [if_false, Bool.false_eq_true]
    split
    · rfl
    · exact ih fp (fun x hx => hall x (List.mem_cons_of_mem i hx))

theorem countP_eq_one_of_unique (p : Nat → Bool) :
    ∀ (l : List Nat), l.Nodup →
      ∀ t ∈ l, p t = true → (∀ u ∈ l, p u = true → u = t) → l.countP p = 1 := by
  intro l
  induction l with
  | nil => intro _ t ht; exact absurd ht (List.not_mem_nil t)
  | cons a rest ih =>
    intro hnd t ht hp hu
    rw [List.countP_cons]
    rcases List.mem_cons.mp ht with rfl | hmem
    · have hz : rest.countP p = 0 := by
        rw [List.countP_eq_zero]
        intro u hu2 hpu
        have hut := hu u (List.mem_cons_of_mem t hu2) hpu
        subst hut
        exact (List.nodup_cons.mp hnd).1 hu2
      rw [hz, hp]
      simp
    · have ha : p a = false := by
        rw [Bool.eq_false_iff]
        intro hc
        have hat := hu a (List.mem_cons_self a rest) hc
        subst hat
        exact (List.nodup_cons.mp hnd).1 hmem
      rw [ha]
      simp only [Bool.false_eq_true, if_false, Nat.add_zero]
      exact ih (List.nodup_cons.mp hnd).2 t hmem hp
        (fun u hu2 hpu => hu u (List.mem_cons_of_mem a hu2) hpu)

theorem inv_def (cfg : Cfg) (s : HT) :
    INV cfg s ↔ 0 < cfg.n ∧ INVD cfg s.dir s.store s.next_pid := Iff.rfl

theorem inv_init (cfg : Cfg) (h0 : 0 < cfg.n) : INV cfg (initHT cfg) := by
  have hsz : (initHT cfg).dir.Size = 1 := rfl
  refine ⟨h0, ⟨Nat.zero_le _, ?_, ?_, ?_⟩, ?_, ?_, ?_⟩
  · intro i hi
    exact Nat.zero_le _
  · intro i hi j hj _
    rw [hsz] at hi hj
    have hi0 : i = 0 := by omega
    have hj0 : j = 0 := by omega
    subst hi0; subst hj0
    exact ⟨rfl, rfl⟩
  · intro i hi j hj _
    rw [hsz] at hi hj
    have hi0 : i = 0 := by omega
    have hj0 : j = 0 := by omega
    subst hi0; subst hj0
    exact ⟨rfl, rfl⟩
  · intro i hi
    rw [hsz] at hi
    have hi0 : i = 0 := by omega
    subst hi0
    refine ⟨rfl, ?_, ?_, ?_⟩
    · exact wf_empty cfg.n
    · exact noDup_empty cfg.n
    · intro t _ _
      show Hash cfg _ % 2 ^ 0 = 0 % 2 ^ 0
      rw [pow_zero, Nat.mod_one, Nat.mod_one]
  · intro i hi
    rw [hsz] at hi
    have hi0 : i = 0 := by omega
    subst hi0
    show (0 : Int) < 1
    norm_num
  · intro e he
    rcases List.mem_singleton.mp he with rfl
    exact ⟨show (0 : Int) < 1 by decide, show (1 : Int) < 2 by decide⟩

end EHT

end BusTub

namespace BusTub

namespace EHT

theorem growLoop_eq (d : HashTableDirectoryPage) :
    GrowLoop d = (List.range d.Size).foldl GrowStep d := rfl

theorem fanLoop_eq (d : HashTableDirectoryPage) (old_pid new_pid : Int)
    (index mask local_depth size : Nat) :
    FanLoop d old_pid new_pid index mask local_depth size
      = (List.range size).foldl (FanStep old_pid new_pid index mask local_depth) d := rfl

theorem mergeFan_eq (d : HashTableDirectoryPage) (bp mp : Int) :
    MergeFan d bp mp = (List.range d.Size).foldl (MergeFanStep bp mp) d := rfl

theorem growStep_gd (d2 : HashTableDirectoryPage) (idx : Nat) :
    (GrowStep d2 idx).global_depth_ = d2.global_depth_ := rfl

theorem growLoop_aux (g : Nat) :
    ∀ (l : List Nat), l.Nodup → (∀ x ∈ l, x < 2 ^ g) →
    ∀ d2 : HashTableDirectoryPage, d2.global_depth_ = g →
      (l.foldl GrowStep d2).global_depth_ = g ∧
      (∀ j, (∀ x ∈ l, j ≠ x ||| 2 ^ g) →
        (l.foldl GrowStep d2).bucket_page_ids_ j = d2.bucket_page_ids_ j ∧
        (l.foldl GrowStep d2).local_depths_ j = d2.local_depths_ j) ∧
      (∀ x ∈ l,
        (l.foldl GrowStep d2).bucket_page_ids_ (x ||| 2 ^ g) = d2.bucket_page_ids_ x ∧
        (l.foldl GrowStep d2).local_depths_ (x ||| 2 ^ g) = d2.local_depths_ x) := by
  intro l
  induction l with
  | nil =>
    intro _ _ d2 hgd
    exact ⟨hgd, fun j _ => ⟨rfl, rfl⟩, fun x hx => absurd hx (List.not_mem_nil x)⟩
  | cons a rest ih =>
    intro hnd hb d2 hgd
    rw [List.foldl_cons]
    have ha : a < 2 ^ g := hb a (List.mem_cons_self a rest)
    have hgd2 : (GrowStep d2 a).global_depth_ = g := by rw [growStep_gd]; exact hgd
    have hrest := ih (List.nodup_cons.mp hnd).2
      (fun x hx => hb x (List.mem_cons_of_mem a hx)) (GrowStep d2 a) hgd2
    have hmask : (1 <<< d2.GetGlobalDepth) = 2 ^ g := by
      rw [one_shl]
      show 2 ^ d2.global_depth_ = 2 ^ g
      rw [hgd]
    have hpid : ∀ j, (GrowStep d2 a).bucket_page_ids_ j
        = if j = a ||| 2 ^ g then d2.bucket_page_ids_ a else d2.bucket_page_ids_ j := by
      intro j
      show (if j = a ||| (1 <<< d2.GetGlobalDepth) then d2.bucket_page_ids_ a
            else d2.bucket_page_ids_ j) = _
      rw [hmask]
    have hld : ∀ j, (GrowStep d2 a).local_depths_ j
        = if j = a ||| 2 ^ g then d2.local_depths_ a else d2.local_depths_ j := by
      intro j
      show (if j = a ||| (1 <<< d2.GetGlobalDepth) then d2.local_depths_ a
            else d2.local_depths_ j) = _
      rw [hmask]
    refine ⟨hrest.1, ?_, ?_⟩
    · intro j hj
      have hjr := hrest.2.1 j (fun x hx => hj x (List.mem_cons_of_mem a hx))
      have hja : j ≠ a ||| 2 ^ g := hj a (List.mem_cons_self a rest)
      rw [hjr.1, hjr.2, hpid j, hld j, if_neg hja, if_neg hja]
      exact ⟨rfl, rfl⟩
    · intro x hx
      rcases List.mem_cons.mp hx with rfl | hx2
      · have hne : ∀ y ∈ rest, x ||| 2 ^ g ≠ y ||| 2 ^ g := by
          intro y hy hc
          have hya : y < 2 ^ g := hb y (List.mem_cons_of_mem x hy)
          rw [or_two_pow_add ha, or_two_pow_add hya] at hc
          have hxy : x = y := by omega
          subst hxy
          exact (List.nodup_cons.mp hnd).1 hy
        have hjr := hrest.2.1 (x ||| 2 ^ g) hne
        rw [hjr.1, hjr.2, hpid _, hld _, if_pos rfl, if_pos rfl]
        exact ⟨rfl, rfl⟩
      · have hres := hrest.2.2 x hx2
        have hxa : x ≠ a ||| 2 ^ g := by
          intro hc
          have hxlt := hb x (List.mem_cons_of_mem a hx2)
          rw [or_two_pow_add ha] at hc
          omega
        rw [hres.1, hres.2, hpid x, hld x, if_neg hxa, if_neg hxa]
        exact ⟨rfl, rfl⟩

theorem growIncr_spec (d : HashTableDirectoryPage) :
    ((GrowLoop d).IncrGlobalDepth).global_depth_ = d.global_depth_ + 1 ∧
    ∀ j < 2 ^ (d.global_depth_ + 1),
      ((GrowLoop d).IncrGlobalDepth).bucket_page_ids_ j
        = d.bucket_page_ids_ (j % 2 ^ d.global_depth_) ∧
      ((GrowLoop d).IncrGlobalDepth).local_depths_ j
        = d.local_depths_ (j % 2 ^ d.global_depth_) := by
  have hrange : ∀ x ∈ List.range d.Size, x < 2 ^ d.global_depth_ := by
    intro x hx
    have h2 := List.mem_range.mp hx
    rw [size_eq] at h2
    exact h2
  have haux := growLoop_aux d.global_depth_ (List.range d.Size)
    (List.nodup_range _) hrange d rfl
  constructor
  · show (GrowLoop d).global_depth_ + 1 = d.global_depth_ + 1
    rw [growLoop_eq, haux.1]
  · intro j hj
    by_cases hlt : j < 2 ^ d.global_depth_
    · have hmem : ∀ x ∈ List.range d.Size, j ≠ x ||| 2 ^ d.global_depth_ := by
        intro x hx hc
        have hx2 := hrange x hx
        rw [or_two_pow_add hx2] at hc
        omega
      have hj2 := haux.2.1 j hmem
      have hmod : j % 2 ^ d.global_depth_ = j := Nat.mod_eq_of_lt hlt
      constructor
      · show (GrowLoop d).bucket_page_ids_ j = _
        rw [growLoop_eq, hj2.1, hmod]
      · show (GrowLoop d).local_depths_ j = _
        rw [growLoop_eq, hj2.2, hmod]
    · rcases pair_of_mod hj (Nat.mod_lt _ (pow2_pos d.global_depth_)) rfl with h1 | h1
      · exact absurd (h1 ▸ Nat.mod_lt j (pow2_pos d.global_depth_)) hlt
      · have hmem : j % 2 ^ d.global_depth_ ∈ List.range d.Size := by
          rw [size_eq]
          exact List.mem_range.mpr (Nat.mod_lt _ (pow2_pos d.global_depth_))
        have hj2 := haux.2.2 (j % 2 ^ d.global_depth_) hmem
        constructor
        · show (GrowLoop d).bucket_page_ids_ j = _
          rw [growLoop_eq]
          conv_lhs => rw [h1]
          exact hj2.1
        · show (GrowLoop d).local_depths_ j = _
          rw [growLoop_eq]
          conv_lhs => rw [h1]
          exact hj2.2

end EHT

end BusTub

namespace BusTub

namespace EHT

theorem fanStep_gd (old_pid new_pid : Int) (index mask local_depth : Nat)
    (d2 : HashTableDirectoryPage) (i : Nat) :
    (FanStep old_pid new_pid index mask local_depth d2 i).global_depth_
      = d2.global_depth_ := by
  unfold FanStep
  split <;> rfl

theorem fanStep_other (old_pid new_pid : Int) (index mask local_depth : Nat)
    (d2 : HashTableDirectoryPage) (i j : Nat) (h : j ≠ i) :
    (FanStep old_pid new_pid index mask local_depth d2 i).bucket_page_ids_ j
        = d2.bucket_page_ids_ j ∧
    (FanStep old_pid new_pid index mask local_depth d2 i).local_depths_ j
        = d2.local_depths_ j := by
  unfold FanStep
  split
  · constructor
    · show (if j = i then _ else
          (d2.SetLocalDepth i (local_depth + 1)).bucket_page_ids_ j) = _
      rw [if_neg h]
      rfl
    · show (d2.SetLocalDepth i (local_depth + 1)).local_depths_ j = _
      show (if j = i then local_depth + 1 else d2.local_depths_ j) = _
      rw [if_neg h]
  · exact ⟨rfl, rfl⟩

theorem fanStep_self (old_pid new_pid : Int) (index mask local_depth : Nat)
    (d2 : HashTableDirectoryPage) (i : Nat) :
    (FanStep old_pid new_pid index mask local_depth d2 i).bucket_page_ids_ i
        = (if d2.bucket_page_ids_ i = old_pid then
             (if i &&& mask = index &&& mask then old_pid else new_pid)
           else d2.bucket_page_ids_ i) ∧
    (FanStep old_pid new_pid index mask local_depth d2 i).local_depths_ i
        = (if d2.bucket_page_ids_ i = old_pid then local_depth + 1
           else d2.local_depths_ i) := by
  unfold FanStep
  by_cases hc : d2.bucket_page_ids_ i = old_pid
  · rw [if_pos (show (d2.GetBucketPageId i == old_pid) = true by simp [hc]; exact hc)]
    constructor
    · show (if i = i then (if ((i &&& mask) == (index &&& mask)) = true
            then old_pid else new_pid) else _) = _
      rw [if_pos rfl, if_pos hc]
      by_cases hm : i &&& mask = index &&& mask
      · rw [if_pos hm, if_pos (by simp [hm])]
      · rw [if_neg hm, if_neg (by simp [hm])]
    · show (d2.SetLocalDepth i (local_depth + 1)).local_depths_ i = _
      show (if i = i then local_depth + 1 else _) = _
      rw [if_pos rfl, if_pos hc]
  · rw [if_neg (show ¬ (d2.GetBucketPageId i == old_pid) = true by simp [hc]; exact hc)]
    rw [if_neg hc, if_neg hc]
    exact ⟨rfl, rfl⟩

theorem fanLoop_aux (old_pid new_pid : Int) (index mask local_depth : Nat) :
    ∀ (l : List Nat), l.Nodup →
    ∀ d2 : HashTableDirectoryPage,
      ((l.foldl (FanStep old_pid new_pid index mask local_depth) d2).global_depth_
        = d2.global_depth_) ∧
      (∀ j, j ∉ l →
        (l.foldl (FanStep old_pid new_pid index mask local_depth) d2).bucket_page_ids_ j
          = d2.bucket_page_ids_ j ∧
        (l.foldl (FanStep old_pid new_pid index mask local_depth) d2).local_depths_ j
          = d2.local_depths_ j) ∧
      (∀ j ∈ l,
        (l.foldl (FanStep old_pid new_pid index mask local_depth) d2).bucket_page_ids_ j
          = (if d2.bucket_page_ids_ j = old_pid then
               (if j &&& mask = index &&& mask then old_pid else new_pid)
             else d2.bucket_page_ids_ j) ∧
        (l.foldl (FanStep old_pid new_pid index mask local_depth) d2).local_depths_ j
          = (if d2.bucket_page_ids_ j = old_pid then local_depth + 1
             else d2.local_depths_ j)) := by
  intro l
  induction l with
  | nil =>
    intro _ d2
    exact ⟨rfl, fun j _ => ⟨rfl, rfl⟩, fun j hj => absurd hj (List.not_mem_nil j)⟩
  | cons a rest ih =>
    intro hnd d2
    rw [List.foldl_cons]
    have hrest := ih (List.nodup_cons.mp hnd).2
      (FanStep old_pid new_pid index mask local_depth d2 a)
    refine ⟨by rw [hrest.1, fanStep_gd], ?_, ?_⟩
    · intro j hj
      have hja : j ≠ a := fun hc => hj (hc ▸ List.mem_cons_self a rest)
      have hjr := hrest.2.1 j (fun hc => hj (List.mem_cons_of_mem a hc))
      have hst := fanStep_other old_pid new_pid index mask local_depth d2 a j hja
      rw [hjr.1, hjr.2, hst.1, hst.2]
      exact ⟨rfl, rfl⟩
    · intro j hj
      rcases List.mem_cons.mp hj with rfl | hj2
      · have hjr := hrest.2.1 j (List.nodup_cons.mp hnd).1
        have hst := fanStep_self old_pid new_pid index mask local_depth d2 j
        rw [hjr.1, hjr.2, hst.1, hst.2]
        exact ⟨rfl, rfl⟩
      · have hja : j ≠ a := by
          intro hc
          subst hc
          exact (List.nodup_cons.mp hnd).1 hj2
        have hst := fanStep_other old_pid new_pid index mask local_depth d2 a j hja
        have hjr := hrest.2.2 j hj2
        rw [hjr.1, hjr.2, hst.1, hst.2]
        exact ⟨rfl, rfl⟩

theorem fanLoop_spec (d2 : HashTableDirectoryPage) (old_pid new_pid : Int)
    (index mask local_depth size : Nat) :
    ((FanLoop d2 old_pid new_pid index mask local_depth size).global_depth_
      = d2.global_depth_) ∧
    (∀ j, size ≤ j →
      (FanLoop d2 old_pid new_pid index mask local_depth size).bucket_page_ids_ j
        = d2.bucket_page_ids_ j ∧
      (FanLoop d2 old_pid new_pid index mask local_depth size).local_depths_ j
        = d2.local_depths_ j) ∧
    (∀ j < size,
      (FanLoop d2 old_pid new_pid index mask local_depth size).bucket_page_ids_ j
        = (if d2.bucket_page_ids_ j = old_pid then
             (if j &&& mask = index &&& mask then old_pid else new_pid)
           else d2.bucket_page_ids_ j) ∧
      (FanLoop d2 old_pid new_pid index mask local_depth size).local_depths_ j
        = (if d2.bucket_page_ids_ j = old_pid then local_depth + 1
           else d2.local_depths_ j)) := by
  have haux := fanLoop_aux old_pid new_pid index mask local_depth
    (List.range size) (List.nodup_range _) d2
  rw [fanLoop_eq]
  exact ⟨haux.1,
    fun j hj => haux.2.1 j (by simpa using Nat.not_lt.mpr hj),
    fun j hj => haux.2.2 j (List.mem_range.mpr hj)⟩

theorem mergeFanStep_gd (bp mp : Int) (d2 : HashTableDirectoryPage) (i : Nat) :
    (MergeFanStep bp mp d2 i).global_depth_ = d2.global_depth_ := by
  unfold MergeFanStep
  simp only []
  split <;> rfl

theorem mergeFanStep_other (bp mp : Int) (d2 : HashTableDirectoryPage) (i j : Nat)
    (h : j ≠ i) :
    (MergeFanStep bp mp d2 i).bucket_page_ids_ j = d2.bucket_page_ids_ j ∧
    (MergeFanStep bp mp d2 i).local_depths_ j = d2.local_depths_ j := by
  unfold MergeFanStep
  simp only []
  split
  · constructor
    · show (if j = i then mp else d2.bucket_page_ids_ j) = _
      rw [if_neg h]
    · show (if j = i then _ else (d2.SetBucketPageId i mp).local_depths_ j) = _
      rw [if_neg h]
      rfl
  · exact ⟨rfl, rfl⟩

theorem mergeFanStep_self (bp mp : Int) (d2 : HashTableDirectoryPage) (i : Nat) :
    (MergeFanStep bp mp d2 i).bucket_page_ids_ i
      = (if d2.bucket_page_ids_ i = bp ∨ d2.bucket_page_ids_ i = mp then mp
         else d2.bucket_page_ids_ i) ∧
    (MergeFanStep bp mp d2 i).local_depths_ i
      = (if d2.bucket_page_ids_ i = bp ∨ d2.bucket_page_ids_ i = mp
         then d2.local_depths_ i - 1 else d2.local_depths_ i) := by
  unfold MergeFanStep
  simp only []
  by_cases hc : d2.bucket_page_ids_ i = bp ∨ d2.bucket_page_ids_ i = mp
  · rw [if_pos (show (d2.GetBucketPageId i == bp || d2.GetBucketPageId i == mp) = true by
      rcases hc with hc | hc <;> simp [HashTableDirectoryPage.GetBucketPageId, hc])]
    constructor
    · show (d2.SetBucketPageId i mp).bucket_page_ids_ i = _
      show (if i = i then mp else _) = _
      rw [if_pos rfl, if_pos hc]
    · show (if i = i then (d2.SetBucketPageId i mp).GetLocalDepth i - 1
            else (d2.SetBucketPageId i mp).local_depths_ i) = _
      rw [if_pos rfl, if_pos hc]
      rfl
  · rw [if_neg (show ¬ (d2.GetBucketPageId i == bp || d2.GetBucketPageId i == mp) = true by
      push_neg at hc
      simp [HashTableDirectoryPage.GetBucketPageId, hc.1, hc.2])]
    rw [if_neg hc, if_neg hc]
    exact ⟨rfl, rfl⟩

theorem mergeFan_aux (bp mp : Int) :
    ∀ (l : List Nat), l.Nodup →
    ∀ d2 : HashTableDirectoryPage,
      ((l.foldl (MergeFanStep bp mp) d2).global_depth_ = d2.global_depth_) ∧
      (∀ j, j ∉ l →
        (l.foldl (MergeFanStep bp mp) d2).bucket_page_ids_ j = d2.bucket_page_ids_ j ∧
        (l.foldl (MergeFanStep bp mp) d2).local_depths_ j = d2.local_depths_ j) ∧
      (∀ j ∈ l,
        (l.foldl (MergeFanStep bp mp) d2).bucket_page_ids_ j
          = (if d2.bucket_page_ids_ j = bp ∨ d2.bucket_page_ids_ j = mp then mp
             else d2.bucket_page_ids_ j) ∧
        (l.foldl (MergeFanStep bp mp) d2).local_depths_ j
          = (if d2.bucket_page_ids_ j = bp ∨ d2.bucket_page_ids_ j = mp
             then d2.local_depths_ j - 1 else d2.local_depths_ j)) := by
  intro l
  induction l with
  | nil =>
    intro _ d2
    exact ⟨rfl, fun j _ => ⟨rfl, rfl⟩, fun j hj => absurd hj (List.not_mem_nil j)⟩
  | cons a rest ih =>
    intro hnd d2
    rw [List.foldl_cons]
    have hrest := ih (List.nodup_cons.mp hnd).2 (MergeFanStep bp mp d2 a)
    refine ⟨by rw [hrest.1, mergeFanStep_gd], ?_, ?_⟩
    · intro j hj
      have hja : j ≠ a := fun hc => hj (hc ▸ List.mem_cons_self a rest)
      have hjr := hrest.2.1 j (fun hc => hj (List.mem_cons_of_mem a hc))
      have hst := mergeFanStep_other bp mp d2 a j hja
      rw [hjr.1, hjr.2, hst.1, hst.2]
      exact ⟨rfl, rfl⟩
    · intro j hj
      rcases List.mem_cons.mp hj with rfl | hj2
      · have hjr := hrest.2.1 j (List.nodup_cons.mp hnd).1
        have hst := mergeFanStep_self bp mp d2 j
        rw [hjr.1, hjr.2, hst.1, hst.2]
        exact ⟨rfl, rfl⟩
      · have hja : j ≠ a := by
          intro hc
          subst hc
          exact (List.nodup_cons.mp hnd).1 hj2
        have hst := mergeFanStep_other bp mp d2 a j hja
        have hjr := hrest.2.2 j hj2
        rw [hjr.1, hjr.2, hst.1, hst.2]
        exact ⟨rfl, rfl⟩

theorem mergeFan_spec (d : HashTableDirectoryPage) (bp mp : Int) :
    ((MergeFan d bp mp).global_depth_ = d.global_depth_) ∧
    (∀ j, d.Size ≤ j →
      (MergeFan d bp mp).bucket_page_ids_ j = d.bucket_page_ids_ j ∧
      (MergeFan d bp mp).local_depths_ j = d.local_depths_ j) ∧
    (∀ j < d.Size,
      (MergeFan d bp mp).bucket_page_ids_ j
        = (if d.bucket_page_ids_ j = bp ∨ d.bucket_page_ids_ j = mp then mp
           else d.bucket_page_ids_ j) ∧
      (MergeFan d bp mp).local_depths_ j
        = (if d.bucket_page_ids_ j = bp ∨ d.bucket_page_ids_ j = mp
           then d.local_depths_ j - 1 else d.local_depths_ j)) := by
  have haux := mergeFan_aux bp mp (List.range d.Size) (List.nodup_range _) d
  rw [mergeFan_eq]
  exact ⟨haux.1,
    fun j hj => haux.2.1 j (by simpa using Nat.not_lt.mpr hj),
    fun j hj => haux.2.2 j (List.mem_range.mpr hj)⟩

end EHT

end BusTub

namespace BusTub

namespace HashTableBucketPage

theorem entry_of_array_eq {b2 b : HashTableBucketPage} (h : b2.array_ = b.array_)
    (j : Nat) : b2.Entry j = b.Entry j := by
  rw [Entry, Entry, KeyAt, KeyAt, ValueAt, ValueAt, h]

theorem keyAt_of_array_eq {b2 b : HashTableBucketPage} (h : b2.array_ = b.array_)
    (j : Nat) : b2.KeyAt j = b.KeyAt j := by
  rw [KeyAt, KeyAt, h]

end HashTableBucketPage

namespace EHT

theorem invd_update_bucket (cfg : Cfg) (d : HashTableDirectoryPage) (st : Store)
    (np : Int) (hinv : INVD cfg d st np) (index : Nat) (hidx : index < d.Size)
    (b2 : HashTableBucketPage) (hwf : WfBucket cfg.n b2) (hnd : NoDupPairs cfg.n b2)
    (hroute : ∀ t < cfg.n, b2.IsReadable t = true →
      Hash cfg (b2.KeyAt t) % 2 ^ d.GetLocalDepth index
        = index % 2 ^ d.GetLocalDepth index) :
    INVD cfg d (storeSet st (d.GetBucketPageId index) b2) np := by
  obtain ⟨hdir, hbok, hpos, hfresh⟩ := hinv
  refine ⟨hdir, ?_, hpos, ?_⟩
  · intro j hj
    by_cases hpj : d.GetBucketPageId j = d.GetBucketPageId index
    · have hDirB := hdir.2.2.2 j hj index hidx hpj
      refine ⟨?_, ?_, ?_, ?_⟩
      · rw [hpj, storeGet_set_self]
        rfl
      · rw [hpj, bucketAt_set_self]
        exact hwf
      · rw [hpj, bucketAt_set_self]
        exact hnd
      · intro t ht hr
        rw [hpj, bucketAt_set_self] at hr ⊢
        show Hash cfg (b2.KeyAt t) % 2 ^ d.local_depths_ j = j % 2 ^ d.local_depths_ j
        rw [hDirB.1]
        have h1 := hroute t ht hr
        have h2 : j % 2 ^ d.local_depths_ index = index % 2 ^ d.local_depths_ index := by
          have := hDirB.2
          rw [hDirB.1] at this
          exact this
        rw [h2]
        exact h1
    · have hBok := hbok j hj
      have hb := bucketAt_set_ne cfg st (d.GetBucketPageId index) b2
        (d.GetBucketPageId j) hpj
      refine ⟨?_, ?_, ?_, ?_⟩
      · rw [storeGet_set_ne st _ b2 _ hpj]
        exact hBok.1
      · rw [hb]
        exact hBok.2.1
      · rw [hb]
        exact hBok.2.2.1
      · intro t ht hr
        rw [hb] at hr ⊢
        exact hBok.2.2.2 t ht hr
  · intro e he
    rcases mem_storeSet st _ b2 e he with rfl | he2
    · have hSome := (hbok index hidx).1
      obtain ⟨b0, hb0⟩ := storeGet_isSome_mem st _ hSome
      exact ⟨(hfresh _ hb0).1, (hfresh _ hb0).2⟩
    · exact hfresh e he2

theorem dirInv_doubling (cfg : Cfg) (d : HashTableDirectoryPage)
    (hdir : DirInv cfg d) (hmax : d.global_depth_ < cfg.maxDepth) :
    DirInv cfg ((GrowLoop d).IncrGlobalDepth) := by
  obtain ⟨hb, hdep, hA, hB⟩ := hdir
  obtain ⟨hgd, hdesc⟩ := growIncr_spec d
  have hSz : ((GrowLoop d).IncrGlobalDepth).Size = 2 ^ (d.global_depth_ + 1) := by
    rw [size_eq, hgd]
  have hmm : ∀ i : Nat, i % 2 ^ d.global_depth_ < d.Size := by
    intro i
    rw [size_eq]
    exact Nat.mod_lt _ (pow2_pos _)
  refine ⟨?_, ?_, ?_, ?_⟩
  · rw [hgd]
    omega
  · intro i hi
    rw [hSz] at hi
    have hd := hdesc i hi
    rw [hgd, hd.2]
    have := hdep (i % 2 ^ d.global_depth_) (hmm i)
    omega
  · intro i hi j hj hcong
    rw [hSz] at hi hj
    have hdi := hdesc i hi
    have hdj := hdesc j hj
    rw [hdi.2] at hcong
    have hL : d.local_depths_ (i % 2 ^ d.global_depth_) ≤ d.global_depth_ :=
      hdep _ (hmm i)
    have hcong2 : (i % 2 ^ d.global_depth_)
          % 2 ^ d.local_depths_ (i % 2 ^ d.global_depth_)
        = (j % 2 ^ d.global_depth_)
          % 2 ^ d.local_depths_ (i % 2 ^ d.global_depth_) := by
      rw [mod_tower hL, mod_tower hL]
      exact hcong
    have hAd := hA (i % 2 ^ d.global_depth_) (hmm i) (j % 2 ^ d.global_depth_)
      (hmm j) hcong2
    rw [hdi.2, hdj.2, hdi.1, hdj.1]
    exact ⟨hAd.1, hAd.2⟩
  · intro i hi j hj hpid
    rw [hSz] at hi hj
    have hdi := hdesc i hi
    have hdj := hdesc j hj
    rw [hdi.1, hdj.1] at hpid
    have hBd := hB (i % 2 ^ d.global_depth_) (hmm i) (j % 2 ^ d.global_depth_)
      (hmm j) hpid
    have hL : d.local_depths_ (i % 2 ^ d.global_depth_) ≤ d.global_depth_ :=
      hdep _ (hmm i)
    constructor
    · rw [hdi.2, hdj.2]
      exact hBd.1
    · rw [hdi.2]
      have h1 := mod_tower (x := i) hL
      have h2 := mod_tower (x := j) hL
      rw [← h1, ← h2, hBd.2]

end EHT

end BusTub

namespace BusTub

namespace EHT

set_option maxHeartbeats 1000000 in
theorem splitCaseA_inv (cfg : Cfg) (s : HT) (k v : Nat) (index : Nat) (old_pid : Int)
    (old : HashTableBucketPage) (hinv : INV cfg s)
    (hidx : index = KeyToDirectoryIndex cfg k s.dir)
    (hpid : old_pid = s.dir.GetBucketPageId index)
    (hold : old = bucketAt cfg s.store old_pid)
    (hcase : s.dir.GetLocalDepth index = s.dir.GetGlobalDepth)
    (res : (Bool × HT × List Ev) ⊕ (HT × List Ev))
    (h : SplitCaseA cfg s k v index old_pid old = some res) :
    (∀ r s2 ev, res = Sum.inl (r, s2, ev) → INV cfg s2 ∧
      (r = true → containsPair cfg s2.store (KeyToPageId cfg k s2.dir) k v)) ∧
    (∀ s2 ev, res = Sum.inr (s2, ev) → INV cfg s2) := by
  obtain ⟨h0, hdir, hbok, hpos, hfresh⟩ := hinv
  have hcase' : s.dir.local_depths_ index = s.dir.global_depth_ := hcase
  have hidxlt : index < 2 ^ s.dir.global_depth_ := by
    rw [hidx, ← size_eq]
    exact keyToDirectoryIndex_lt cfg k s.dir
  have hidxlt2 : index < 2 ^ (s.dir.global_depth_ + 1) :=
    lt_trans hidxlt (Nat.pow_lt_pow_succ (by norm_num))
  have hszmem : ∀ j : Nat, j % 2 ^ s.dir.global_depth_ < s.dir.Size := by
    intro j
    rw [size_eq]
    exact Nat.mod_lt _ (pow2_pos _)
  have hszidx : index < s.dir.Size := by
    rw [size_eq]
    exact hidxlt
  unfold SplitCaseA at h
  simp only [] at h
  rw [show s.dir.GetGlobalDepth = s.dir.global_depth_ from rfl] at h
  by_cases hmax : s.dir.global_depth_ = cfg.maxDepth
  · rw [if_pos hmax] at h
    exact absurd h (by simp)
  rw [if_neg hmax] at h
  rw [one_shl] at h
  set NI := index ||| 2 ^ s.dir.global_depth_ with hNI
  set D2 := (GrowLoop s.dir).IncrGlobalDepth with hD2
  set D3 := D2.SetBucketPageId NI s.next_pid with hD3
  set D4 := (D3.SetLocalDepth NI D3.GetGlobalDepth).SetLocalDepth index D3.GetGlobalDepth
    with hD4
  set RED := Redistribute cfg.n (fun ck => KeyToDirectoryIndex cfg ck D2 == NI) old
    (HashTableBucketPage.empty cfg.n) false (List.range cfg.n) with hRED
  set KI := KeyToDirectoryIndex cfg k D4 with hKI
  have hD2gd : D2.global_depth_ = s.dir.global_depth_ + 1 := by
    rw [hD2]
    exact (growIncr_spec s.dir).1
  have hD2desc : ∀ j < 2 ^ (s.dir.global_depth_ + 1),
      D2.bucket_page_ids_ j = s.dir.bucket_page_ids_ (j % 2 ^ s.dir.global_depth_) ∧
      D2.local_depths_ j = s.dir.local_depths_ (j % 2 ^ s.dir.global_depth_) := by
    rw [hD2]
    exact (growIncr_spec s.dir).2
  have hNIlt : NI < 2 ^ (s.dir.global_depth_ + 1) := by
    rw [hNI]
    exact or_two_pow_lt hidxlt
  have hNImod : NI % 2 ^ s.dir.global_depth_ = index := by
    rw [hNI]
    exact or_two_pow_mod hidxlt
  have hNIne : NI ≠ index := by
    rw [hNI]
    exact or_two_pow_ne hidxlt
  have hguard : D2.GetBucketPageId index = D2.GetBucketPageId NI := by
    show D2.bucket_page_ids_ index = D2.bucket_page_ids_ NI
    rw [(hD2desc index hidxlt2).1, (hD2desc NI hNIlt).1, hNImod,
      Nat.mod_eq_of_lt hidxlt]
  rw [if_pos hguard] at h
  by_cases hfull : ∀ i < cfg.n, old.IsReadable i = true
  swap
  · rw [if_neg hfull] at h
    exact absurd h (by simp)
  rw [if_pos hfull] at h
  have hD3gd : D3.GetGlobalDepth = s.dir.global_depth_ + 1 := by
    show D3.global_depth_ = _
    rw [hD3]
    show D2.global_depth_ = _
    exact hD2gd
  have hD4gd : D4.global_depth_ = s.dir.global_depth_ + 1 := by
    rw [hD4]
    show D3.global_depth_ = _
    exact hD3gd
  have hpid4 : ∀ j, D4.bucket_page_ids_ j
      = if j = NI then s.next_pid else D2.bucket_page_ids_ j := fun j => rfl
  have hld4 : ∀ j, D4.local_depths_ j
      = if j = index then D3.GetGlobalDepth
        else if j = NI then D3.GetGlobalDepth else D2.local_depths_ j := fun j => rfl
  have hpid4' : ∀ j, j < 2 ^ (s.dir.global_depth_ + 1) →
      D4.bucket_page_ids_ j = if j = NI then s.next_pid
        else s.dir.bucket_page_ids_ (j % 2 ^ s.dir.global_depth_) := by
    intro j hj
    rw [hpid4 j]
    by_cases hc : j = NI
    · rw [if_pos hc, if_pos hc]
    · rw [if_neg hc, if_neg hc, (hD2desc j hj).1]
  have hld4' : ∀ j, j < 2 ^ (s.dir.global_depth_ + 1) →
      D4.local_depths_ j = if j = index ∨ j = NI then s.dir.global_depth_ + 1
        else s.dir.local_depths_ (j % 2 ^ s.dir.global_depth_) := by
    intro j hj
    rw [hld4 j]
    by_cases hc1 : j = index
    · rw [if_pos hc1, if_pos (Or.inl hc1), hD3gd]
    · rw [if_neg hc1]
      by_cases hc2 : j = NI
      · rw [if_pos hc2, if_pos (Or.inr hc2), hD3gd]
      · rw [if_neg hc2, if_neg (fun hc => hc.elim hc1 hc2), (hD2desc j hj).2]
  have hdirD4 : DirInv cfg D4 := by
    refine ⟨?_, ?_, ?_, ?_⟩
    · rw [hD4gd]
      have hle := hdir.1
      omega
    · intro i hi
      rw [size_eq, hD4gd] at hi
      rw [hld4' i hi, hD4gd]
      by_cases hc : i = index ∨ i = NI
      · rw [if_pos hc]
      · rw [if_neg hc]
        have := hdir.2.1 (i % 2 ^ s.dir.global_depth_) (hszmem i)
        omega
    · intro i hi j hj hcong
      rw [size_eq, hD4gd] at hi hj
      by_cases hci : i = index ∨ i = NI
      · rw [hld4' i hi, if_pos hci] at hcong
        rw [Nat.mod_eq_of_lt hi, Nat.mod_eq_of_lt hj] at hcong
        subst hcong
        exact ⟨rfl, rfl⟩
      · rw [hld4' i hi, if_neg hci] at hcong
        have hLle : s.dir.local_depths_ (i % 2 ^ s.dir.global_depth_)
            ≤ s.dir.global_depth_ := hdir.2.1 _ (hszmem i)
        have hcong2 : (i % 2 ^ s.dir.global_depth_)
              % 2 ^ s.dir.local_depths_ (i % 2 ^ s.dir.global_depth_)
            = (j % 2 ^ s.dir.global_depth_)
              % 2 ^ s.dir.local_depths_ (i % 2 ^ s.dir.global_depth_) := by
          rw [mod_tower hLle, mod_tower hLle]
          exact hcong
        have hAd := hdir.2.2.1 (i % 2 ^ s.dir.global_depth_) (hszmem i)
          (j % 2 ^ s.dir.global_depth_) (hszmem j) hcong2
        have hcj : ¬ (j = index ∨ j = NI) := by
          intro hc
          have hjm : j % 2 ^ s.dir.global_depth_ = index := by
            rcases hc with rfl | rfl
            · exact Nat.mod_eq_of_lt hidxlt
            · exact hNImod
          have hLgd : s.dir.local_depths_ (i % 2 ^ s.dir.global_depth_)
              = s.dir.global_depth_ := by
            have h5 := hAd.1
            rw [hjm, hcase'] at h5
            exact h5.symm
          have him : i % 2 ^ s.dir.global_depth_ = index := by
            have h5 := hcong2
            rw [hLgd, Nat.mod_eq_of_lt (Nat.mod_lt _ (pow2_pos _)),
              Nat.mod_eq_of_lt (Nat.mod_lt _ (pow2_pos _)), hjm] at h5
            exact h5
          rcases pair_of_mod hi hidxlt him with h6 | h6
          · exact hci (Or.inl h6)
          · exact hci (Or.inr (by rw [hNI]; exact h6))
        rw [hld4' j hj, if_neg hcj, hld4' i hi, if_neg hci,
          hpid4' j hj, if_neg (fun hc => hcj (Or.inr hc)),
          hpid4' i hi, if_neg (fun hc => hci (Or.inr hc))]
        exact ⟨hAd.1, hAd.2⟩
    · intro i hi j hj hpq
      rw [size_eq, hD4gd] at hi hj
      by_cases hij : i = j
      · subst hij
        exact ⟨rfl, rfl⟩
      have hlt_np : ∀ m : Nat, m < s.dir.Size →
          s.dir.bucket_page_ids_ m < s.next_pid ∧ 0 < s.dir.bucket_page_ids_ m := by
        intro m hm
        obtain ⟨b0, hb0⟩ := storeGet_isSome_mem _ _ ((hbok m hm).1)
        exact ⟨(hfresh _ hb0).2, (hfresh _ hb0).1⟩
      by_cases hciNI : i = NI
      · subst hciNI
        rw [hpid4' NI hi, if_pos rfl] at hpq
        by_cases hcjNI : j = NI
        · exact absurd hcjNI.symm hij
        · rw [hpid4' j hj, if_neg hcjNI] at hpq
          have h7 := (hlt_np (j % 2 ^ s.dir.global_depth_) (hszmem j)).1
          omega
      by_cases hcjNI : j = NI
      · subst hcjNI
        rw [hpid4' NI hj, if_pos rfl] at hpq
        rw [hpid4' i hi, if_neg hciNI] at hpq
        have h7 := (hlt_np (i % 2 ^ s.dir.global_depth_) (hszmem i)).1
        omega
      rw [hpid4' i hi, if_neg hciNI, hpid4' j hj, if_neg hcjNI] at hpq
      have hBd := hdir.2.2.2 (i % 2 ^ s.dir.global_depth_) (hszmem i)
        (j % 2 ^ s.dir.global_depth_) (hszmem j) hpq
      by_cases hcii : i = index
      · have him : i % 2 ^ s.dir.global_depth_ = index := by
          rw [hcii]
          exact Nat.mod_eq_of_lt hidxlt
        have hLgd : s.dir.local_depths_ (i % 2 ^ s.dir.global_depth_)
            = s.dir.global_depth_ := by
          rw [him, hcase']
        have hjm : j % 2 ^ s.dir.global_depth_ = index := by
          have h5 := hBd.2
          rw [hLgd, Nat.mod_eq_of_lt (Nat.mod_lt _ (pow2_pos _)),
            Nat.mod_eq_of_lt (Nat.mod_lt _ (pow2_pos _)), him] at h5
          exact h5.symm
        rcases pair_of_mod hj hidxlt hjm with h6 | h6
        · exact absurd (hcii.trans h6.symm) hij
        · exact absurd (by rw [hNI]; exact h6) hcjNI
      by_cases hcjj : j = index
      · have hjm : j % 2 ^ s.dir.global_depth_ = index := by
          rw [hcjj]
          exact Nat.mod_eq_of_lt hidxlt
        have hLgd : s.dir.local_depths_ (i % 2 ^ s.dir.global_depth_)
            = s.dir.global_depth_ := by
          have h5 := hBd.1
          rw [hjm, hcase'] at h5
          exact h5
        have him : i % 2 ^ s.dir.global_depth_ = index := by
          have h5 := hBd.2
          rw [hLgd, Nat.mod_eq_of_lt (Nat.mod_lt _ (pow2_pos _)),
            Nat.mod_eq_of_lt (Nat.mod_lt _ (pow2_pos _)), hjm] at h5
          exact h5
        rcases pair_of_mod hi hidxlt him with h6 | h6
        · exact absurd (h6.trans hcjj.symm) hij
        · exact absurd (by rw [hNI]; exact h6) hciNI
      have hLle : s.dir.local_depths_ (i % 2 ^ s.dir.global_depth_)
          ≤ s.dir.global_depth_ := hdir.2.1 _ (hszmem i)
      rw [hld4' i hi, if_neg (fun hc => hc.elim hcii hciNI),
        hld4' j hj, if_neg (fun hc => hc.elim hcjj hcjNI)]
      refine ⟨hBd.1, ?_⟩
      rw [← mod_tower hLle i, ← mod_tower hLle j]
      exact hBd.2
  have hlt_np : ∀ m : Nat, m < s.dir.Size →
      s.dir.bucket_page_ids_ m < s.next_pid ∧ 0 < s.dir.bucket_page_ids_ m := by
    intro m hm
    obtain ⟨b0, hb0⟩ := storeGet_isSome_mem _ _ ((hbok m hm).1)
    exact ⟨(hfresh _ hb0).2, (hfresh _ hb0).1⟩
  have hopid_lt : old_pid < s.next_pid := by
    rw [hpid]
    exact (hlt_np index hszidx).1
  have hopid_pos : (0 : Int) < old_pid := by
    rw [hpid]
    exact (hlt_np index hszidx).2
  have hopid_ne : old_pid ≠ s.next_pid := ne_of_lt hopid_lt
  have hq_ne : ∀ j, j < 2 ^ (s.dir.global_depth_ + 1) → j ≠ index → j ≠ NI →
      s.dir.bucket_page_ids_ (j % 2 ^ s.dir.global_depth_) ≠ old_pid := by
    intro j hj hji hjn hc
    rw [hpid] at hc
    have hBd := hdir.2.2.2 (j % 2 ^ s.dir.global_depth_) (hszmem j) index hszidx hc
    have hL : s.dir.local_depths_ (j % 2 ^ s.dir.global_depth_)
        = s.dir.global_depth_ := by
      rw [hBd.1, hcase']
    have hjm : j % 2 ^ s.dir.global_depth_ = index := by
      have h5 := hBd.2
      rw [hL, Nat.mod_eq_of_lt (Nat.mod_lt _ (pow2_pos _)),
        Nat.mod_eq_of_lt hidxlt] at h5
      exact h5
    rcases pair_of_mod hj hidxlt hjm with h6 | h6
    · exact hji h6
    · exact hjn (by rw [hNI]; exact h6)
  have hbeq : old = bucketAt cfg s.store (s.dir.GetBucketPageId index) := by
    rw [hold, hpid]
  have hbokI := hbok index hszidx
  unfold BucketOK at hbokI
  rw [← hbeq] at hbokI
  have hwfold : WfBucket cfg.n old := hbokI.2.1
  have hndold : NoDupPairs cfg.n old := hbokI.2.2.1
  have hrouteold : ∀ t < cfg.n, old.IsReadable t = true →
      Hash cfg (old.KeyAt t) % 2 ^ s.dir.global_depth_ = index := by
    intro t ht hr
    have h5 := hbokI.2.2.2 t ht hr
    rw [hcase] at h5
    rw [show s.dir.GetGlobalDepth = s.dir.global_depth_ from rfl] at h5
    rw [h5, Nat.mod_eq_of_lt hidxlt]
  have hcondIff : ∀ ck, ((KeyToDirectoryIndex cfg ck D2 == NI) = true) ↔
      Hash cfg ck % 2 ^ (s.dir.global_depth_ + 1) = NI := by
    intro ck
    rw [beq_iff_eq, keyToDirectoryIndex_eq, hD2gd]
  obtain ⟨hredA, hredO, hredW1, hredR1, hredW2, hredN2, hredSrc, hredFr⟩ :=
    HashTableBucketPage.redistribute_spec cfg.n
      (fun ck => KeyToDirectoryIndex cfg ck D2 == NI) (List.range cfg.n)
      (List.nodup_range _) (fun x hx => List.mem_range.mp hx) old
      (HashTableBucketPage.empty cfg.n) false hwfold (wf_empty _) (noDup_empty _)
  rw [← hRED] at hredA hredO hredW1 hredR1 hredW2 hredN2 hredSrc hredFr
  have hrouteRED1 : ∀ t < cfg.n, RED.1.IsReadable t = true →
      Hash cfg (RED.1.KeyAt t) % 2 ^ (s.dir.global_depth_ + 1) = index := by
    intro t ht hr
    rw [hredR1 t ht] at hr
    by_cases hcnd : t ∈ List.range cfg.n ∧
        ((KeyToDirectoryIndex cfg (old.KeyAt t) D2 == NI) : Bool) = true
    · rw [if_pos hcnd] at hr
      exact Bool.noConfusion hr
    · rw [if_neg hcnd] at hr
      rw [HashTableBucketPage.keyAt_of_array_eq hredA t]
      have hH := hrouteold t ht hr
      have hnm : ¬ (Hash cfg (old.KeyAt t) % 2 ^ (s.dir.global_depth_ + 1) = NI) := by
        intro hcc
        exact hcnd ⟨List.mem_range.mpr ht, (hcondIff _).mpr hcc⟩
      rcases mod_double_resolve hidxlt hH with h1 | h1
      · exact h1
      · exact absurd (by rw [h1, hNI]) hnm
  have hndRED1 : NoDupPairs cfg.n RED.1 :=
    HashTableBucketPage.nodup_of_restrict cfg.n old RED.1 hndold
      (fun j _ => HashTableBucketPage.entry_of_array_eq hredA j)
      (fun j hj hr => by
        rw [hredR1 j hj] at hr
        by_cases hcnd : j ∈ List.range cfg.n ∧
            ((KeyToDirectoryIndex cfg (old.KeyAt j) D2 == NI) : Bool) = true
        · rw [if_pos hcnd] at hr
          exact Bool.noConfusion hr
        · rw [if_neg hcnd] at hr
          exact hr)
  have hrouteRED2 : ∀ t < cfg.n, RED.2.1.IsReadable t = true →
      Hash cfg (RED.2.1.KeyAt t) % 2 ^ (s.dir.global_depth_ + 1) = NI := by
    intro t ht hr
    rcases hredSrc t ht hr with ⟨i, _, hcnd, hent⟩ | ⟨hnr, _⟩
    · have hk : RED.2.1.KeyAt t = old.KeyAt i := congrArg Prod.fst hent
      rw [hk]
      exact (hcondIff _).mp hcnd
    · rw [empty_not_readable] at hnr
      exact Bool.noConfusion hnr
  have hKIeq : KI = Hash cfg k % 2 ^ (s.dir.global_depth_ + 1) := by
    rw [hKI, keyToDirectoryIndex_eq, hD4gd]
  have hpidIdx : D4.GetBucketPageId index = old_pid := by
    show D4.bucket_page_ids_ index = old_pid
    rw [hpid4' index hidxlt2, if_neg (fun hc => hNIne hc.symm),
      Nat.mod_eq_of_lt hidxlt, hpid]
    rfl
  have hpidNI : D4.GetBucketPageId NI = s.next_pid := by
    show D4.bucket_page_ids_ NI = s.next_pid
    rw [hpid4' NI hNIlt, if_pos rfl]
  have main : ∀ old2 new2 : HashTableBucketPage,
      WfBucket cfg.n old2 → NoDupPairs cfg.n old2 →
      (∀ t < cfg.n, old2.IsReadable t = true →
        Hash cfg (old2.KeyAt t) % 2 ^ (s.dir.global_depth_ + 1) = index) →
      WfBucket cfg.n new2 → NoDupPairs cfg.n new2 →
      (∀ t < cfg.n, new2.IsReadable t = true →
        Hash cfg (new2.KeyAt t) % 2 ^ (s.dir.global_depth_ + 1) = NI) →
      INV cfg { dir := D4,
                store := storeSet (storeSet s.store old_pid old2) s.next_pid new2,
                next_pid := s.next_pid + 1 } := by
    intro old2 new2 hwo hno hro hwn hnn hrn
    refine ⟨h0, hdirD4, ?_, ?_, ?_⟩
    · intro j hj
      rw [size_eq, hD4gd] at hj
      by_cases hcN : j = NI
      · subst hcN
        refine ⟨?_, ?_, ?_, ?_⟩
        · rw [hpidNI, storeGet_set_self]
          rfl
        · rw [hpidNI, bucketAt_set_self]
          exact hwn
        · rw [hpidNI, bucketAt_set_self]
          exact hnn
        · intro t ht hr
          rw [hpidNI, bucketAt_set_self] at hr ⊢
          show Hash cfg (new2.KeyAt t) % 2 ^ D4.local_depths_ NI
            = NI % 2 ^ D4.local_depths_ NI
          have hldNI : D4.local_depths_ NI = s.dir.global_depth_ + 1 := by
            rw [hld4' NI hj, if_pos (Or.inr rfl)]
          rw [hldNI, hrn t ht hr, Nat.mod_eq_of_lt hNIlt]
      · by_cases hcI : j = index
        · rw [hcI]
          refine ⟨?_, ?_, ?_, ?_⟩
          · rw [hpidIdx, storeGet_set_ne _ _ _ _ hopid_ne, storeGet_set_self]
            rfl
          · rw [hpidIdx, bucketAt_set_ne _ _ _ _ _ hopid_ne, bucketAt_set_self]
            exact hwo
          · rw [hpidIdx, bucketAt_set_ne _ _ _ _ _ hopid_ne, bucketAt_set_self]
            exact hno
          · intro t ht hr
            rw [hpidIdx, bucketAt_set_ne _ _ _ _ _ hopid_ne, bucketAt_set_self]
              at hr ⊢
            have hldI : D4.local_depths_ index = s.dir.global_depth_ + 1 := by
              rw [hld4' index hidxlt2, if_pos (Or.inl rfl)]
            show Hash cfg (old2.KeyAt t) % 2 ^ D4.local_depths_ index
              = index % 2 ^ D4.local_depths_ index
            rw [hldI, hro t ht hr, Nat.mod_eq_of_lt hidxlt2]
        · have hq := hq_ne j hj hcI hcN
          have hpp : D4.GetBucketPageId j
              = s.dir.bucket_page_ids_ (j % 2 ^ s.dir.global_depth_) := by
            show D4.bucket_page_ids_ j = _
            rw [hpid4' j hj, if_neg hcN]
          have hnp2 : s.dir.bucket_page_ids_ (j % 2 ^ s.dir.global_depth_)
              ≠ s.next_pid := ne_of_lt (hlt_np (j % 2 ^ s.dir.global_depth_)
                (hszmem j)).1
          have hbokJ := hbok (j % 2 ^ s.dir.global_depth_) (hszmem j)
          refine ⟨?_, ?_, ?_, ?_⟩
          · rw [hpp, storeGet_set_ne _ _ _ _ hnp2, storeGet_set_ne _ _ _ _ hq]
            exact hbokJ.1
          · rw [hpp, bucketAt_set_ne _ _ _ _ _ hnp2, bucketAt_set_ne _ _ _ _ _ hq]
            exact hbokJ.2.1
          · rw [hpp, bucketAt_set_ne _ _ _ _ _ hnp2, bucketAt_set_ne _ _ _ _ _ hq]
            exact hbokJ.2.2.1
          · intro t ht hr
            rw [hpp, bucketAt_set_ne _ _ _ _ _ hnp2, bucketAt_set_ne _ _ _ _ _ hq]
              at hr ⊢
            have hldJ : D4.local_depths_ j
                = s.dir.local_depths_ (j % 2 ^ s.dir.global_depth_) := by
              rw [hld4' j hj, if_neg (fun hc => hc.elim hcI hcN)]
            have hrt := hbokJ.2.2.2 t ht hr
            show Hash cfg _ % 2 ^ D4.local_depths_ j = j % 2 ^ D4.local_depths_ j
            rw [hldJ]
            have hLle : s.dir.local_depths_ (j % 2 ^ s.dir.global_depth_)
                ≤ s.dir.global_depth_ := hdir.2.1 _ (hszmem j)
            rw [← mod_tower hLle j]
            exact hrt
    · intro j hj
      rw [size_eq, hD4gd] at hj
      show (0 : Int) < D4.bucket_page_ids_ j
      rw [hpid4' j hj]
      by_cases hcN : j = NI
      · rw [if_pos hcN]
        omega
      · rw [if_neg hcN]
        exact (hlt_np (j % 2 ^ s.dir.global_depth_) (hszmem j)).2
    · intro e he
      rcases mem_storeSet _ _ _ e he with rfl | he2
      · constructor
        · show (0 : Int) < s.next_pid
          omega
        · show s.next_pid < s.next_pid + 1
          omega
      · rcases mem_storeSet _ _ _ e he2 with rfl | he3
        · refine ⟨hopid_pos, ?_⟩
          show old_pid < s.next_pid + 1
          omega
        · have h5 := hfresh e he3
          refine ⟨h5.1, ?_⟩
          show e.1 < s.next_pid + 1
          have h6 := h5.2
          omega
  by_cases hc1 : KI = index ∧ RED.2.2 = true
  · rw [if_pos hc1] at h
    by_cases ht : (HashTableBucketPage.Insert cfg.n RED.1 k v).1 = true
    · rw [if_pos ht] at h
      simp only [] at h
      rw [if_pos trivial] at h
      injection h with h
      subst h
      obtain ⟨m, _, _, _, _, _, hwfI⟩ :=
        HashTableBucketPage.insert_effects cfg.n RED.1 k v hredW1 ht
      have hno2 := HashTableBucketPage.insert_nodup cfg.n RED.1 k v hredW1 hndRED1
      have hro2 : ∀ t < cfg.n,
          (HashTableBucketPage.Insert cfg.n RED.1 k v).2.IsReadable t = true →
          Hash cfg ((HashTableBucketPage.Insert cfg.n RED.1 k v).2.KeyAt t)
            % 2 ^ (s.dir.global_depth_ + 1) = index := by
        intro t ht2 hr
        rcases HashTableBucketPage.insert_source cfg.n RED.1 k v hredW1 t ht2 hr with
          hE | ⟨hrB, hEB⟩
        · have hk : (HashTableBucketPage.Insert cfg.n RED.1 k v).2.KeyAt t = k :=
            congrArg Prod.fst hE
          rw [hk, ← hKIeq]
          exact hc1.1
        · have hk : (HashTableBucketPage.Insert cfg.n RED.1 k v).2.KeyAt t
              = RED.1.KeyAt t := congrArg Prod.fst hEB
          rw [hk]
          exact hrouteRED1 t ht2 hrB
      constructor
      · intro r s2 ev hres
        injection hres with hres
        injection hres with hr hres
        injection hres with hs hev
        subst hr
        subst hs
        constructor
        · exact main _ _ hwfI hno2 hro2 hredW2 hredN2 hrouteRED2
        · intro _
          show containsPair cfg _ (KeyToPageId cfg k D4) k v
          rw [KeyToPageId, ← hKI]
          rw [hc1.1, hpidIdx]
          obtain ⟨t, htn, htr, hte⟩ :=
            HashTableBucketPage.insert_contains cfg.n RED.1 k v hredW1 ht
          refine ⟨t, htn, ?_, ?_⟩
          · rw [bucketAt_set_ne _ _ _ _ _ hopid_ne, bucketAt_set_self]
            exact htr
          · rw [bucketAt_set_ne _ _ _ _ _ hopid_ne, bucketAt_set_self]
            exact hte
      · intro s2 ev hres
        exact Sum.noConfusion hres
    · rw [if_neg ht] at h
      exact absurd h (by simp)
  · rw [if_neg hc1] at h
    by_cases hc2 : KI = NI
    · rw [if_pos hc2] at h
      by_cases ht : (HashTableBucketPage.Insert cfg.n RED.2.1 k v).1 = true
      · rw [if_pos ht] at h
        simp only [] at h
        rw [if_pos trivial] at h
        injection h with h
        subst h
        obtain ⟨m, _, _, _, _, _, hwfI⟩ :=
          HashTableBucketPage.insert_effects cfg.n RED.2.1 k v hredW2 ht
        have hnn2 := HashTableBucketPage.insert_nodup cfg.n RED.2.1 k v hredW2 hredN2
        have hrn2 : ∀ t < cfg.n,
            (HashTableBucketPage.Insert cfg.n RED.2.1 k v).2.IsReadable t = true →
            Hash cfg ((HashTableBucketPage.Insert cfg.n RED.2.1 k v).2.KeyAt t)
              % 2 ^ (s.dir.global_depth_ + 1) = NI := by
          intro t ht2 hr
          rcases HashTableBucketPage.insert_source cfg.n RED.2.1 k v hredW2 t ht2 hr
            with hE | ⟨hrB, hEB⟩
          · have hk : (HashTableBucketPage.Insert cfg.n RED.2.1 k v).2.KeyAt t = k :=
              congrArg Prod.fst hE
            rw [hk, ← hKIeq]
            exact hc2
          · have hk : (HashTableBucketPage.Insert cfg.n RED.2.1 k v).2.KeyAt t
                = RED.2.1.KeyAt t := congrArg Prod.fst hEB
            rw [hk]
            exact hrouteRED2 t ht2 hrB
        constructor
        · intro r s2 ev hres
          injection hres with hres
          injection hres with hr hres
          injection hres with hs hev
          subst hr
          subst hs
          constructor
          · exact main _ _ hredW1 hndRED1 hrouteRED1 hwfI hnn2 hrn2
          · intro _
            show containsPair cfg _ (KeyToPageId cfg k D4) k v
            rw [KeyToPageId, ← hKI, hc2, hpidNI]
            obtain ⟨t, htn, htr, hte⟩ :=
              HashTableBucketPage.insert_contains cfg.n RED.2.1 k v hredW2 ht
            refine ⟨t, htn, ?_, ?_⟩
            · rw [bucketAt_set_self]
              exact htr
            · rw [bucketAt_set_self]
              exact hte
        · intro s2 ev hres
          exact Sum.noConfusion hres
      · rw [if_neg ht] at h
        exact absurd h (by simp)
    · rw [if_neg hc2] at h
      simp only [] at h
      rw [if_neg (fun hc : (false : Bool) = true => Bool.noConfusion hc)] at h
      injection h with h
      subst h
      constructor
      · intro r s2 ev hres
        exact Sum.noConfusion hres
      · intro s2 ev hres
        injection hres with hres
        injection hres with hs hev
        subst hs
        exact main _ _ hredW1 hndRED1 hrouteRED1 hredW2 hredN2 hrouteRED2

end EHT

end BusTub

namespace BusTub

namespace EHT

set_option maxHeartbeats 1000000 in
theorem splitCaseB_inv (cfg : Cfg) (s : HT) (k v : Nat) (index : Nat) (old_pid : Int)
    (old : HashTableBucketPage) (hinv : INV cfg s)
    (hidx : index = KeyToDirectoryIndex cfg k s.dir)
    (hpid : old_pid = s.dir.GetBucketPageId index)
    (hold : old = bucketAt cfg s.store old_pid)
    (res : (Bool × HT × List Ev) ⊕ (HT × List Ev))
    (h : SplitCaseB cfg s k v index old_pid old = some res) :
    (∀ r s2 ev, res = Sum.inl (r, s2, ev) → INV cfg s2 ∧
      (r = true → containsPair cfg s2.store (KeyToPageId cfg k s2.dir) k v)) ∧
    (∀ s2 ev, res = Sum.inr (s2, ev) → INV cfg s2) := by
  obtain ⟨h0, hdir, hbok, hpos, hfresh⟩ := hinv
  have hidxlt : index < 2 ^ s.dir.global_depth_ := by
    rw [hidx, ← size_eq]
    exact keyToDirectoryIndex_lt cfg k s.dir
  have hidxmod : Hash cfg k % 2 ^ s.dir.global_depth_ = index := by
    rw [hidx, keyToDirectoryIndex_eq]
  have hszidx : index < s.dir.Size := by
    rw [size_eq]
    exact hidxlt
  have hlt_np : ∀ m : Nat, m < s.dir.Size →
      s.dir.bucket_page_ids_ m < s.next_pid ∧ 0 < s.dir.bucket_page_ids_ m := by
    intro m hm
    obtain ⟨b0, hb0⟩ := storeGet_isSome_mem _ _ ((hbok m hm).1)
    exact ⟨(hfresh _ hb0).2, (hfresh _ hb0).1⟩
  have hopid_lt : old_pid < s.next_pid := by
    rw [hpid]
    exact (hlt_np index hszidx).1
  have hopid_pos : (0 : Int) < old_pid := by
    rw [hpid]
    exact (hlt_np index hszidx).2
  have hopid_ne : old_pid ≠ s.next_pid := ne_of_lt hopid_lt
  unfold SplitCaseB at h
  simp only [] at h
  set L := s.dir.GetLocalDepth index with hL
  have hL' : s.dir.local_depths_ index = L := rfl
  rw [one_shl] at h
  set NIB := 2 ^ L ^^^ index with hNIB
  have hNIBne : NIB ≠ index := by
    rw [hNIB]
    exact xor_two_pow_ne
  have hNIBmodL : NIB % 2 ^ L = index % 2 ^ L := by
    rw [hNIB]
    exact xor_two_pow_mod
  have hNIBmodSne : NIB % 2 ^ (L + 1) ≠ index % 2 ^ (L + 1) := by
    rw [hNIB]
    exact xor_two_pow_mod_succ_ne
  by_cases hlt : L < s.dir.GetGlobalDepth
  swap
  · rw [if_neg hlt] at h
    exact absurd h (by simp)
  rw [if_pos hlt] at h
  have hlt' : L < s.dir.global_depth_ := hlt
  have hLsle : L + 1 ≤ s.dir.global_depth_ := hlt'
  by_cases hgNIB : s.dir.GetLocalDepth NIB = L
  swap
  · rw [if_neg hgNIB] at h
    exact absurd h (by simp)
  rw [if_pos hgNIB] at h
  have hgNIB' : s.dir.local_depths_ NIB = L := hgNIB
  set DB := ((s.dir.SetBucketPageId NIB s.next_pid).IncrLocalDepth index).IncrLocalDepth
    NIB with hDB
  set M := DB.GetLocalDepthMask index with hM0
  by_cases hfull : ∀ i < cfg.n, old.IsReadable i = true
  swap
  · rw [if_neg hfull] at h
    exact absurd h (by simp)
  rw [if_pos hfull] at h
  set REDB := Redistribute cfg.n (fun ck => (M &&& Hash cfg ck) == (NIB &&& M)) old
    (HashTableBucketPage.empty cfg.n) false (List.range cfg.n) with hREDB
  set SZ := DB.Size with hSZ0
  have hpidDB : ∀ j, DB.bucket_page_ids_ j
      = if j = NIB then s.next_pid else s.dir.bucket_page_ids_ j := fun j => rfl
  have hldDB : ∀ j, DB.local_depths_ j
      = if j = NIB then L + 1 else if j = index then L + 1
        else s.dir.local_depths_ j := by
    intro j
    show (if j = NIB then
        (if NIB = index then s.dir.local_depths_ index + 1
         else s.dir.local_depths_ NIB) + 1
      else if j = index then s.dir.local_depths_ index + 1
      else s.dir.local_depths_ j) = _
    rw [if_neg hNIBne, hgNIB', hL']
  have hMe : M = 2 ^ (L + 1) - 1 := by
    rw [hM0]
    show (1 <<< DB.local_depths_ index) - 1 = _
    rw [hldDB index, if_neg (fun hc => hNIBne hc.symm), if_pos rfl, one_shl]
  have hSZe : SZ = 2 ^ s.dir.global_depth_ := by
    rw [hSZ0, size_eq]
    rfl
  by_cases hguard3 : ∀ i < SZ, DB.GetBucketPageId i = old_pid →
      i = index ∨ i = NIB ∨ DB.GetLocalDepth i = L
  swap
  · rw [if_neg hguard3] at h
    exact absurd h (by simp)
  rw [if_pos hguard3] at h
  set D3 := FanLoop DB old_pid s.next_pid index M L SZ with hD3
  have hgroup : ∀ j, j < 2 ^ s.dir.global_depth_ →
      (s.dir.bucket_page_ids_ j = old_pid ↔ j % 2 ^ L = index % 2 ^ L) := by
    intro j hj
    constructor
    · intro hc
      rw [hpid] at hc
      have hBd := hdir.2.2.2 j (by rw [size_eq]; exact hj) index hszidx hc
      have h5 := hBd.2
      rw [hBd.1, hL'] at h5
      exact h5
    · intro hc
      have hAd := hdir.2.2.1 index hszidx j (by rw [size_eq]; exact hj)
        (by rw [hL']; exact hc.symm)
      rw [hpid]
      exact hAd.2
  have hfan := fanLoop_spec DB old_pid s.next_pid index M L SZ
  rw [← hD3] at hfan
  have hgd3 : D3.global_depth_ = s.dir.global_depth_ := hfan.1
  have hfanmaskIdx : index &&& M = index % 2 ^ (L + 1) := by
    rw [hMe, Nat.and_pow_two_sub_one_eq_mod]
  have hPid3 : ∀ j, j < 2 ^ s.dir.global_depth_ →
      D3.bucket_page_ids_ j
        = if j % 2 ^ L = index % 2 ^ L then
            (if j % 2 ^ (L + 1) = index % 2 ^ (L + 1) then old_pid else s.next_pid)
          else s.dir.bucket_page_ids_ j := by
    intro j hj
    have hjSZ : j < SZ := by
      rw [hSZe]
      exact hj
    have hf := (hfan.2.2 j hjSZ).1
    rw [hpidDB j] at hf
    by_cases hjN : j = NIB
    · rw [if_pos hjN, if_neg (ne_of_lt hopid_lt).symm] at hf
      have hj1 : j % 2 ^ L = index % 2 ^ L := by
        rw [hjN]
        exact hNIBmodL
      have hj2 : ¬ (j % 2 ^ (L + 1) = index % 2 ^ (L + 1)) := by
        rw [hjN]
        exact hNIBmodSne
      rw [hf, if_pos hj1, if_neg hj2]
    · rw [if_neg hjN] at hf
      by_cases hjG : s.dir.bucket_page_ids_ j = old_pid
      · rw [if_pos hjG] at hf
        have hjm : j &&& M = j % 2 ^ (L + 1) := by
          rw [hMe, Nat.and_pow_two_sub_one_eq_mod]
        rw [hjm, hfanmaskIdx] at hf
        rw [hf, if_pos ((hgroup j hj).mp hjG)]
      · rw [if_neg hjG] at hf
        rw [hf, if_neg (fun hc => hjG ((hgroup j hj).mpr hc))]
  have hLd3 : ∀ j, j < 2 ^ s.dir.global_depth_ →
      D3.local_depths_ j
        = if j % 2 ^ L = index % 2 ^ L then L + 1 else s.dir.local_depths_ j := by
    intro j hj
    have hjSZ : j < SZ := by
      rw [hSZe]
      exact hj
    have hf := (hfan.2.2 j hjSZ).2
    rw [hpidDB j, hldDB j] at hf
    by_cases hjN : j = NIB
    · rw [if_pos hjN, if_neg (ne_of_lt hopid_lt).symm, if_pos hjN] at hf
      have hj1 : j % 2 ^ L = index % 2 ^ L := by
        rw [hjN]
        exact hNIBmodL
      rw [hf, if_pos hj1]
    · rw [if_neg hjN] at hf
      by_cases hjG : s.dir.bucket_page_ids_ j = old_pid
      · rw [if_pos hjG] at hf
        rw [hf, if_pos ((hgroup j hj).mp hjG)]
      · rw [if_neg hjG, if_neg hjN] at hf
        have hjI : j ≠ index := by
          intro hc
          apply hjG
          rw [hc]
          exact hpid.symm
        rw [if_neg hjI] at hf
        rw [hf, if_neg (fun hc => hjG ((hgroup j hj).mpr hc))]
  have hdirD3 : DirInv cfg D3 := by
    refine ⟨?_, ?_, ?_, ?_⟩
    · rw [hgd3]
      exact hdir.1
    · intro i hi
      rw [size_eq, hgd3] at hi
      rw [hLd3 i hi, hgd3]
      by_cases hc : i % 2 ^ L = index % 2 ^ L
      · rw [if_pos hc]
        omega
      · rw [if_neg hc]
        exact hdir.2.1 i (by rw [size_eq]; exact hi)
    · intro i hi j hj hcong
      rw [size_eq, hgd3] at hi hj
      by_cases hci : i % 2 ^ L = index % 2 ^ L
      · rw [hLd3 i hi, if_pos hci] at hcong
        have hcj : j % 2 ^ L = index % 2 ^ L := by
          have h5 : i % 2 ^ L = j % 2 ^ L := by
            rw [← mod_tower (Nat.le_succ L) i, ← mod_tower (Nat.le_succ L) j, hcong]
          rw [← h5]
          exact hci
        constructor
        · rw [hLd3 j hj, if_pos hcj, hLd3 i hi, if_pos hci]
        · rw [hPid3 j hj, if_pos hcj, hPid3 i hi, if_pos hci]
          by_cases hside : i % 2 ^ (L + 1) = index % 2 ^ (L + 1)
          · rw [if_pos hside, if_pos (by rw [← hcong]; exact hside)]
          · rw [if_neg hside, if_neg (by rw [← hcong]; exact hside)]
      · rw [hLd3 i hi, if_neg hci] at hcong
        have hAd := hdir.2.2.1 i (by rw [size_eq]; exact hi) j
          (by rw [size_eq]; exact hj) hcong
        have hcj : ¬ (j % 2 ^ L = index % 2 ^ L) := by
          intro hc
          have hjg := (hgroup j hj).mpr hc
          rw [hAd.2] at hjg
          exact hci ((hgroup i hi).mp hjg)
        constructor
        · rw [hLd3 j hj, if_neg hcj, hLd3 i hi, if_neg hci]
          exact hAd.1
        · rw [hPid3 j hj, if_neg hcj, hPid3 i hi, if_neg hci]
          exact hAd.2
    · intro i hi j hj hpq
      rw [size_eq, hgd3] at hi hj
      by_cases hij : i = j
      · subst hij
        exact ⟨rfl, rfl⟩
      by_cases hci : i % 2 ^ L = index % 2 ^ L
      · by_cases hcj : j % 2 ^ L = index % 2 ^ L
        · rw [hPid3 i hi, if_pos hci, hPid3 j hj, if_pos hcj] at hpq
          refine ⟨by rw [hLd3 i hi, if_pos hci, hLd3 j hj, if_pos hcj], ?_⟩
          rw [hLd3 i hi, if_pos hci]
          by_cases hsi : i % 2 ^ (L + 1) = index % 2 ^ (L + 1)
          · by_cases hsj : j % 2 ^ (L + 1) = index % 2 ^ (L + 1)
            · rw [hsi, hsj]
            · rw [if_pos hsi, if_neg hsj] at hpq
              exact absurd hpq hopid_ne
          · by_cases hsj : j % 2 ^ (L + 1) = index % 2 ^ (L + 1)
            · rw [if_neg hsi, if_pos hsj] at hpq
              exact absurd hpq.symm hopid_ne
            · have h5 : i % 2 ^ (L + 1) = NIB % 2 ^ (L + 1) := by
                rcases mod_succ_resolve hci with h6 | h6
                · exact absurd h6 hsi
                · rw [hNIB]
                  exact h6
              have h6 : j % 2 ^ (L + 1) = NIB % 2 ^ (L + 1) := by
                rcases mod_succ_resolve hcj with h7 | h7
                · exact absurd h7 hsj
                · rw [hNIB]
                  exact h7
              rw [h5, h6]
        · rw [hPid3 i hi, if_pos hci, hPid3 j hj, if_neg hcj] at hpq
          have hjg : s.dir.bucket_page_ids_ j ≠ old_pid :=
            fun hc => hcj ((hgroup j hj).mp hc)
          have hjn : s.dir.bucket_page_ids_ j ≠ s.next_pid :=
            ne_of_lt (hlt_np j (by rw [size_eq]; exact hj)).1
          by_cases hsi : i % 2 ^ (L + 1) = index % 2 ^ (L + 1)
          · rw [if_pos hsi] at hpq
            exact absurd hpq.symm hjg
          · rw [if_neg hsi] at hpq
            exact absurd hpq.symm hjn
      · by_cases hcj : j % 2 ^ L = index % 2 ^ L
        · rw [hPid3 i hi, if_neg hci, hPid3 j hj, if_pos hcj] at hpq
          have hig : s.dir.bucket_page_ids_ i ≠ old_pid :=
            fun hc => hci ((hgroup i hi).mp hc)
          have hin : s.dir.bucket_page_ids_ i ≠ s.next_pid :=
            ne_of_lt (hlt_np i (by rw [size_eq]; exact hi)).1
          by_cases hsj : j % 2 ^ (L + 1) = index % 2 ^ (L + 1)
          · rw [if_pos hsj] at hpq
            exact absurd hpq hig
          · rw [if_neg hsj] at hpq
            exact absurd hpq hin
        · rw [hPid3 i hi, if_neg hci, hPid3 j hj, if_neg hcj] at hpq
          have hBd := hdir.2.2.2 i (by rw [size_eq]; exact hi) j
            (by rw [size_eq]; exact hj) hpq
          refine ⟨?_, ?_⟩
          · rw [hLd3 i hi, if_neg hci, hLd3 j hj, if_neg hcj]
            exact hBd.1
          · rw [hLd3 i hi, if_neg hci]
            exact hBd.2
  have hbeq : old = bucketAt cfg s.store (s.dir.GetBucketPageId index) := by
    rw [hold, hpid]
  have hbokI := hbok index hszidx
  unfold BucketOK at hbokI
  rw [← hbeq] at hbokI
  have hwfold : WfBucket cfg.n old := hbokI.2.1
  have hndold : NoDupPairs cfg.n old := hbokI.2.2.1
  have hrouteoldL : ∀ t < cfg.n, old.IsReadable t = true →
      Hash cfg (old.KeyAt t) % 2 ^ L = index % 2 ^ L := by
    intro t ht hr
    have h5 := hbokI.2.2.2 t ht hr
    rw [← hL] at h5
    exact h5
  have hcondIffB : ∀ ck, (((M &&& Hash cfg ck) == (NIB &&& M)) = true) ↔
      Hash cfg ck % 2 ^ (L + 1) = NIB % 2 ^ (L + 1) := by
    intro ck
    rw [beq_iff_eq, hMe, Nat.and_comm (2 ^ (L + 1) - 1) (Hash cfg ck),
      Nat.and_pow_two_sub_one_eq_mod, Nat.and_pow_two_sub_one_eq_mod]
  obtain ⟨hredA, hredO, hredW1B, hredR1B, hredW2B, hredN2B, hredSrcB, hredFrB⟩ :=
    HashTableBucketPage.redistribute_spec cfg.n
      (fun ck => (M &&& Hash cfg ck) == (NIB &&& M)) (List.range cfg.n)
      (List.nodup_range _) (fun x hx => List.mem_range.mp hx) old
      (HashTableBucketPage.empty cfg.n) false hwfold (wf_empty _) (noDup_empty _)
  rw [← hREDB] at hredA hredO hredW1B hredR1B hredW2B hredN2B hredSrcB hredFrB
  have hrouteRB1 : ∀ t < cfg.n, REDB.1.IsReadable t = true →
      Hash cfg (REDB.1.KeyAt t) % 2 ^ (L + 1) = index % 2 ^ (L + 1) := by
    intro t ht hr
    rw [hredR1B t ht] at hr
    by_cases hcnd : t ∈ List.range cfg.n ∧
        (((M &&& Hash cfg (old.KeyAt t)) == (NIB &&& M)) : Bool) = true
    · rw [if_pos hcnd] at hr
      exact Bool.noConfusion hr
    · rw [if_neg hcnd] at hr
      rw [HashTableBucketPage.keyAt_of_array_eq hredA t]
      have hH := hrouteoldL t ht hr
      have hnm : ¬ (Hash cfg (old.KeyAt t) % 2 ^ (L + 1) = NIB % 2 ^ (L + 1)) := by
        intro hcc
        exact hcnd ⟨List.mem_range.mpr ht, (hcondIffB _).mpr hcc⟩
      rcases mod_succ_resolve hH with h1 | h1
      · exact h1
      · exact absurd (by rw [h1, hNIB]) hnm
  have hndRB1 : NoDupPairs cfg.n REDB.1 :=
    HashTableBucketPage.nodup_of_restrict cfg.n old REDB.1 hndold
      (fun j _ => HashTableBucketPage.entry_of_array_eq hredA j)
      (fun j hj hr => by
        rw [hredR1B j hj] at hr
        by_cases hcnd : j ∈ List.range cfg.n ∧
            (((M &&& Hash cfg (old.KeyAt j)) == (NIB &&& M)) : Bool) = true
        · rw [if_pos hcnd] at hr
          exact Bool.noConfusion hr
        · rw [if_neg hcnd] at hr
          exact hr)
  have hrouteRB2 : ∀ t < cfg.n, REDB.2.1.IsReadable t = true →
      Hash cfg (REDB.2.1.KeyAt t) % 2 ^ (L + 1) = NIB % 2 ^ (L + 1) := by
    intro t ht hr
    rcases hredSrcB t ht hr with ⟨i, _, hcnd, hent⟩ | ⟨hnr, _⟩
    · have hk : REDB.2.1.KeyAt t = old.KeyAt i := congrArg Prod.fst hent
      rw [hk]
      exact (hcondIffB _).mp hcnd
    · rw [empty_not_readable] at hnr
      exact Bool.noConfusion hnr
  have hkroute : Hash cfg k % 2 ^ (L + 1) = index % 2 ^ (L + 1) := by
    rw [← mod_tower hLsle (Hash cfg k), hidxmod]
  have main : ∀ old2 : HashTableBucketPage,
      WfBucket cfg.n old2 → NoDupPairs cfg.n old2 →
      (∀ t < cfg.n, old2.IsReadable t = true →
        Hash cfg (old2.KeyAt t) % 2 ^ (L + 1) = index % 2 ^ (L + 1)) →
      INV cfg { dir := D3,
                store := storeSet (storeSet s.store old_pid old2) s.next_pid REDB.2.1,
                next_pid := s.next_pid + 1 } := by
    intro old2 hwo hno hro
    refine ⟨h0, hdirD3, ?_, ?_, ?_⟩
    · intro j hj
      rw [size_eq, hgd3] at hj
      by_cases hjG : j % 2 ^ L = index % 2 ^ L
      · by_cases hjS : j % 2 ^ (L + 1) = index % 2 ^ (L + 1)
        · have hpp : D3.GetBucketPageId j = old_pid := by
            show D3.bucket_page_ids_ j = _
            rw [hPid3 j hj, if_pos hjG, if_pos hjS]
          refine ⟨?_, ?_, ?_, ?_⟩
          · rw [hpp, storeGet_set_ne _ _ _ _ hopid_ne, storeGet_set_self]
            rfl
          · rw [hpp, bucketAt_set_ne _ _ _ _ _ hopid_ne, bucketAt_set_self]
            exact hwo
          · rw [hpp, bucketAt_set_ne _ _ _ _ _ hopid_ne, bucketAt_set_self]
            exact hno
          · intro t ht hr
            rw [hpp, bucketAt_set_ne _ _ _ _ _ hopid_ne, bucketAt_set_self] at hr ⊢
            have hldj : D3.local_depths_ j = L + 1 := by
              rw [hLd3 j hj, if_pos hjG]
            show Hash cfg (old2.KeyAt t) % 2 ^ D3.local_depths_ j
              = j % 2 ^ D3.local_depths_ j
            rw [hldj, hro t ht hr, hjS]
        · have hjNIB : j % 2 ^ (L + 1) = NIB % 2 ^ (L + 1) := by
            rcases mod_succ_resolve hjG with h5 | h5
            · exact absurd h5 hjS
            · rw [hNIB]
              exact h5
          have hpp : D3.GetBucketPageId j = s.next_pid := by
            show D3.bucket_page_ids_ j = _
            rw [hPid3 j hj, if_pos hjG, if_neg hjS]
          refine ⟨?_, ?_, ?_, ?_⟩
          · rw [hpp, storeGet_set_self]
            rfl
          · rw [hpp, bucketAt_set_self]
            exact hredW2B
          · rw [hpp, bucketAt_set_self]
            exact hredN2B
          · intro t ht hr
            rw [hpp, bucketAt_set_self] at hr ⊢
            have hldj : D3.local_depths_ j = L + 1 := by
              rw [hLd3 j hj, if_pos hjG]
            show Hash cfg (REDB.2.1.KeyAt t) % 2 ^ D3.local_depths_ j
              = j % 2 ^ D3.local_depths_ j
            rw [hldj, hrouteRB2 t ht hr, hjNIB]
      · have hjg : s.dir.bucket_page_ids_ j ≠ old_pid :=
          fun hc => hjG ((hgroup j hj).mp hc)
        have hjn : s.dir.bucket_page_ids_ j ≠ s.next_pid :=
          ne_of_lt (hlt_np j (by rw [size_eq]; exact hj)).1
        have hpp : D3.GetBucketPageId j = s.dir.bucket_page_ids_ j := by
          show D3.bucket_page_ids_ j = _
          rw [hPid3 j hj, if_neg hjG]
        have hldj : D3.local_depths_ j = s.dir.local_depths_ j := by
          rw [hLd3 j hj, if_neg hjG]
        have hbokJ := hbok j (by rw [size_eq]; exact hj)
        refine ⟨?_, ?_, ?_, ?_⟩
        · rw [hpp, storeGet_set_ne _ _ _ _ hjn, storeGet_set_ne _ _ _ _ hjg]
          exact hbokJ.1
        · rw [hpp, bucketAt_set_ne _ _ _ _ _ hjn, bucketAt_set_ne _ _ _ _ _ hjg]
          exact hbokJ.2.1
        · rw [hpp, bucketAt_set_ne _ _ _ _ _ hjn, bucketAt_set_ne _ _ _ _ _ hjg]
          exact hbokJ.2.2.1
        · intro t ht hr
          rw [hpp, bucketAt_set_ne _ _ _ _ _ hjn, bucketAt_set_ne _ _ _ _ _ hjg]
            at hr ⊢
          have hrt := hbokJ.2.2.2 t ht hr
          show Hash cfg _ % 2 ^ D3.local_depths_ j = j % 2 ^ D3.local_depths_ j
          rw [hldj]
          exact hrt
    · intro j hj
      rw [size_eq, hgd3] at hj
      show (0 : Int) < D3.bucket_page_ids_ j
      rw [hPid3 j hj]
      by_cases hjG : j % 2 ^ L = index % 2 ^ L
      · rw [if_pos hjG]
        by_cases hjS : j % 2 ^ (L + 1) = index % 2 ^ (L + 1)
        · rw [if_pos hjS]
          exact hopid_pos
        · rw [if_neg hjS]
          omega
      · rw [if_neg hjG]
        exact (hlt_np j (by rw [size_eq]; exact hj)).2
    · intro e he
      rcases mem_storeSet _ _ _ e he with rfl | he2
      · constructor
        · show (0 : Int) < s.next_pid
          omega
        · show s.next_pid < s.next_pid + 1
          omega
      · rcases mem_storeSet _ _ _ e he2 with rfl | he3
        · refine ⟨hopid_pos, ?_⟩
          show old_pid < s.next_pid + 1
          omega
        · have h5 := hfresh e he3
          refine ⟨h5.1, ?_⟩
          show e.1 < s.next_pid + 1
          have h6 := h5.2
          omega
  by_cases hfr : REDB.2.2 = true
  · rw [if_pos hfr] at h
    by_cases ht : (HashTableBucketPage.Insert cfg.n REDB.1 k v).1 = true
    · rw [if_pos ht] at h
      simp only [] at h
      rw [if_pos trivial] at h
      injection h with h
      subst h
      obtain ⟨m0, _, _, _, _, _, hwfI⟩ :=
        HashTableBucketPage.insert_effects cfg.n REDB.1 k v hredW1B ht
      have hno2 := HashTableBucketPage.insert_nodup cfg.n REDB.1 k v hredW1B hndRB1
      have hro2 : ∀ t < cfg.n,
          (HashTableBucketPage.Insert cfg.n REDB.1 k v).2.IsReadable t = true →
          Hash cfg ((HashTableBucketPage.Insert cfg.n REDB.1 k v).2.KeyAt t)
            % 2 ^ (L + 1) = index % 2 ^ (L + 1) := by
        intro t ht2 hr
        rcases HashTableBucketPage.insert_source cfg.n REDB.1 k v hredW1B t ht2 hr
          with hE | ⟨hrB, hEB⟩
        · have hk : (HashTableBucketPage.Insert cfg.n REDB.1 k v).2.KeyAt t = k :=
            congrArg Prod.fst hE
          rw [hk]
          exact hkroute
        · have hk : (HashTableBucketPage.Insert cfg.n REDB.1 k v).2.KeyAt t
              = REDB.1.KeyAt t := congrArg Prod.fst hEB
          rw [hk]
          exact hrouteRB1 t ht2 hrB
      constructor
      · intro r s2 ev hres
        injection hres with hres
        injection hres with hr hres
        injection hres with hs hev
        subst hr
        subst hs
        constructor
        · exact main _ hwfI hno2 hro2
        · intro _
          show containsPair cfg _ (KeyToPageId cfg k D3) k v
          have hKIe : KeyToDirectoryIndex cfg k D3 = index := by
            rw [keyToDirectoryIndex_eq, hgd3, hidxmod]
          rw [KeyToPageId, hKIe]
          have hpp : D3.GetBucketPageId index = old_pid := by
            show D3.bucket_page_ids_ index = _
            rw [hPid3 index hidxlt, if_pos rfl, if_pos rfl]
          rw [hpp]
          obtain ⟨t2, ht2n, ht2r, ht2e⟩ :=
            HashTableBucketPage.insert_contains cfg.n REDB.1 k v hredW1B ht
          refine ⟨t2, ht2n, ?_, ?_⟩
          · rw [bucketAt_set_ne _ _ _ _ _ hopid_ne, bucketAt_set_self]
            exact ht2r
          · rw [bucketAt_set_ne _ _ _ _ _ hopid_ne, bucketAt_set_self]
            exact ht2e
      · intro s2 ev hres
        exact Sum.noConfusion hres
    · rw [if_neg ht] at h
      exact absurd h (by simp)
  · rw [if_neg hfr] at h
    simp only [] at h
    rw [if_neg (fun hc : (false : Bool) = true => Bool.noConfusion hc)] at h
    injection h with h
    subst h
    constructor
    · intro r s2 ev hres
      exact Sum.noConfusion hres
    · intro s2 ev hres
      injection hres with hres
      injection hres with hs hev
      subst hs
      exact main _ hredW1B hndRB1 hrouteRB1

end EHT

end BusTub

namespace BusTub

namespace EHT

theorem splitScanLoop_snd_prop (n : Nat) (b : HashTableBucketPage) (k v : Nat) :
    ∀ (l : List Nat) (fp : Nat), (∀ i ∈ l, i < n) →
      (fp = n ∨ (fp < n ∧ (b.IsOccupied fp = false ∨ b.IsReadable fp = false))) →
      ((SplitScanLoop n b k v l fp).2 = n ∨
        ((SplitScanLoop n b k v l fp).2 < n ∧
          (b.IsOccupied (SplitScanLoop n b k v l fp).2 = false ∨
           b.IsReadable (SplitScanLoop n b k v l fp).2 = false))) := by
  intro l
  induction l with
  | nil =>
    intro fp _ hfp
    exact hfp
  | cons i rest ih =>
    intro fp hl hfp
    unfold SplitScanLoop
    simp only []
    have hfp1 : (if (fp == n && (! b.IsOccupied i || ! b.IsReadable i)) = true
          then i else fp) = n ∨
        ((if (fp == n && (! b.IsOccupied i || ! b.IsReadable i)) = true
          then i else fp) < n ∧
         (b.IsOccupied (if (fp == n && (! b.IsOccupied i || ! b.IsReadable i)) = true
            then i else fp) = false ∨
          b.IsReadable (if (fp == n && (! b.IsOccupied i || ! b.IsReadable i)) = true
            then i else fp) = false)) := by
      by_cases hc : (fp == n && (! b.IsOccupied i || ! b.IsReadable i)) = true
      · rw [if_pos hc]
        right
        refine ⟨hl i (List.mem_cons_self i rest), ?_⟩
        have hc2 := (Bool.and_eq_true _ _).mp hc
        rcases (Bool.or_eq_true _ _).mp hc2.2 with h5 | h5
        · exact Or.inl (by simpa using h5)
        · exact Or.inr (by simpa using h5)
      · rw [if_neg hc]
        exact hfp
    split
    · exact hfp1
    · exact ih _ (fun x hx => hl x (List.mem_cons_of_mem i hx)) hfp1

theorem splitScan_free (n : Nat) (b : HashTableBucketPage) (k v : Nat)
    (hwf : WfBucket n b) (hsnd : (SplitScan n b k v).2 ≠ n) :
    (SplitScan n b k v).2 < n ∧ b.IsReadable (SplitScan n b k v).2 = false := by
  rcases splitScanLoop_snd_prop n b k v (List.range n) n
      (fun x hx => List.mem_range.mp hx) (Or.inl rfl) with hc | ⟨hlt, hfree⟩
  · exact absurd hc hsnd
  · refine ⟨hlt, ?_⟩
    rcases hfree with ho | hr
    · cases hread : b.IsReadable (SplitScan n b k v).2 with
      | false => rfl
      | true =>
        have := hwf.2.2.2.2.2 _ hlt hread
        rw [this] at ho
        exact Bool.noConfusion ho
    · exact hr

theorem splitStep_inv (cfg : Cfg) (s : HT) (k v : Nat) (hinv : INV cfg s)
    (res : (Bool × HT × List Ev) ⊕ (HT × List Ev))
    (h : SplitStep cfg s k v = some res) :
    (∀ r s2 ev, res = Sum.inl (r, s2, ev) → INV cfg s2 ∧
      (r = true → containsPair cfg s2.store (KeyToPageId cfg k s2.dir) k v)) ∧
    (∀ s2 ev, res = Sum.inr (s2, ev) → INV cfg s2) := by
  unfold SplitStep at h
  simp only [] at h
  by_cases hscan : (SplitScan cfg.n
      (bucketAt cfg s.store (s.dir.GetBucketPageId (KeyToDirectoryIndex cfg k s.dir)))
      k v).1 = true
  · rw [if_pos hscan] at h
    injection h with h
    subst h
    constructor
    · intro r s2 ev hres
      injection hres with hres
      injection hres with hr hres
      injection hres with hs hev
      subst hr
      subst hs
      exact ⟨hinv, fun hc => Bool.noConfusion hc⟩
    · intro s2 ev hres
      exact Sum.noConfusion hres
  · rw [if_neg hscan] at h
    by_cases hfree : (SplitScan cfg.n
        (bucketAt cfg s.store (s.dir.GetBucketPageId (KeyToDirectoryIndex cfg k s.dir)))
        k v).2 ≠ cfg.n
    · rw [if_pos hfree] at h
      injection h with h
      subst h
      obtain ⟨h0, hdir, hbok, hpos, hfresh⟩ := hinv
      have hszidx : KeyToDirectoryIndex cfg k s.dir < s.dir.Size :=
        keyToDirectoryIndex_lt cfg k s.dir
      have hbokI := hbok _ hszidx
      unfold BucketOK at hbokI
      have hwfold := hbokI.2.1
      have hndold := hbokI.2.2.1
      have hnd : ¬ ∃ i, i < cfg.n ∧
          (bucketAt cfg s.store
            (s.dir.GetBucketPageId (KeyToDirectoryIndex cfg k s.dir))).IsReadable i
            = true ∧
          (bucketAt cfg s.store
            (s.dir.GetBucketPageId (KeyToDirectoryIndex cfg k s.dir))).Entry i
            = (k, v) := by
        intro hc
        exact hscan ((splitScan_fst_iff cfg.n _ k v).mpr hc)
      have hfree2 := splitScan_free cfg.n _ k v hwfold hfree
      have hins : (HashTableBucketPage.Insert cfg.n
          (bucketAt cfg s.store
            (s.dir.GetBucketPageId (KeyToDirectoryIndex cfg k s.dir))) k v).1
          = true :=
        HashTableBucketPage.insert_true_of_free cfg.n _ k v hnd
          ⟨_, hfree2.1, hfree2.2⟩
      obtain ⟨m, _, _, _, _, hentI, hwfI⟩ :=
        HashTableBucketPage.insert_effects cfg.n _ k v hwfold hins
      have hno2 := HashTableBucketPage.insert_nodup cfg.n _ k v hwfold hndold
      have hidxmod : Hash cfg k % 2 ^ s.dir.global_depth_
          = KeyToDirectoryIndex cfg k s.dir := (keyToDirectoryIndex_eq cfg k s.dir).symm
      have hLle : s.dir.local_depths_ (KeyToDirectoryIndex cfg k s.dir)
          ≤ s.dir.global_depth_ := hdir.2.1 _ hszidx
      have hro2 : ∀ t < cfg.n,
          (HashTableBucketPage.Insert cfg.n
            (bucketAt cfg s.store
              (s.dir.GetBucketPageId (KeyToDirectoryIndex cfg k s.dir))) k v).2.IsReadable
            t = true →
          Hash cfg ((HashTableBucketPage.Insert cfg.n
            (bucketAt cfg s.store
              (s.dir.GetBucketPageId (KeyToDirectoryIndex cfg k s.dir))) k v).2.KeyAt t)
            % 2 ^ s.dir.GetLocalDepth (KeyToDirectoryIndex cfg k s.dir)
          = (KeyToDirectoryIndex cfg k s.dir)
            % 2 ^ s.dir.GetLocalDepth (KeyToDirectoryIndex cfg k s.dir) := by
        intro t ht hr
        rcases HashTableBucketPage.insert_source cfg.n _ k v hwfold t ht hr with
          hE | ⟨hrB, hEB⟩
        · have hk : (HashTableBucketPage.Insert cfg.n _ k v).2.KeyAt t = k :=
            congrArg Prod.fst hE
          rw [hk]
          show Hash cfg k % 2 ^ s.dir.local_depths_ (KeyToDirectoryIndex cfg k s.dir)
            = KeyToDirectoryIndex cfg k s.dir
              % 2 ^ s.dir.local_depths_ (KeyToDirectoryIndex cfg k s.dir)
          rw [← mod_tower hLle (Hash cfg k), hidxmod]
        · have hk : (HashTableBucketPage.Insert cfg.n _ k v).2.KeyAt t
              = (bucketAt cfg s.store
                  (s.dir.GetBucketPageId (KeyToDirectoryIndex cfg k s.dir))).KeyAt t :=
            congrArg Prod.fst hEB
          rw [hk]
          exact hbokI.2.2.2 t ht hrB
      have hINVD : INVD cfg s.dir
          (storeSet s.store (s.dir.GetBucketPageId (KeyToDirectoryIndex cfg k s.dir))
            (HashTableBucketPage.Insert cfg.n
              (bucketAt cfg s.store
                (s.dir.GetBucketPageId (KeyToDirectoryIndex cfg k s.dir))) k v).2)
          s.next_pid :=
        invd_update_bucket cfg s.dir s.store s.next_pid ⟨hdir, hbok, hpos, hfresh⟩
          (KeyToDirectoryIndex cfg k s.dir) hszidx _ hwfI hno2 hro2
      constructor
      · intro r s2 ev hres
        injection hres with hres
        injection hres with hr hres
        injection hres with hs hev
        subst hr
        subst hs
        constructor
        · exact ⟨h0, hINVD⟩
        · intro _
          show containsPair cfg _ (KeyToPageId cfg k s.dir) k v
          rw [KeyToPageId]
          obtain ⟨t2, ht2n, ht2r, ht2e⟩ :=
            HashTableBucketPage.insert_contains cfg.n _ k v hwfold hins
          refine ⟨t2, ht2n, ?_, ?_⟩
          · rw [bucketAt_set_self]
            exact ht2r
          · rw [bucketAt_set_self]
            exact ht2e
      · intro s2 ev hres
        exact Sum.noConfusion hres
    · rw [if_neg hfree] at h
      by_cases hloc : s.dir.GetLocalDepth (KeyToDirectoryIndex cfg k s.dir)
          = s.dir.GetGlobalDepth
      · rw [if_pos hloc] at h
        exact splitCaseA_inv cfg s k v _ _ _ hinv rfl rfl rfl hloc res h
      · rw [if_neg hloc] at h
        exact splitCaseB_inv cfg s k v _ _ _ hinv rfl rfl rfl res h

theorem splitInsert_inv (cfg : Cfg) : ∀ (fuel : Nat) (s : HT) (k v : Nat)
    (r : Bool) (s2 : HT) (ev : List Ev), INV cfg s →
    SplitInsert cfg fuel s k v = some (r, s2, ev) →
    INV cfg s2 ∧
      (r = true → containsPair cfg s2.store (KeyToPageId cfg k s2.dir) k v) := by
  intro fuel
  induction fuel with
  | zero =>
    intro s k v r s2 ev _ h
    exact absurd h (by simp [SplitInsert])
  | succ fuel ih =>
    intro s k v r s2 ev hinv h
    unfold SplitInsert at h
    cases hstep : SplitStep cfg s k v with
    | none =>
      rw [hstep] at h
      exact absurd h (by simp)
    | some res =>
      rw [hstep] at h
      have hsi := splitStep_inv cfg s k v hinv res hstep
      cases res with
      | inl t =>
        obtain ⟨r1, s21, ev1⟩ := t
        simp only [] at h
        injection h with h
        injection h with hr h
        injection h with hs hev
        subst hr
        subst hs
        exact hsi.1 _ _ ev1 rfl
      | inr t =>
        obtain ⟨s21, ev1⟩ := t
        simp only [] at h
        have hinv2 := hsi.2 s21 ev1 rfl
        cases hrec : SplitInsert cfg fuel s21 k v with
        | none =>
          rw [hrec] at h
          exact absurd h (by simp [withTail])
        | some t2 =>
          obtain ⟨r2, s22, ev2⟩ := t2
          rw [hrec] at h
          unfold withTail at h
          injection h with h
          injection h with hr h
          injection h with hs hev
          subst hr
          subst hs
          exact ih s21 k v _ _ ev2 hinv2 hrec

theorem insert_inv (cfg : Cfg) (fuel : Nat) (s : HT) (k v : Nat)
    (r : Bool) (s2 : HT) (ev : List Ev) (hinv : INV cfg s)
    (h : Insert cfg fuel s k v = some (r, s2, ev)) :
    INV cfg s2 ∧
      (r = true → containsPair cfg s2.store (KeyToPageId cfg k s2.dir) k v) := by
  unfold Insert at h
  simp only [] at h
  by_cases hb : (HashTableBucketPage.Insert cfg.n
      (bucketAt cfg s.store (KeyToPageId cfg k s.dir)) k v).1 = true
  · rw [if_pos hb] at h
    rw [if_pos hb] at h
    injection h with h
    injection h with hr h
    injection h with hs hev
    subst hr
    subst hs
    obtain ⟨h0, hdir, hbok, hpos, hfresh⟩ := hinv
    have hszidx : KeyToDirectoryIndex cfg k s.dir < s.dir.Size :=
      keyToDirectoryIndex_lt cfg k s.dir
    have hbokI := hbok _ hszidx
    unfold BucketOK at hbokI
    have hwfold := hbokI.2.1
    have hndold := hbokI.2.2.1
    have hb2 : (HashTableBucketPage.Insert cfg.n
        (bucketAt cfg s.store
          (s.dir.GetBucketPageId (KeyToDirectoryIndex cfg k s.dir))) k v).1 = true := hb
    obtain ⟨m, _, _, _, _, _, hwfI⟩ :=
      HashTableBucketPage.insert_effects cfg.n _ k v hwfold hb2
    have hno2 := HashTableBucketPage.insert_nodup cfg.n _ k v hwfold hndold
    have hidxmod : Hash cfg k % 2 ^ s.dir.global_depth_
        = KeyToDirectoryIndex cfg k s.dir := (keyToDirectoryIndex_eq cfg k s.dir).symm
    have hLle : s.dir.local_depths_ (KeyToDirectoryIndex cfg k s.dir)
        ≤ s.dir.global_depth_ := hdir.2.1 _ hszidx
    have hro2 : ∀ t < cfg.n,
        (HashTableBucketPage.Insert cfg.n
          (bucketAt cfg s.store
            (s.dir.GetBucketPageId (KeyToDirectoryIndex cfg k s.dir))) k v).2.IsReadable
          t = true →
        Hash cfg ((HashTableBucketPage.Insert cfg.n
          (bucketAt cfg s.store
            (s.dir.GetBucketPageId (KeyToDirectoryIndex cfg k s.dir))) k v).2.KeyAt t)
          % 2 ^ s.dir.GetLocalDepth (KeyToDirectoryIndex cfg k s.dir)
        = (KeyToDirectoryIndex cfg k s.dir)
          % 2 ^ s.dir.GetLocalDepth (KeyToDirectoryIndex cfg k s.dir) := by
      intro t ht hr
      rcases HashTableBucketPage.insert_source cfg.n _ k v hwfold t ht hr with
        hE | ⟨hrB, hEB⟩
      · have hk : (HashTableBucketPage.Insert cfg.n _ k v).2.KeyAt t = k :=
          congrArg Prod.fst hE
        rw [hk]
        show Hash cfg k % 2 ^ s.dir.local_depths_ (KeyToDirectoryIndex cfg k s.dir)
          = KeyToDirectoryIndex cfg k s.dir
            % 2 ^ s.dir.local_depths_ (KeyToDirectoryIndex cfg k s.dir)
        rw [← mod_tower hLle (Hash cfg k), hidxmod]
      · have hk : (HashTableBucketPage.Insert cfg.n _ k v).2.KeyAt t
            = (bucketAt cfg s.store
                (s.dir.GetBucketPageId (KeyToDirectoryIndex cfg k s.dir))).KeyAt t :=
          congrArg Prod.fst hEB
        rw [hk]
        exact hbokI.2.2.2 t ht hrB
    constructor
    · refine ⟨h0, ?_⟩
      show INVD cfg s.dir _ s.next_pid
      have := invd_update_bucket cfg s.dir s.store s.next_pid
        ⟨hdir, hbok, hpos, hfresh⟩ (KeyToDirectoryIndex cfg k s.dir) hszidx _
        hwfI hno2 hro2
      exact this
    · intro _
      show containsPair cfg _ (KeyToPageId cfg k s.dir) k v
      rw [KeyToPageId]
      obtain ⟨t2, ht2n, ht2r, ht2e⟩ :=
        HashTableBucketPage.insert_contains cfg.n _ k v hwfold hb2
      refine ⟨t2, ht2n, ?_, ?_⟩
      · show (bucketAt cfg (storeSet s.store
            (s.dir.GetBucketPageId (KeyToDirectoryIndex cfg k s.dir))
            (HashTableBucketPage.Insert cfg.n
              (bucketAt cfg s.store
                (s.dir.GetBucketPageId (KeyToDirectoryIndex cfg k s.dir))) k v).2)
          (s.dir.GetBucketPageId (KeyToDirectoryIndex cfg k s.dir))).IsReadable t2 = true
        rw [bucketAt_set_self]
        exact ht2r
      · show (bucketAt cfg (storeSet s.store
            (s.dir.GetBucketPageId (KeyToDirectoryIndex cfg k s.dir))
            (HashTableBucketPage.Insert cfg.n
              (bucketAt cfg s.store
                (s.dir.GetBucketPageId (KeyToDirectoryIndex cfg k s.dir))) k v).2)
          (s.dir.GetBucketPageId (KeyToDirectoryIndex cfg k s.dir))).Entry t2 = (k, v)
        rw [bucketAt_set_self]
        exact ht2e
  · rw [if_neg hb] at h
    rw [if_neg hb] at h
    cases hrec : SplitInsert cfg fuel s k v with
    | none =>
      rw [hrec] at h
      exact absurd h (by simp [withTail])
    | some t2 =>
      obtain ⟨r2, s22, ev2⟩ := t2
      rw [hrec] at h
      unfold withTail at h
      injection h with h
      injection h with hr h
      injection h with hs hev
      subst hr
      subst hs
      exact splitInsert_inv cfg fuel s k v _ _ ev2 hinv hrec

end EHT

end BusTub

namespace BusTub

namespace EHT

set_option maxHeartbeats 1000000 in
theorem mergeStep_invd (cfg : Cfg) (d : HashTableDirectoryPage) (st : Store)
    (np : Int) (bi : Nat) (hinvd : INVD cfg d st np) (hbi : bi < d.Size)
    (d2 : HashTableDirectoryPage) (st1 : Store) (ni : Nat) (ev : List Ev)
    (h : MergeStep cfg d st bi = Sum.inr (d2, st1, ni, ev)) :
    INVD cfg d2 st1 np ∧ ni < d2.Size ∧
    (∀ k v, AbsentD cfg d st k v → AbsentD cfg d2 st1 k v) := by
  obtain ⟨hdir, hbok, hpos, hfresh⟩ := hinvd
  have hbilt : bi < 2 ^ d.global_depth_ := by
    rw [← size_eq]
    exact hbi
  unfold MergeStep at h
  simp only [] at h
  set MI := d.GetSplitImageIndex bi with hMI0
  set BP := d.GetBucketPageId bi with hBP
  set MP := d.GetBucketPageId MI with hMP
  by_cases hc1 : 0 < d.GetLocalDepth bi ∧
      HashTableBucketPage.IsEmpty cfg.n (bucketAt cfg st BP) = true
  swap
  · rw [if_neg hc1] at h
    exact Sum.noConfusion h
  rw [if_pos hc1] at h
  by_cases hc2 : d.GetLocalDepth bi = d.GetLocalDepth MI
  swap
  · rw [if_neg hc2] at h
    exact Sum.noConfusion h
  rw [if_pos hc2] at h
  set D1 := MergeFan d BP MP with hD1
  obtain ⟨K, hKK⟩ : ∃ K, d.local_depths_ bi = K + 1 :=
    ⟨d.local_depths_ bi - 1, by
      have h5 : 0 < d.local_depths_ bi := hc1.1
      omega⟩
  have hMIe : MI = 2 ^ K ^^^ bi := by
    rw [hMI0]
    show bi ^^^ (1 <<< (d.local_depths_ bi - 1)) = _
    rw [hKK]
    show bi ^^^ (1 <<< (K + 1 - 1)) = _
    rw [Nat.add_sub_cancel, one_shl, Nat.xor_comm]
  have hKlt : K < d.global_depth_ := by
    have h5 := hdir.2.1 bi hbi
    omega
  have hMIlt : MI < 2 ^ d.global_depth_ := by
    rw [hMIe]
    exact Nat.xor_lt_two_pow (Nat.pow_lt_pow_right (by norm_num) hKlt) hbilt
  have hMIsz : MI < d.Size := by
    rw [size_eq]
    exact hMIlt
  have hMImodK : MI % 2 ^ K = bi % 2 ^ K := by
    rw [hMIe]
    exact xor_two_pow_mod
  have hMImodS : MI % 2 ^ (K + 1) ≠ bi % 2 ^ (K + 1) := by
    rw [hMIe]
    exact xor_two_pow_mod_succ_ne
  have hldMI : d.local_depths_ MI = K + 1 := by
    have h5 : d.local_depths_ bi = d.local_depths_ MI := hc2
    rw [← h5, hKK]
  have hBPMP : BP ≠ MP := by
    intro hc
    rw [hBP, hMP] at hc
    have hBd := hdir.2.2.2 bi hbi MI hMIsz hc
    have h5 := hBd.2
    rw [hKK] at h5
    exact hMImodS h5.symm
  have hMPBP : MP ≠ BP := fun hc => hBPMP hc.symm
  have hgroupM : ∀ j, j < 2 ^ d.global_depth_ →
      ((d.bucket_page_ids_ j = BP ∨ d.bucket_page_ids_ j = MP) ↔
        j % 2 ^ K = bi % 2 ^ K) := by
    intro j hj
    have hjsz : j < d.Size := by
      rw [size_eq]
      exact hj
    constructor
    · intro hc
      rcases hc with hc | hc
      · have hBd := hdir.2.2.2 j hjsz bi hbi (by rw [hBP] at hc; exact hc)
        have h5 := hBd.2
        rw [hBd.1, hKK] at h5
        rw [← mod_tower (Nat.le_succ K) j, ← mod_tower (Nat.le_succ K) bi, h5]
      · have hBd := hdir.2.2.2 j hjsz MI hMIsz (by rw [hMP] at hc; exact hc)
        have h5 := hBd.2
        rw [hBd.1, hldMI] at h5
        rw [← mod_tower (Nat.le_succ K) j, h5, mod_tower (Nat.le_succ K) MI, hMImodK]
    · intro hc
      rcases mod_succ_resolve hc with h5 | h5
      · left
        have hAd := hdir.2.2.1 bi hbi j hjsz
          (by rw [hKK]; exact h5.symm)
        rw [hBP]
        exact hAd.2
      · right
        have h6 : j % 2 ^ (K + 1) = MI % 2 ^ (K + 1) := by
          rw [hMIe]
          exact h5
        have hAd := hdir.2.2.1 MI hMIsz j hjsz
          (by rw [hldMI]; exact h6.symm)
        rw [hMP]
        exact hAd.2
  have hfan := mergeFan_spec d BP MP
  rw [← hD1] at hfan
  have hgd1 : D1.global_depth_ = d.global_depth_ := hfan.1
  have hPid1 : ∀ j, j < 2 ^ d.global_depth_ →
      D1.bucket_page_ids_ j
        = if j % 2 ^ K = bi % 2 ^ K then MP else d.bucket_page_ids_ j := by
    intro j hj
    have hjsz : j < d.Size := by
      rw [size_eq]
      exact hj
    have hf := (hfan.2.2 j hjsz).1
    by_cases hjG : j % 2 ^ K = bi % 2 ^ K
    · rw [hf, if_pos ((hgroupM j hj).mpr hjG), if_pos hjG]
    · rw [hf, if_neg (fun hc => hjG ((hgroupM j hj).mp hc)), if_neg hjG]
  have hLd1 : ∀ j, j < 2 ^ d.global_depth_ →
      D1.local_depths_ j
        = if j % 2 ^ K = bi % 2 ^ K then K else d.local_depths_ j := by
    intro j hj
    have hjsz : j < d.Size := by
      rw [size_eq]
      exact hj
    have hf := (hfan.2.2 j hjsz).2
    by_cases hjG : j % 2 ^ K = bi % 2 ^ K
    · rw [hf, if_pos ((hgroupM j hj).mpr hjG), if_pos hjG]
      have hldj : d.local_depths_ j = K + 1 := by
        rcases (hgroupM j hj).mpr hjG with hc | hc
        · have hBd := hdir.2.2.2 j hjsz bi hbi (by rw [hBP] at hc; exact hc)
          rw [hBd.1, hKK]
        · have hBd := hdir.2.2.2 j hjsz MI hMIsz (by rw [hMP] at hc; exact hc)
          rw [hBd.1, hldMI]
      rw [hldj]
      omega
    · rw [hf, if_neg (fun hc => hjG ((hgroupM j hj).mp hc)), if_neg hjG]
  have hdirD1 : DirInv cfg D1 := by
    refine ⟨?_, ?_, ?_, ?_⟩
    · rw [hgd1]
      exact hdir.1
    · intro i hi
      rw [size_eq, hgd1] at hi
      rw [hLd1 i hi, hgd1]
      by_cases hc : i % 2 ^ K = bi % 2 ^ K
      · rw [if_pos hc]
        omega
      · rw [if_neg hc]
        exact hdir.2.1 i (by rw [size_eq]; exact hi)
    · intro i hi j hj hcong
      rw [size_eq, hgd1] at hi hj
      by_cases hci : i % 2 ^ K = bi % 2 ^ K
      · rw [hLd1 i hi, if_pos hci] at hcong
        have hcj : j % 2 ^ K = bi % 2 ^ K := by
          rw [← hcong]
          exact hci
        rw [hLd1 j hj, if_pos hcj, hLd1 i hi, if_pos hci,
          hPid1 j hj, if_pos hcj, hPid1 i hi, if_pos hci]
        exact ⟨rfl, rfl⟩
      · rw [hLd1 i hi, if_neg hci] at hcong
        have hAd := hdir.2.2.1 i (by rw [size_eq]; exact hi) j
          (by rw [size_eq]; exact hj) hcong
        have hcj : ¬ (j % 2 ^ K = bi % 2 ^ K) := by
          intro hc
          have hjg := (hgroupM j hj).mpr hc
          rw [hAd.2] at hjg
          exact hci ((hgroupM i hi).mp hjg)
        rw [hLd1 j hj, if_neg hcj, hLd1 i hi, if_neg hci,
          hPid1 j hj, if_neg hcj, hPid1 i hi, if_neg hci]
        exact ⟨hAd.1, hAd.2⟩
    · intro i hi j hj hpq
      rw [size_eq, hgd1] at hi hj
      by_cases hci : i % 2 ^ K = bi % 2 ^ K
      · by_cases hcj : j % 2 ^ K = bi % 2 ^ K
        · rw [hLd1 i hi, if_pos hci, hLd1 j hj, if_pos hcj]
          refine ⟨rfl, ?_⟩
          rw [hci, hcj]
        · rw [hPid1 i hi, if_pos hci, hPid1 j hj, if_neg hcj] at hpq
          exact absurd ((hgroupM j hj).mp (Or.inr hpq.symm)) hcj
      · by_cases hcj : j % 2 ^ K = bi % 2 ^ K
        · rw [hPid1 i hi, if_neg hci, hPid1 j hj, if_pos hcj] at hpq
          exact absurd ((hgroupM i hi).mp (Or.inr hpq)) hci
        · rw [hPid1 i hi, if_neg hci, hPid1 j hj, if_neg hcj] at hpq
          have hBd := hdir.2.2.2 i (by rw [size_eq]; exact hi) j
            (by rw [size_eq]; exact hj) hpq
          rw [hLd1 i hi, if_neg hci, hLd1 j hj, if_neg hcj]
          exact ⟨hBd.1, hBd.2⟩
  have hbokD1 : ∀ j, j < 2 ^ d.global_depth_ →
      BucketOK cfg D1 (storeDel st BP) j := by
    intro j hj
    have hjsz : j < d.Size := by
      rw [size_eq]
      exact hj
    by_cases hjG : j % 2 ^ K = bi % 2 ^ K
    · have hpp : D1.GetBucketPageId j = MP := by
        show D1.bucket_page_ids_ j = MP
        rw [hPid1 j hj, if_pos hjG]
      have hldj : D1.GetLocalDepth j = K := by
        show D1.local_depths_ j = K
        rw [hLd1 j hj, if_pos hjG]
      have hbokM := hbok MI hMIsz
      refine ⟨?_, ?_, ?_, ?_⟩
      · rw [hpp, storeGet_del_ne st BP MP hMPBP]
        exact hbokM.1
      · rw [hpp, bucketAt_del_ne cfg st BP MP hMPBP]
        exact hbokM.2.1
      · rw [hpp, bucketAt_del_ne cfg st BP MP hMPBP]
        exact hbokM.2.2.1
      · intro t ht hr
        rw [hpp, bucketAt_del_ne cfg st BP MP hMPBP] at hr ⊢
        have hrt := hbokM.2.2.2 t ht hr
        rw [hldj]
        have h5 : d.GetLocalDepth MI = K + 1 := hldMI
        rw [h5] at hrt
        have h6 : Hash cfg ((bucketAt cfg st MP).KeyAt t) % 2 ^ K = MI % 2 ^ K := by
          rw [← mod_tower (Nat.le_succ K) (Hash cfg ((bucketAt cfg st MP).KeyAt t)),
            ← mod_tower (Nat.le_succ K) MI, hrt]
        rw [h6, hMImodK, hjG]
    · have hjg := fun hc => hjG ((hgroupM j hj).mp hc)
      have hjBP : d.bucket_page_ids_ j ≠ BP := fun hc => hjg (Or.inl hc)
      have hpp : D1.GetBucketPageId j = d.bucket_page_ids_ j := by
        show D1.bucket_page_ids_ j = _
        rw [hPid1 j hj, if_neg hjG]
      have hldj : D1.GetLocalDepth j = d.local_depths_ j := by
        show D1.local_depths_ j = _
        rw [hLd1 j hj, if_neg hjG]
      have hbokJ := hbok j hjsz
      refine ⟨?_, ?_, ?_, ?_⟩
      · rw [hpp, storeGet_del_ne st BP _ hjBP]
        exact hbokJ.1
      · rw [hpp, bucketAt_del_ne cfg st BP _ hjBP]
        exact hbokJ.2.1
      · rw [hpp, bucketAt_del_ne cfg st BP _ hjBP]
        exact hbokJ.2.2.1
      · intro t ht hr
        rw [hpp, bucketAt_del_ne cfg st BP _ hjBP] at hr ⊢
        have hrt := hbokJ.2.2.2 t ht hr
        rw [hldj]
        exact hrt
  have hposD1 : ∀ j, j < 2 ^ d.global_depth_ → (0 : Int) < D1.bucket_page_ids_ j := by
    intro j hj
    rw [hPid1 j hj]
    by_cases hjG : j % 2 ^ K = bi % 2 ^ K
    · rw [if_pos hjG, hMP]
      exact hpos MI hMIsz
    · rw [if_neg hjG]
      exact hpos j (by rw [size_eq]; exact hj)
  have hfreshD1 : ∀ e ∈ storeDel st BP, 0 < e.1 ∧ e.1 < np :=
    fun e he => hfresh e (mem_storeDel st BP e he)
  have hAbs1 : ∀ k v, AbsentD cfg d st k v →
      ∀ j, j < 2 ^ d.global_depth_ →
        ¬ containsPair cfg (storeDel st BP) (D1.bucket_page_ids_ j) k v := by
    intro k v habs j hj
    rw [hPid1 j hj]
    by_cases hjG : j % 2 ^ K = bi % 2 ^ K
    · rw [if_pos hjG]
      intro hc
      obtain ⟨t, ht, htr, hte⟩ := hc
      rw [bucketAt_del_ne cfg st BP MP hMPBP] at htr hte
      exact habs MI hMIsz ⟨t, ht, htr, hte⟩
    · rw [if_neg hjG]
      intro hc
      obtain ⟨t, ht, htr, hte⟩ := hc
      have hjBP : d.bucket_page_ids_ j ≠ BP :=
        fun hcc => hjG ((hgroupM j hj).mp (Or.inl hcc))
      rw [bucketAt_del_ne cfg st BP _ hjBP] at htr hte
      exact habs j (by rw [size_eq]; exact hj) ⟨t, ht, htr, hte⟩
  by_cases hshrink : D1.CanShrink = true
  · rw [if_pos hshrink, if_pos hshrink] at h
    injection h with h
    injection h with h1 h
    injection h with h2 h
    injection h with h3 h4
    subst h1
    subst h2
    subst h3
    have hshr := (canShrink_iff D1).mp hshrink
    have hgdpos : 0 < d.global_depth_ := by
      have h5 := hshr 0 (by rw [size_eq]; exact pow2_pos _)
      rw [show D1.GetGlobalDepth = D1.global_depth_ from rfl, hgd1] at h5
      omega
    have hgdD2 : (D1.DecrGlobalDepth).global_depth_ = d.global_depth_ - 1 := by
      show D1.global_depth_ - 1 = _
      rw [hgd1]
    have hszD2 : (D1.DecrGlobalDepth).Size = 2 ^ (d.global_depth_ - 1) := by
      rw [size_eq, hgdD2]
    have hsub : ∀ j : Nat, j < 2 ^ (d.global_depth_ - 1) → j < 2 ^ d.global_depth_ := by
      intro j hj
      exact lt_of_lt_of_le hj (Nat.pow_le_pow_right (by norm_num) (by omega))
    refine ⟨⟨?_, ?_, ?_, ?_⟩, ?_, ?_⟩
    · refine ⟨?_, ?_, ?_, ?_⟩
      · rw [hgdD2]
        have h5 := hdir.1
        omega
      · intro i hi
        rw [hszD2] at hi
        show D1.local_depths_ i ≤ D1.global_depth_ - 1
        have h5 := hshr i (by rw [size_eq, hgd1]; exact hsub i hi)
        have h6 : D1.local_depths_ i < D1.global_depth_ := h5
        omega
      · intro i hi j hj hcong
        rw [hszD2] at hi hj
        exact hdirD1.2.2.1 i (by rw [size_eq, hgd1]; exact hsub i hi) j
          (by rw [size_eq, hgd1]; exact hsub j hj) hcong
      · intro i hi j hj hpq
        rw [hszD2] at hi hj
        exact hdirD1.2.2.2 i (by rw [size_eq, hgd1]; exact hsub i hi) j
          (by rw [size_eq, hgd1]; exact hsub j hj) hpq
    · intro j hj
      rw [hszD2] at hj
      exact hbokD1 j (hsub j hj)
    · intro j hj
      rw [hszD2] at hj
      exact hposD1 j (hsub j hj)
    · exact hfreshD1
    · rw [hszD2]
      have h5 : MI &&& (D1.DecrGlobalDepth).GetGlobalDepthMask
          = MI % 2 ^ (d.global_depth_ - 1) := by
        rw [HashTableDirectoryPage.GetGlobalDepthMask, and_mask_mod, hgdD2]
      rw [h5]
      exact Nat.mod_lt _ (pow2_pos _)
    · intro k v habs j hj
      rw [hszD2] at hj
      exact hAbs1 k v habs j (hsub j hj)
  · rw [if_neg hshrink, if_neg hshrink] at h
    injection h with h
    injection h with h1 h
    injection h with h2 h
    injection h with h3 h4
    subst h1
    subst h2
    subst h3
    refine ⟨⟨hdirD1, ?_, ?_, hfreshD1⟩, ?_, ?_⟩
    · intro j hj
      rw [size_eq, hgd1] at hj
      exact hbokD1 j hj
    · intro j hj
      rw [size_eq, hgd1] at hj
      exact hposD1 j hj
    · rw [size_eq, hgd1]
      exact hMIlt
    · intro k v habs j hj
      rw [size_eq, hgd1] at hj
      exact hAbs1 k v habs j hj

end EHT

end BusTub

namespace BusTub

namespace EHT

theorem mergeLoop_invd (cfg : Cfg) : ∀ (fuel : Nat) (d : HashTableDirectoryPage)
    (st : Store) (bi : Nat) (dirty : Bool) (np : Int)
    (dF : HashTableDirectoryPage) (stF : Store) (evF : List Ev) (dirtyF : Bool),
    INVD cfg d st np → bi < d.Size →
    MergeLoop cfg fuel d st bi dirty = some (dF, stF, evF, dirtyF) →
    INVD cfg dF stF np ∧
      (∀ k v, AbsentD cfg d st k v → AbsentD cfg dF stF k v) := by
  intro fuel
  induction fuel with
  | zero =>
    intro d st bi dirty np dF stF evF dirtyF _ _ h
    exact absurd h (by simp [MergeLoop])
  | succ fuel ih =>
    intro d st bi dirty np dF stF evF dirtyF hinvd hbi h
    unfold MergeLoop at h
    cases hstep : MergeStep cfg d st bi with
    | inl ev0 =>
      rw [hstep] at h
      simp only [] at h
      injection h with h
      injection h with h1 h
      injection h with h2 h
      injection h with h3 h4
      subst h1
      subst h2
      exact ⟨hinvd, fun k v ha => ha⟩
    | inr t =>
      obtain ⟨d2, st1, ni, ev0⟩ := t
      rw [hstep] at h
      simp only [] at h
      have hms := mergeStep_invd cfg d st np bi hinvd hbi d2 st1 ni ev0 hstep
      cases hrec : MergeLoop cfg fuel d2 st1 ni true with
      | none =>
        rw [hrec] at h
        exact absurd h (by simp)
      | some t2 =>
        obtain ⟨dF2, stF2, evF2, dirtyF2⟩ := t2
        rw [hrec] at h
        simp only [] at h
        injection h with h
        injection h with h1 h
        injection h with h2 h
        injection h with h3 h4
        subst h1
        subst h2
        have hres := ih d2 st1 ni true np dF2 stF2 evF2 dirtyF2 hms.1 hms.2.1 hrec
        exact ⟨hres.1, fun k v ha => hres.2 k v (hms.2.2 k v ha)⟩

theorem merge_inv (cfg : Cfg) (s : HT) (k v : Nat) (s2 : HT) (ev : List Ev)
    (h0 : 0 < cfg.n) (hinvd : INVD cfg s.dir s.store s.next_pid)
    (h : Merge cfg s k v = some (s2, ev)) :
    INV cfg s2 ∧ s2.next_pid = s.next_pid ∧
    (∀ k2 v2, AbsentD cfg s.dir s.store k2 v2 → AbsentD cfg s2.dir s2.store k2 v2) := by
  unfold Merge at h
  simp only [] at h
  cases hloop : MergeLoop cfg (cfg.maxDepth + 1) s.dir s.store
      (KeyToDirectoryIndex cfg k s.dir) false with
  | none =>
    rw [hloop] at h
    exact absurd h (by simp)
  | some t =>
    obtain ⟨dF, stF, ev0, dirty⟩ := t
    rw [hloop] at h
    simp only [] at h
    injection h with h
    injection h with h1 h2
    subst h1
    have hml := mergeLoop_invd cfg (cfg.maxDepth + 1) s.dir s.store
      (KeyToDirectoryIndex cfg k s.dir) false s.next_pid dF stF ev0 dirty hinvd
      (keyToDirectoryIndex_lt cfg k s.dir) hloop
    exact ⟨⟨h0, hml.1⟩, rfl, fun k2 v2 ha => hml.2 k2 v2 ha⟩

theorem remove_inv (cfg : Cfg) (s : HT) (k v : Nat) (r : Bool) (s2 : HT)
    (ev : List Ev) (hinv : INV cfg s) (h : Remove cfg s k v = some (r, s2, ev)) :
    INV cfg s2 ∧ AbsentD cfg s2.dir s2.store k v := by
  obtain ⟨h0, hdir, hbok, hpos, hfresh⟩ := hinv
  have hszidx : KeyToDirectoryIndex cfg k s.dir < s.dir.Size :=
    keyToDirectoryIndex_lt cfg k s.dir
  have hbokI := hbok _ hszidx
  unfold BucketOK at hbokI
  have hwfold := hbokI.2.1
  have hndold := hbokI.2.2.1
  have hidxmod : Hash cfg k % 2 ^ s.dir.global_depth_
      = KeyToDirectoryIndex cfg k s.dir := (keyToDirectoryIndex_eq cfg k s.dir).symm
  have hother : ∀ j, j < s.dir.Size →
      s.dir.GetBucketPageId j ≠ s.dir.GetBucketPageId (KeyToDirectoryIndex cfg k s.dir) →
      ∀ t, t < cfg.n →
        (bucketAt cfg s.store (s.dir.GetBucketPageId j)).IsReadable t = true →
        (bucketAt cfg s.store (s.dir.GetBucketPageId j)).Entry t ≠ (k, v) := by
    intro j hj hpj t ht htr hte
    have hbokJ := hbok j hj
    have hkey : (bucketAt cfg s.store (s.dir.GetBucketPageId j)).KeyAt t = k :=
      congrArg Prod.fst hte
    have hrt := hbokJ.2.2.2 t ht htr
    rw [hkey] at hrt
    have hLle : s.dir.local_depths_ j ≤ s.dir.global_depth_ := hdir.2.1 j hj
    have hidxcong : j % 2 ^ s.dir.local_depths_ j
        = KeyToDirectoryIndex cfg k s.dir % 2 ^ s.dir.local_depths_ j := by
      have h5 : Hash cfg k % 2 ^ s.dir.local_depths_ j
          = j % 2 ^ s.dir.local_depths_ j := hrt
      rw [← h5, ← mod_tower hLle (Hash cfg k), hidxmod]
    have hAd := hdir.2.2.1 j hj (KeyToDirectoryIndex cfg k s.dir) hszidx hidxcong
    exact hpj hAd.2.symm
  obtain ⟨hremA, hremO, hremW, hremR, hremF⟩ :=
    HashTableBucketPage.remove_spec cfg.n
      (bucketAt cfg s.store
        (s.dir.GetBucketPageId (KeyToDirectoryIndex cfg k s.dir))) k v hwfold
  unfold Remove at h
  simp only [] at h
  by_cases hr1 : (HashTableBucketPage.Remove cfg.n
      (bucketAt cfg s.store (KeyToPageId cfg k s.dir)) k v).1 = true
  · rw [if_pos hr1, if_pos hr1] at h
    have hnd2 : NoDupPairs cfg.n (HashTableBucketPage.Remove cfg.n
        (bucketAt cfg s.store
          (s.dir.GetBucketPageId (KeyToDirectoryIndex cfg k s.dir))) k v).2 :=
      HashTableBucketPage.nodup_of_restrict cfg.n _ _ hndold
        (fun j _ => HashTableBucketPage.entry_of_array_eq hremA j)
        (fun j hj hr2 => by
          rw [hremR j hj] at hr2
          by_cases hc : (bucketAt cfg s.store
              (s.dir.GetBucketPageId (KeyToDirectoryIndex cfg k s.dir))).Entry j
              = (k, v)
          · rw [if_pos hc] at hr2
            exact Bool.noConfusion hr2
          · rw [if_neg hc] at hr2
            exact hr2)
    have hro2 : ∀ t < cfg.n, (HashTableBucketPage.Remove cfg.n
        (bucketAt cfg s.store
          (s.dir.GetBucketPageId (KeyToDirectoryIndex cfg k s.dir))) k v).2.IsReadable t
          = true →
        Hash cfg ((HashTableBucketPage.Remove cfg.n
          (bucketAt cfg s.store
            (s.dir.GetBucketPageId (KeyToDirectoryIndex cfg k s.dir))) k v).2.KeyAt t)
          % 2 ^ s.dir.GetLocalDepth (KeyToDirectoryIndex cfg k s.dir)
        = KeyToDirectoryIndex cfg k s.dir
          % 2 ^ s.dir.GetLocalDepth (KeyToDirectoryIndex cfg k s.dir) := by
      intro t ht hr2
      rw [HashTableBucketPage.keyAt_of_array_eq hremA t]
      rw [hremR t ht] at hr2
      by_cases hc : (bucketAt cfg s.store
          (s.dir.GetBucketPageId (KeyToDirectoryIndex cfg k s.dir))).Entry t = (k, v)
      · rw [if_pos hc] at hr2
        exact Bool.noConfusion hr2
      · rw [if_neg hc] at hr2
        exact hbokI.2.2.2 t ht hr2
    have hinv1 : INVD cfg s.dir
        (storeSet s.store (s.dir.GetBucketPageId (KeyToDirectoryIndex cfg k s.dir))
          (HashTableBucketPage.Remove cfg.n
            (bucketAt cfg s.store
              (s.dir.GetBucketPageId (KeyToDirectoryIndex cfg k s.dir))) k v).2)
        s.next_pid :=
      invd_update_bucket cfg s.dir s.store s.next_pid ⟨hdir, hbok, hpos, hfresh⟩
        (KeyToDirectoryIndex cfg k s.dir) hszidx _ hremW hnd2 hro2
    have hAbs1 : AbsentD cfg s.dir
        (storeSet s.store (s.dir.GetBucketPageId (KeyToDirectoryIndex cfg k s.dir))
          (HashTableBucketPage.Remove cfg.n
            (bucketAt cfg s.store
              (s.dir.GetBucketPageId (KeyToDirectoryIndex cfg k s.dir))) k v).2)
        k v := by
      intro j hj hc
      obtain ⟨t, ht, htr, hte⟩ := hc
      by_cases hpj : s.dir.GetBucketPageId j
          = s.dir.GetBucketPageId (KeyToDirectoryIndex cfg k s.dir)
      · rw [hpj, bucketAt_set_self] at htr hte
        rw [HashTableBucketPage.entry_of_array_eq hremA t] at hte
        rw [hremR t ht, if_pos hte] at htr
        exact Bool.noConfusion htr
      · rw [bucketAt_set_ne _ _ _ _ _ hpj] at htr hte
        exact hother j hj hpj t ht htr hte
    cases hmg : Merge cfg { s with store := storeSet s.store (KeyToPageId cfg k s.dir) (HashTableBucketPage.Remove cfg.n (bucketAt cfg s.store (KeyToPageId cfg k s.dir)) k v).2 } k v with
    | none =>
      rw [hmg] at h
      exact absurd h (by simp [withTailMerge])
    | some t2 =>
      obtain ⟨s21, ev1⟩ := t2
      rw [hmg] at h
      unfold withTailMerge at h
      injection h with h
      injection h with h1 h
      injection h with h2 h3
      subst h2
      have hmi := merge_inv cfg _ k v s21 ev1 h0 hinv1 hmg
      exact ⟨hmi.1, hmi.2.2 k v hAbs1⟩
  · rw [if_neg hr1, if_neg hr1] at h
    injection h with h
    injection h with h1 h
    injection h with h2 h3
    subst h2
    refine ⟨⟨h0, hdir, hbok, hpos, hfresh⟩, ?_⟩
    intro j hj hc
    obtain ⟨t, ht, htr, hte⟩ := hc
    by_cases hpj : s.dir.GetBucketPageId j
        = s.dir.GetBucketPageId (KeyToDirectoryIndex cfg k s.dir)
    · rw [hpj] at htr hte
      exact hr1 (hremF.mpr ⟨t, ht, htr, hte⟩)
    · exact hother j hj hpj t ht htr hte

theorem reachable_inv (cfg : Cfg) (s : HT) (h0 : 0 < cfg.n)
    (h : Reachable cfg s) : INV cfg s := by
  induction h with
  | init => exact inv_init cfg h0
  | insert s1 s2 k v fuel r ev _ hins ih =>
    exact (insert_inv cfg fuel s1 k v r s2 ev ih hins).1
  | remove s1 s2 k v r ev _ hrem ih =>
    exact (remove_inv cfg s1 k v r s2 ev ih hrem).1

end EHT

end BusTub

namespace BusTub

namespace EHT

theorem insert_count_one (cfg : Cfg) (s : HT) (k v : Nat) (hinv : INV cfg s)
    (fuel : Nat) (s2 : HT) (ev : List Ev)
    (h : Insert cfg fuel s k v = some (true, s2, ev)) :
    ((GetValue cfg s2 k).1.2).count v = 1 := by
  have hins := insert_inv cfg fuel s k v true s2 ev hinv h
  obtain ⟨t, ht, htr, hte⟩ := hins.2 rfl
  have hnd : NoDupPairs cfg.n (bucketAt cfg s2.store (KeyToPageId cfg k s2.dir)) :=
    (hins.1.2.2.1 (KeyToDirectoryIndex cfg k s2.dir)
      (keyToDirectoryIndex_lt cfg k s2.dir)).2.2.1
  rw [getValue_count cfg s2.store (KeyToPageId cfg k s2.dir) k v s2 rfl rfl]
  apply countP_eq_one_of_unique _ (List.range cfg.n) (List.nodup_range cfg.n) t
    (List.mem_range.mpr ht)
  · have hk : (bucketAt cfg s2.store (KeyToPageId cfg k s2.dir)).KeyAt t = k :=
      congrArg Prod.fst hte
    have hv : (bucketAt cfg s2.store (KeyToPageId cfg k s2.dir)).ValueAt t = v :=
      congrArg Prod.snd hte
    simp [htr, hk, hv]
  · intro u hu hup
    have hu2 := List.mem_range.mp hu
    simp only [Bool.and_eq_true, beq_iff_eq] at hup
    obtain ⟨⟨hur, huk⟩, huv⟩ := hup
    by_contra hne
    exact hnd u hu2 t ht hne hur htr
      (by rw [hte, HashTableBucketPage.Entry, huk, huv])

theorem insert_dup_rejected (cfg : Cfg) (s : HT) (k v : Nat)
    (hcp : containsPair cfg s.store (KeyToPageId cfg k s.dir) k v)
    (fuel : Nat) (r : Bool) (s2 : HT) (ev : List Ev)
    (h : Insert cfg fuel s k v = some (r, s2, ev)) : r = false ∧ s2 = s := by
  obtain ⟨t, ht, htr, hte⟩ := hcp
  have hbf : HashTableBucketPage.Insert cfg.n
      (bucketAt cfg s.store (KeyToPageId cfg k s.dir)) k v
      = (false, bucketAt cfg s.store (KeyToPageId cfg k s.dir)) :=
    HashTableBucketPage.insert_false_of_present cfg.n _ k v ⟨t, ht, htr, hte⟩
  unfold Insert at h
  simp only [] at h
  rw [hbf] at h
  rw [if_neg (fun hc : (false, bucketAt cfg s.store (KeyToPageId cfg k s.dir)).1 = true
        => Bool.false_ne_true hc)] at h
  rw [if_neg (fun hc : (false, bucketAt cfg s.store (KeyToPageId cfg k s.dir)).1 = true
        => Bool.false_ne_true hc)] at h
  cases fuel with
  | zero => exact absurd h (by simp [SplitInsert, withTail])
  | succ fuel =>
    have hsc : (SplitScan cfg.n
        (bucketAt cfg s.store (s.dir.GetBucketPageId (KeyToDirectoryIndex cfg k s.dir)))
        k v).1 = true :=
      (splitScan_fst_iff cfg.n _ k v).mpr ⟨t, ht, htr, hte⟩
    have hstep : SplitStep cfg s k v = some (.inl (false, s,
        [.fetch directory_page_id,
         .fetch (s.dir.GetBucketPageId (KeyToDirectoryIndex cfg k s.dir)),
         .unpin directory_page_id false,
         .unpin (s.dir.GetBucketPageId (KeyToDirectoryIndex cfg k s.dir)) false])) := by
      unfold SplitStep
      simp only []
      rw [if_pos hsc]
    unfold SplitInsert at h
    rw [hstep] at h
    simp only [] at h
    unfold withTail at h
    simp only [] at h
    injection h with h
    injection h with h1 h
    injection h with h2 h3
    exact ⟨h1.symm, h2.symm⟩

theorem remove_not_in_getvalue (cfg : Cfg) (s : HT) (k v : Nat) (hinv : INV cfg s)
    (r : Bool) (s2 : HT) (ev : List Ev) (h : Remove cfg s k v = some (r, s2, ev)) :
    v ∉ (GetValue cfg s2 k).1.2 := by
  have hrm := remove_inv cfg s k v r s2 ev hinv h
  intro hmem
  obtain ⟨i, hi, hr2, he⟩ := (getValue_mem_iff cfg s2 k v).mp hmem
  exact hrm.2 (KeyToDirectoryIndex cfg k s2.dir)
    (keyToDirectoryIndex_lt cfg k s2.dir) ⟨i, hi, hr2, he⟩

end EHT

end BusTub

/-- C1 (amended): whenever `SplitInsert` completes and returns true — after a
split with redistribution, a directory doubling, or a recursive retry — the
new pair `(k, v)` is readable in the bucket its key routes to under the
updated directory.  The original claim's further assertion that the
operation eventually returns true rather than aborting is refuted
separately: a table whose keys all hash alike aborts at `MAX_DEPTH`. -/
theorem C1_split_insert_amended (cfg : BusTub.Cfg) (fuel : Nat) (s : BusTub.HT)
    (k v : Nat) (s2 : BusTub.HT) (ev : List BusTub.Ev)
    (hinv : BusTub.EHT.INV cfg s)
    (h : BusTub.EHT.SplitInsert cfg fuel s k v = some (true, s2, ev)) :
    BusTub.EHT.containsPair cfg s2.store (BusTub.EHT.KeyToPageId cfg k s2.dir) k v :=
  (BusTub.EHT.splitInsert_inv cfg fuel s k v true s2 ev hinv h).2 rfl

/-- Witness for C1: a concrete completed `SplitInsert` on the fresh small
table, whose routed bucket then holds the pair. -/
theorem C1_split_insert_witness :
    BusTub.EHT.SplitInsert BusTub.smallCfg 1 (BusTub.initHT BusTub.smallCfg) 0 0
      = some (true, BusTub.splitWitnessHT,
          [BusTub.Ev.fetch BusTub.directory_page_id, BusTub.Ev.fetch 1,
           BusTub.Ev.unpin BusTub.directory_page_id false, BusTub.Ev.unpin 1 true]) ∧
    BusTub.EHT.containsPair BusTub.smallCfg BusTub.splitWitnessHT.store
      (BusTub.EHT.KeyToPageId BusTub.smallCfg 0 BusTub.splitWitnessHT.dir) 0 0 :=
  ⟨rfl, C1_split_insert_amended BusTub.smallCfg 1 (BusTub.initHT BusTub.smallCfg) 0 0
    BusTub.splitWitnessHT
    [BusTub.Ev.fetch BusTub.directory_page_id, BusTub.Ev.fetch 1,
     BusTub.Ev.unpin BusTub.directory_page_id false, BusTub.Ev.unpin 1 true]
    (BusTub.EHT.inv_init BusTub.smallCfg (by decide)) rfl⟩

/-- With every key hashing to 0 and the directory already at
`MAX_DEPTH = 9` everywhere, inserting the fresh pair `(0, 496)` into the
full colliding bucket finds no duplicate and no free slot, reaches split
case A, and aborts — for every recursion fuel. -/
theorem splitInsert_brink_aborts :
    ∀ fuel, BusTub.EHT.SplitInsert BusTub.brinkCfg fuel BusTub.brinkHT 0 496 = none := by
  have hidx : BusTub.EHT.KeyToDirectoryIndex BusTub.brinkCfg 0 BusTub.brinkHT.dir = 0 := rfl
  have hpid : BusTub.brinkHT.dir.GetBucketPageId 0 = 1 := rfl
  have hbkt : BusTub.EHT.bucketAt BusTub.brinkCfg BusTub.brinkHT.store 1
      = BusTub.fullBucket496 := rfl
  have hfst : (BusTub.EHT.SplitScan BusTub.brinkCfg.n BusTub.fullBucket496 0 496).1
      = false := by
    rw [Bool.eq_false_iff]
    intro hc
    obtain ⟨i, hi, hrd, he⟩ :=
      (BusTub.EHT.splitScan_fst_iff BusTub.brinkCfg.n BusTub.fullBucket496 0 496).mp hc
    have hi2 : i < 496 := hi
    rw [BusTub.fullBucket496_entry i hi2] at he
    have hs := congrArg Prod.snd he
    simp only [] at hs
    omega
  have hsnd : (BusTub.EHT.SplitScan BusTub.brinkCfg.n BusTub.fullBucket496 0 496).2
      = BusTub.brinkCfg.n :=
    BusTub.EHT.splitScanLoop_snd_of_all BusTub.brinkCfg.n BusTub.fullBucket496 0 496
      (List.range BusTub.brinkCfg.n) BusTub.brinkCfg.n
      (fun i hi => ⟨BusTub.fullBucket496_occupied i (List.mem_range.mp hi),
                    BusTub.fullBucket496_readable i (List.mem_range.mp hi)⟩)
  have hstep : BusTub.EHT.SplitStep BusTub.brinkCfg BusTub.brinkHT 0 496 = none := by
    unfold BusTub.EHT.SplitStep
    simp only []
    rw [hidx, hpid, hbkt, hfst]
    rw [if_neg (fun hc : (false : Bool) = true => Bool.false_ne_true hc)]
    rw [hsnd]
    rw [if_neg (fun hc : BusTub.brinkCfg.n ≠ BusTub.brinkCfg.n => hc rfl)]
    rw [if_pos (show BusTub.brinkHT.dir.GetLocalDepth 0 = BusTub.brinkHT.dir.GetGlobalDepth
          from rfl)]
    unfold BusTub.EHT.SplitCaseA
    rw [if_pos (show BusTub.brinkHT.dir.global_depth_ = BusTub.brinkCfg.maxDepth from rfl)]
  intro fuel
  cases fuel with
  | zero => rfl
  | succ fuel =>
    unfold BusTub.EHT.SplitInsert
    rw [hstep]

/-- Counterexample to C1's termination half: on the colliding table at
`MAX_DEPTH`, inserting the fresh pair `(0, 496)` never returns — already at
the ample recursion depth 10 the operation aborts with `DepthOverflow`
rather than eventually returning true. -/
theorem C1_depth_overflow_counterexample :
    BusTub.EHT.SplitInsert BusTub.brinkCfg 10 BusTub.brinkHT 0 496 = none :=
  splitInsert_brink_aborts 10

/-- C3: over every reachable table state, a completed `Insert(k, v)` that
returns true makes `GetValue(k)` report `v` exactly once; when `(k, v)` is
already present in the routed bucket, a completed `Insert` returns false and
leaves the table unchanged; and after a completed `Remove(k, v)`,
`GetValue(k)` no longer reports `v`. -/
theorem C3_insert_getvalue_remove (cfg : BusTub.Cfg) (s : BusTub.HT) (k v : Nat)
    (h0 : 0 < cfg.n) (hreach : BusTub.EHT.Reachable cfg s) :
    (∀ fuel s2 ev, BusTub.EHT.Insert cfg fuel s k v = some (true, s2, ev) →
        ((BusTub.EHT.GetValue cfg s2 k).1.2).count v = 1) ∧
    (∀ fuel r s2 ev,
        BusTub.EHT.containsPair cfg s.store (BusTub.EHT.KeyToPageId cfg k s.dir) k v →
        BusTub.EHT.Insert cfg fuel s k v = some (r, s2, ev) →
        r = false ∧ s2 = s) ∧
    (∀ r s2 ev, BusTub.EHT.Remove cfg s k v = some (r, s2, ev) →
        v ∉ (BusTub.EHT.GetValue cfg s2 k).1.2) := by
  have hinv := BusTub.EHT.reachable_inv cfg s h0 hreach
  refine ⟨?_, ?_, ?_⟩
  · intro fuel s2 ev h
    exact BusTub.EHT.insert_count_one cfg s k v hinv fuel s2 ev h
  · intro fuel r s2 ev hcp h
    exact BusTub.EHT.insert_dup_rejected cfg s k v hcp fuel r s2 ev h
  · intro r s2 ev h
    exact BusTub.EHT.remove_not_in_getvalue cfg s k v hinv r s2 ev h

/-- Witness for C3: the three clauses instantiated on the fresh small table
(reachable by construction). -/
theorem C3_insert_getvalue_remove_witness :
    (∀ fuel s2 ev,
        BusTub.EHT.Insert BusTub.smallCfg fuel (BusTub.initHT BusTub.smallCfg) 0 0
          = some (true, s2, ev) →
        ((BusTub.EHT.GetValue BusTub.smallCfg s2 0).1.2).count 0 = 1) ∧
    (∀ fuel r s2 ev,
        BusTub.EHT.containsPair BusTub.smallCfg (BusTub.initHT BusTub.smallCfg).store
          (BusTub.EHT.KeyToPageId BusTub.smallCfg 0 (BusTub.initHT BusTub.smallCfg).dir) 0 0 →
        BusTub.EHT.Insert BusTub.smallCfg fuel (BusTub.initHT BusTub.smallCfg) 0 0
          = some (r, s2, ev) →
        r = false ∧ s2 = BusTub.initHT BusTub.smallCfg) ∧
    (∀ r s2 ev,
        BusTub.EHT.Remove BusTub.smallCfg (BusTub.initHT BusTub.smallCfg) 0 0
          = some (r, s2, ev) →
        0 ∉ (BusTub.EHT.GetValue BusTub.smallCfg s2 0).1.2) :=
  C3_insert_getvalue_remove BusTub.smallCfg (BusTub.initHT BusTub.smallCfg) 0 0
    (by decide) BusTub.EHT.Reachable.init

/-- C5: after every completed index `Insert` and `Remove` — that is, in
every reachable table state — the directory invariants hold: D-1, every
local depth is at most the global depth, which is at most `MAX_DEPTH`; D-2,
slots congruent modulo `2^local_depth` with equal local depth share the
bucket page id; D-3, slots aliasing one bucket share one local depth; D-4,
the `CanShrink` guard of the shrink step holds exactly when every local
depth is below the global depth; D-5, routing uses the low global-depth
bits of the hash. -/
theorem C5_directory_invariants_hold (cfg : BusTub.Cfg) (s : BusTub.HT)
    (h0 : 0 < cfg.n) (hreach : BusTub.EHT.Reachable cfg s) :
    BusTub.EHT.DirectoryInvariants cfg s.dir ∧
    (s.dir.CanShrink = true ↔
      ∀ i < s.dir.Size, s.dir.GetLocalDepth i < s.dir.GetGlobalDepth) ∧
    (∀ k, BusTub.EHT.KeyToDirectoryIndex cfg k s.dir
      = BusTub.EHT.Hash cfg k % 2 ^ s.dir.GetGlobalDepth) := by
  have hinv := BusTub.EHT.reachable_inv cfg s h0 hreach
  obtain ⟨_, hdir, _, _, _⟩ := hinv
  refine ⟨⟨?_, ?_, ?_⟩, BusTub.EHT.canShrink_iff s.dir,
    fun k => BusTub.EHT.keyToDirectoryIndex_eq cfg k s.dir⟩
  · intro i hi
    exact ⟨hdir.2.1 i hi, hdir.1⟩
  · intro i hi j hj hcong hld
    exact (hdir.2.2.1 i hi j hj hcong).2.symm
  · intro i hi j hj hpid
    exact (hdir.2.2.2 i hi j hj hpid).1

/-- Witness for C5: the directory invariants at the fresh small table
(reachable by construction). -/
theorem C5_directory_invariants_witness :
    BusTub.EHT.DirectoryInvariants BusTub.smallCfg (BusTub.initHT BusTub.smallCfg).dir ∧
    ((BusTub.initHT BusTub.smallCfg).dir.CanShrink = true ↔
      ∀ i < (BusTub.initHT BusTub.smallCfg).dir.Size,
        (BusTub.initHT BusTub.smallCfg).dir.GetLocalDepth i
          < (BusTub.initHT BusTub.smallCfg).dir.GetGlobalDepth) ∧
    (∀ k, BusTub.EHT.KeyToDirectoryIndex BusTub.smallCfg k (BusTub.initHT BusTub.smallCfg).dir
      = BusTub.EHT.Hash BusTub.smallCfg k
          % 2 ^ (BusTub.initHT BusTub.smallCfg).dir.GetGlobalDepth) :=
  C5_directory_invariants_hold BusTub.smallCfg (BusTub.initHT BusTub.smallCfg)
    (by decide) BusTub.EHT.Reachable.init
